import Mathlib

/-!
# CubicSDR audio mixer (`src/audio/AudioThread.cpp`)

A shallow embedding of the audio output unit of CubicSDR: the bound-source
list (`bindThread` / `removeThread`), the gain accessors, the real-time mixing
callback `audioCallback`, and the sample-rate switch `setSampleRate`.

Modelling conventions.

* `AudioThread *` is a pointer `Ptr`; the objects live in a heap `Ptr → AudioThread`.
* Samples, gains and peaks (`float` / `double` in the source) are rationals.
  `audioCallback` computes with them exactly, which is enough for the
  statements about the data flow (which buffer is played, where its samples
  go, what the queues hold afterwards). `audioCallbackF` repeats the callback
  with every arithmetic result rounded to binary32 or binary64 as the source
  rounds it; the statement about the size of the output samples is made about
  it.
* Counters and cursors (`unsigned int`) are natural numbers; frame counts are
  taken in the range where `nBufferFrames * 2` does not wrap.
* The output buffer is the caller's memory, a list of samples; the callback is
  handed `nBufferFrames` stereo frames, that is `2 * nBufferFrames` samples.
* Every indexed access of the mixing loops is logged in a ghost trace
  (`Access`), so that statements about which buffer a sample came from, and
  about the indices used, can be made about the code as it runs.
-/

namespace CubicSDR

/-- Pointers to `AudioThread` objects. -/
abbrev Ptr := Nat

/-- Modelled from the spec: the `AudioThreadInput` buffer type, declared in
`AudioThread.h`: interleaved sample data, the sample rate, the channel count
and the pre-computed peak amplitude. -/
structure AudioThreadInput where
  data : List ℚ
  sampleRate : Int
  channels : Nat
  peak : ℚ
deriving DecidableEq, Repr

/-- The members of `class AudioThread` that the functions of
`AudioThread.cpp` read or write. `inputQueue` is a nullable pointer to the
unit's queue (oldest buffer first); `terminated` is `IOThread::isTerminated()`;
`streamOpen` / `streamRunning` / `streamRate` stand for the state of the RtAudio
handle `dac`; `parametersDeviceId` is `parameters.deviceId`. -/
structure AudioThread where
  currentInput : Option AudioThreadInput
  inputQueue : Option (List AudioThreadInput)
  audioQueuePtr : Nat
  underflowCount : Nat
  active : Bool
  outputDevice : Int
  gain : ℚ
  sampleRate : Int
  boundThreads : List Ptr
  terminated : Bool
  parametersDeviceId : Int
  streamOpen : Bool
  streamRunning : Bool
  streamRate : Int
deriving DecidableEq, Repr

/-- The constructor `AudioThread::AudioThread()`. -/
def AudioThread.new : AudioThread where
  currentInput := none
  inputQueue := none
  audioQueuePtr := 0
  underflowCount := 0
  active := false
  outputDevice := -1
  gain := 1
  sampleRate := 0
  boundThreads := []
  terminated := false
  parametersDeviceId := 0
  streamOpen := false
  streamRunning := false
  streamRate := 0

/-- The method `AudioThread::bindThread`: `push_back` unless `std::find` locates
`other`. -/
def AudioThread.bindThread (t : AudioThread) (other : Ptr) : AudioThread :=
  if other ∈ t.boundThreads then t
  else { t with boundThreads := t.boundThreads ++ [other] }

/-- The method `AudioThread::removeThread`: erase the position `std::find`
returns, that is the first occurrence of `other`, if there is one. -/
def AudioThread.removeThread (t : AudioThread) (other : Ptr) : AudioThread :=
  { t with boundThreads := t.boundThreads.erase other }

/-- The method `AudioThread::setGain`: the two range checks test and overwrite
the member `gain`, after which the member is assigned the argument. -/
def AudioThread.setGain (t : AudioThread) (gain_in : ℚ) : AudioThread :=
  let t1 := if t.gain < 0 then { t with gain := 0 } else t
  let t2 := if t1.gain > 2 then { t1 with gain := 2 } else t1
  { t2 with gain := gain_in }

/-- The method `AudioThread::getGain`. -/
def AudioThread.getGain (t : AudioThread) : ℚ := t.gain

/-- The method `AudioThread::getSampleRate`. -/
def AudioThread.getSampleRate (t : AudioThread) : Int := t.sampleRate

/-- The method `AudioThread::isActive`. -/
def AudioThread.isActive (t : AudioThread) : Bool := t.active

/-- Modelled from the spec: `IOThread::isTerminated` (declared in `IOThread.h`),
whether termination of the unit has been requested. -/
def AudioThread.isTerminated (t : AudioThread) : Bool := t.terminated

/-! ## The mixing callback -/

/-- Ghost record of one indexed access made by the mixing code: a read of
sample `idx` of the buffer `buf`, or a write of sample `idx` of the output
buffer. -/
inductive Access where
  | read (buf : AudioThreadInput) (idx : Nat)
  | write (idx : Nat)
deriving DecidableEq, Repr

/-- Modelled from the spec: `try_pop` of the per-source queue
(`ThreadBlockingQueue.h`), the non-blocking pop: on an empty queue it fails and
leaves `item` alone, otherwise it moves the oldest buffer into `item`. The
result is the success flag, the new `item` and the remaining queue. -/
def tryPop (q : List AudioThreadInput) (item : Option AudioThreadInput) :
    Bool × Option AudioThreadInput × List AudioThreadInput :=
  match q with
  | [] => (false, item, [])
  | b :: rest => (true, some b, rest)

/-- The call `memset(out, 0, n * sizeof(float))`: the first `n` samples become
zero. -/
def memsetZero : List ℚ → Nat → List ℚ
  | out, 0 => out
  | [], _ + 1 => []
  | _ :: xs, n + 1 => 0 :: memsetZero xs n

/-- The statement `out[i] += v`. An index outside the buffer changes nothing
here; the access is still logged by the caller. -/
def addAt : List ℚ → Nat → ℚ → List ℚ
  | [], _, _ => []
  | x :: xs, 0, v => (x + v) :: xs
  | x :: xs, i + 1, v => x :: addAt xs i v

/-- The normalising loop `for (i = 0; i < n; i++) out[i] *= invPeak`. -/
def scaleLoop (invPeak : ℚ) : List ℚ → Nat → List ℚ
  | out, 0 => out
  | [], _ + 1 => []
  | x :: xs, n + 1 => (x * invPeak) :: scaleLoop invPeak xs n

/-- The accumulators of one callback invocation: the output buffer, the running
`peak`, and the ghost trace. -/
structure Mix where
  out : List ℚ
  peak : ℚ
  trace : List Access
deriving DecidableEq, Repr

/-- What a sample loop leaves behind: the source's `currentInput`,
`audioQueuePtr` and queue, the local `mixPeak`, the output buffer and the ghost
trace. -/
structure LoopOut where
  currentInput : Option AudioThreadInput
  audioQueuePtr : Nat
  queue : List AudioThreadInput
  mixPeak : ℚ
  out : List ℚ
  trace : List Access
deriving DecidableEq, Repr

/-- The head of both sample loops (lines 162-178 and 189-204): when the cursor
has reached the end of the in-flight buffer, reset the cursor, drop the buffer
and pop the next one, raising `mixPeak` to its `peak * gain` if that is larger.
`none` is the `break` taken when the queue has nothing left; the loops then
leave the source with no in-flight buffer and the cursor at 0. -/
def refill (gain : ℚ) (cur : AudioThreadInput) (ptr : Nat) (q : List AudioThreadInput)
    (mixPeak : ℚ) : Option (AudioThreadInput × Nat × List AudioThreadInput × ℚ) :=
  if cur.data.length ≤ ptr then
    match tryPop q none with
    | (true, some b, rest) =>
      let srcPeak := b.peak * gain
      some (b, 0, rest, if mixPeak < srcPeak then srcPeak else mixPeak)
    | _ => none
  else some (cur, ptr, q, mixPeak)

/-- The single-channel loop `for (i = 0; i < nBufferFrames; i++)`, lines
160-185, run for `n` more frames from frame `i`. -/
def monoLoop (gain : ℚ) : Nat → Nat → AudioThreadInput → Nat → List AudioThreadInput →
    ℚ → List ℚ → List Access → LoopOut
  | 0, _, cur, ptr, q, mixPeak, out, tr => ⟨some cur, ptr, q, mixPeak, out, tr⟩
  | n + 1, i, cur, ptr, q, mixPeak, out, tr =>
    match refill gain cur ptr q mixPeak with
    | none => ⟨none, 0, q, mixPeak, out, tr⟩
    | some (c, p, rest, mp) =>
      if c.data.length ≠ 0 then
        let v := c.data.getD p 0 * gain
        monoLoop gain n (i + 1) c (p + 1) rest mp
          (addAt (addAt out (i * 2) v) (i * 2 + 1) v)
          (tr ++ [Access.read c p, Access.write (i * 2), Access.write (i * 2 + 1)])
      else monoLoop gain n (i + 1) c (p + 1) rest mp out tr

/-- The multi-channel loop `for (i = 0; i < iMax; i++)`, lines 187-210, run for
`n` more samples from output index `i`. -/
def multiLoop (gain : ℚ) : Nat → Nat → AudioThreadInput → Nat → List AudioThreadInput →
    ℚ → List ℚ → List Access → LoopOut
  | 0, _, cur, ptr, q, mixPeak, out, tr => ⟨some cur, ptr, q, mixPeak, out, tr⟩
  | n + 1, i, cur, ptr, q, mixPeak, out, tr =>
    match refill gain cur ptr q mixPeak with
    | none => ⟨none, 0, q, mixPeak, out, tr⟩
    | some (c, p, rest, mp) =>
      if c.data.length ≠ 0 then
        multiLoop gain n (i + 1) c (p + 1) rest mp
          (addAt out i (c.data.getD p 0 * gain))
          (tr ++ [Access.read c p, Access.write i])
      else multiLoop gain n (i + 1) c (p + 1) rest mp out tr

/-- The stale-rate loop, lines 122-131: pop until a buffer of the owner's rate
turns up; every other popped buffer is dropped. -/
def discardStale (rate : Int) : List AudioThreadInput → Option AudioThreadInput →
    Option AudioThreadInput × List AudioThreadInput
  | [], cur => (cur, [])
  | b :: rest, _ => if b.sampleRate = rate then (some b, rest) else discardStale rate rest none

/-- The test of line 106 that makes the callback pass over a bound source. -/
def AudioThread.passedOver (t : AudioThread) : Bool :=
  t.terminated || t.inputQueue.isNone || (t.inputQueue.getD []).isEmpty || !t.active

/-- The body of the loop over `boundThreads` (lines 100-213) for one bound
source `t`, with `rate` the owner's `getSampleRate()`. -/
def mixThread (rate : Int) (nBufferFrames : Nat) (t : AudioThread) (m : Mix) :
    AudioThread × Mix :=
  if t.passedOver then (t, m)
  else
    let q := t.inputQueue.getD []
    match t.currentInput with
    | none =>
      let r := tryPop q none
      ({ t with audioQueuePtr := 0, currentInput := r.2.1, inputQueue := some r.2.2 }, m)
    | some cur0 =>
      let s : Option AudioThreadInput × List AudioThreadInput × Nat :=
        if cur0.sampleRate ≠ rate then
          ((discardStale rate q (some cur0)).1, (discardStale rate q (some cur0)).2, 0)
        else (some cur0, q, t.audioQueuePtr)
      match s with
      | (none, q1, ptr1) =>
        ({ t with currentInput := none, inputQueue := some q1, audioQueuePtr := ptr1 }, m)
      | (some cur, q1, ptr1) =>
        if cur.channels = 0 ∨ cur.data.length = 0 then
          if ¬ q1.isEmpty then
            let r := tryPop q1 none
            ({ t with audioQueuePtr := 0, currentInput := r.2.1, inputQueue := some r.2.2 }, m)
          else
            ({ t with currentInput := some cur, inputQueue := some q1, audioQueuePtr := ptr1 }, m)
        else
          let mixPeak := cur.peak * t.gain
          let r :=
            if cur.channels = 1 then
              monoLoop t.gain nBufferFrames 0 cur ptr1 q1 mixPeak m.out m.trace
            else
              multiLoop t.gain (cur.channels * nBufferFrames) 0 cur ptr1 q1 mixPeak m.out m.trace
          ({ t with currentInput := r.currentInput, inputQueue := some r.queue,
                    audioQueuePtr := r.audioQueuePtr },
           { out := r.out, peak := m.peak + r.mixPeak, trace := r.trace })

/-- The loop `for (j = 0; j < src->boundThreads.size(); j++)`: each bound
source is read from the heap, mixed, and written back. -/
def mixAll (rate : Int) (nBufferFrames : Nat) :
    List Ptr → (Ptr → AudioThread) → Mix → (Ptr → AudioThread) × Mix
  | [], threads, m => (threads, m)
  | p :: ps, threads, m =>
    let r := mixThread rate nBufferFrames (threads p) m
    mixAll rate nBufferFrames ps (Function.update threads p r.1) r.2

/-- Lines 86-88: `if (status) src->underflowCount++` (the message printed is
not modelled). -/
def noteUnderflow (threads : Ptr → AudioThread) (status : Nat) (userData : Ptr) :
    Ptr → AudioThread :=
  if status ≠ 0 then
    Function.update threads userData
      { threads userData with underflowCount := (threads userData).underflowCount + 1 }
  else threads

/-- Lines 216-223, "normalize volume": when the summed peak exceeds 1, every
sample of the output buffer is multiplied by `invPeak = 1.0 / peak`. -/
def normalize (nBufferFrames : Nat) (m : Mix) : Mix :=
  if m.peak > 1 then
    { m with out := scaleLoop (1 / m.peak) m.out (nBufferFrames * 2),
             trace := m.trace ++ (List.range (nBufferFrames * 2)).map Access.write }
  else m

/-- The outcome of one callback invocation: the heap, the output buffer, the
returned status and the ghost trace. -/
structure CallbackResult where
  threads : Ptr → AudioThread
  out : List ℚ
  ret : Int
  trace : List Access

/-- The static function `audioCallback` (lines 69-226). `userData` points at the
owning unit, `status` is the `RtAudioStreamStatus` word. -/
def audioCallback (threads : Ptr → AudioThread) (outputBuffer : List ℚ)
    (nBufferFrames : Nat) (status : Nat) (userData : Ptr) : CallbackResult :=
  let out := memsetZero outputBuffer (nBufferFrames * 2)
  let src := threads userData
  if src.isTerminated then ⟨threads, out, 1, []⟩
  else
    let threads1 := noteUnderflow threads status userData
    if src.boundThreads.isEmpty then ⟨threads1, out, 0, []⟩
    else
      let r := mixAll src.getSampleRate nBufferFrames src.boundThreads threads1 ⟨out, 0, []⟩
      let m := normalize nBufferFrames r.2
      ⟨r.1, m.out, 0, m.trace⟩

/-! ## The device registry and the sample-rate switch -/

/-- Modelled from the spec: a `DemodulatorInstance` (declared in
`DemodulatorInstance.h`), an externally owned logical source, as far as
`setSampleRate` touches it: the device it is routed to (`getOutputDevice`) and
the audio rate it was last told (`setAudioSampleRate`). -/
structure DemodulatorInstance where
  outputDevice : Int
  audioSampleRate : Int
deriving DecidableEq, Repr

/-- The process-wide state: the heap of `AudioThread` objects, the three static
maps of lines 17-19, the demodulators of the application, whether
`dac.openStream` raises an `RtAudioError` on a device, and the address that the
next `new AudioThread()` returns (the objects in use lie below it). A map entry
that is present and holds a null pointer is `some none`; an entry of
`deviceThread` names the unit whose `threadMain` the thread runs. -/
structure World where
  threads : Ptr → AudioThread
  deviceController : Int → Option (Option Ptr)
  deviceSampleRate : Int → Option Int
  deviceThread : Int → Option Ptr
  demodulators : List DemodulatorInstance
  openStreamFails : Int → Bool
  fresh : Ptr

/-- Why a call did not return: an `RtAudioError` left the function, the model
ran out of fuel, or a null `AudioThread *` was dereferenced. -/
inductive Stop where
  | rtAudioError
  | fuel
  | nullPointer
deriving DecidableEq, Repr

/-- Replace one object of the heap. -/
def World.modify (w : World) (p : Ptr) (f : AudioThread → AudioThread) : World :=
  { w with threads := Function.update w.threads p (f (w.threads p)) }

/-- The expression `deviceController[dev]`: `std::map::operator[]` creates an
entry holding a null pointer when there is none. -/
def World.controllerAt (w : World) (dev : Int) : World × Option Ptr :=
  match w.deviceController dev with
  | none =>
    ({ w with deviceController := Function.update w.deviceController dev (some none) }, none)
  | some c => (w, c)

/-- Which calls on the RtAudio handle `dac` of a unit raise an `RtAudioError`:
for `dac.stopStream()`, `dac.closeStream()` and `dac.startStream()`, the units
whose call raises. (Whether `dac.openStream` raises is `World.openStreamFails`.)
RtAudio is a library outside this file; nothing is assumed about it. -/
structure DacFaults where
  stopStream : Ptr → Bool
  closeStream : Ptr → Bool
  startStream : Ptr → Bool

/-- The method `AudioThread::setSampleRate` (lines 292-323) called on the object
`self`. Each of `dac.stopStream`, `dac.closeStream`, `dac.openStream` and
`dac.startStream` may raise an `RtAudioError`; there is no handler in this
method, so the error leaves it, and the result is then the error together with
the world as it is at that point. `dac.openStream` is called with `&parameters`:
whether it raises is looked up at `parameters.deviceId`, not at `outputDevice`.
The recursion through `boundThreads` is bounded by fuel. -/
def setSampleRate (faults : DacFaults) : Nat → World → Ptr → Int → Except (Stop × World) World
  | 0, w, _, _ => .error (.fuel, w)
  | fuel + 1, w, self, sampleRate =>
    let dev := (w.threads self).outputDevice
    let r := w.controllerAt dev
    if r.2 = some self then
      let w1 : World :=
        { r.1 with deviceSampleRate := Function.update r.1.deviceSampleRate dev (some sampleRate) }
      if faults.stopStream self then .error (.rtAudioError, w1)
      else
        let w1a := w1.modify self (fun t => { t with streamRunning := false })
        if faults.closeStream self then .error (.rtAudioError, w1a)
        else
          let w2 := w1a.modify self (fun t => { t with streamOpen := false })
          match (w2.threads self).boundThreads.foldlM
              (fun acc srcmix => setSampleRate faults fuel acc srcmix sampleRate) w2 with
          | .error e => .error e
          | .ok w3 =>
            let w4 : World :=
              { w3 with demodulators := w3.demodulators.map (fun d =>
                  if d.outputDevice = (w3.threads self).outputDevice then
                    { d with audioSampleRate := sampleRate }
                  else d) }
            if w4.openStreamFails (w4.threads self).parametersDeviceId then
              .error (.rtAudioError, w4)
            else
              let w5 := w4.modify self (fun t =>
                { t with streamOpen := true, streamRate := sampleRate })
              if faults.startStream self then .error (.rtAudioError, w5)
              else
                let w6 := w5.modify self (fun t => { t with streamRunning := true })
                .ok (w6.modify self (fun t => { t with sampleRate := sampleRate }))
    else .ok (r.1.modify self (fun t => { t with sampleRate := sampleRate }))

/-- The expression `deviceSampleRate[dev]`: `std::map::operator[]` creates an
entry holding 0 when there is none. -/
def World.sampleRateAt (w : World) (dev : Int) : World × Int :=
  match w.deviceSampleRate dev with
  | none => ({ w with deviceSampleRate := Function.update w.deviceSampleRate dev (some 0) }, 0)
  | some r => (w, r)

/-- The method `AudioThread::setInitOutputDevice` (lines 394-407) called on the
object `self`. -/
def setInitOutputDevice (w : World) (self : Ptr) (deviceId sampleRate : Int) : World :=
  let w1 := w.modify self (fun t => { t with outputDevice := deviceId })
  let r : World × Int :=
    if sampleRate = -1 then
      if (w1.deviceSampleRate (w1.threads self).parametersDeviceId).isSome then
        w1.sampleRateAt deviceId
      else (w1, sampleRate)
    else
      ({ w1 with deviceSampleRate := Function.update w1.deviceSampleRate deviceId (some sampleRate) },
        sampleRate)
  r.1.modify self (fun t => { t with sampleRate := r.2 })

/-- Lines 342-344 of `setupDevice`: when the controller map has an entry for the
unit's present output device, `removeThread(this)` is called on the unit that
entry points at; a null entry is dereferenced. -/
def detach (w : World) (self : Ptr) : Except Stop World :=
  match w.deviceController (w.threads self).outputDevice with
  | none => .ok w
  | some none => .error .nullPointer
  | some (some o) => .ok (w.modify o (fun t => t.removeThread self))

/-- Lines 360-373 of `setupDevice`, with `rate` the value just stored in
`sampleRate`: create, initialise and register a controller when the device has
none, open the stream when the unit is itself the controller, bind to the
controller otherwise. `none` is the return taken at line 378 after
`dac.openStream` raised. Of `new std::thread(&AudioThread::threadMain, ...)` the
model keeps the entry made in `deviceThread`; what the new thread does runs
beside the caller and is not part of this call. -/
def attach (w : World) (self : Ptr) (deviceId rate : Int) : Except Stop (Option World) :=
  match w.deviceController deviceId with
  | none =>
    let c := w.fresh
    let w1 : World :=
      { w with threads := Function.update w.threads c AudioThread.new,
               deviceController := Function.update w.deviceController deviceId (some (some c)),
               fresh := c + 1 }
    let w2 := setInitOutputDevice w1 c deviceId rate
    let w3 := w2.modify c (fun t => t.bindThread self)
    .ok (some { w3 with deviceThread := Function.update w3.deviceThread deviceId (some c) })
  | some none => .error .nullPointer
  | some (some o) =>
    if o = self then
      if w.openStreamFails deviceId then .ok none
      else
        .ok (some (w.modify self (fun t =>
          { t with streamOpen := true, streamRunning := true, streamRate := rate })))
    else .ok (some (w.modify o (fun t => t.bindThread self)))

/-- The method `AudioThread::setupDevice` (lines 331-383) called on the object
`self`. An `RtAudioError` of `dac.openStream` is caught at line 376 and the
function returns there; the stream options and the channel parameters are not
modelled. The result is an error only where the code dereferences a null entry
of `deviceController`. -/
def setupDevice (w : World) (self : Ptr) (deviceId : Int) : Except Stop World :=
  match detach (w.modify self (fun t => { t with parametersDeviceId := deviceId })) self with
  | .error e => .error e
  | .ok w2 =>
    match w2.deviceSampleRate deviceId with
    | none => .ok w2
    | some rate =>
      match attach (w2.modify self (fun t => { t with sampleRate := rate })) self deviceId rate with
      | .error e => .error e
      | .ok none => .ok (w2.modify self (fun t => { t with sampleRate := rate }))
      | .ok (some w7) =>
        let w8 := w7.modify self (fun t => { t with active := true })
        if deviceId ≠ -1 then .ok (w8.modify self (fun t => { t with outputDevice := deviceId }))
        else .ok w8

/-! ## Notions of the specification -/

/-- The members of a unit that the mixing loop reads or writes. -/
def AudioThread.mixFields (t : AudioThread) :
    Bool × Option (List AudioThreadInput) × Bool × Option AudioThreadInput × Nat × ℚ :=
  (t.terminated, t.inputQueue, t.active, t.currentInput, t.audioQueuePtr, t.gain)

/-- A bound source that contributes to a period of `N` frames from one buffer:
line 106 does not pass it over, and its in-flight buffer has the owner's rate,
one or two channels, at least one sample, and enough samples left after the
cursor for the whole period. -/
def AudioThread.playsOneBuffer (rate : Int) (N : Nat) (t : AudioThread) : Prop :=
  t.passedOver = false ∧
  match t.currentInput with
  | none => False
  | some b =>
    b.sampleRate = rate ∧ b.data ≠ [] ∧
    ((b.channels = 1 ∧ t.audioQueuePtr + N ≤ b.data.length) ∨
     (b.channels = 2 ∧ t.audioQueuePtr + 2 * N ≤ b.data.length))

instance (rate : Int) (N : Nat) (t : AudioThread) : Decidable (t.playsOneBuffer rate N) := by
  unfold AudioThread.playsOneBuffer
  cases t.currentInput <;> infer_instance

/-- The gain-scaled contribution of a source to sample `k` of the stereo output,
in the words of the specification: a single-channel buffer gives the sample of
frame `k / 2` to both channels, a two-channel buffer gives its samples
positionally; both are read from the cursor on and scaled by the gain. -/
def AudioThread.contribution (t : AudioThread) (k : Nat) : ℚ :=
  match t.currentInput with
  | none => 0
  | some b =>
    if b.channels = 1 then b.data.getD (t.audioQueuePtr + k / 2) 0 * t.gain
    else b.data.getD (t.audioQueuePtr + k) 0 * t.gain

/-- The term `p * g` of a source in the peak estimate: the peak of its
in-flight buffer times its gain. -/
def AudioThread.peakTerm (t : AudioThread) : ℚ :=
  match t.currentInput with
  | none => 0
  | some b => b.peak * t.gain

/-- The peak field of a buffer bounds the absolute value of each of its
samples. -/
def AudioThreadInput.peakBoundsSamples (b : AudioThreadInput) : Prop :=
  ∀ x ∈ b.data, |x| ≤ b.peak

instance (b : AudioThreadInput) : Decidable b.peakBoundsSamples := by
  unfold AudioThreadInput.peakBoundsSamples
  infer_instance

/-- The buffers a unit holds: the in-flight one, if any, and the queued ones. -/
def AudioThread.buffers (t : AudioThread) : List AudioThreadInput :=
  t.currentInput.toList ++ t.inputQueue.getD []

/-- A bound source with a non-negative gain, all of whose buffers, in flight or
queued, have one or two channels and a peak field that bounds their samples. -/
def AudioThread.boundedSource (t : AudioThread) : Prop :=
  0 ≤ t.gain ∧ ∀ b ∈ t.buffers, (b.channels = 1 ∨ b.channels = 2) ∧ b.peakBoundsSamples

instance (t : AudioThread) : Decidable t.boundedSource := by
  unfold AudioThread.boundedSource
  infer_instance

/-- The unit `p` is the registered owner of its current output device. -/
def World.isOwner (w : World) (p : Ptr) : Prop :=
  w.deviceController (w.threads p).outputDevice = some (some p)

instance (w : World) (p : Ptr) : Decidable (w.isOwner p) := by
  unfold World.isOwner
  infer_instance

/-- The buffer in flight, the queue and the cursor with which a bound source
enters its sample loop (line 156), if it does: the source is not passed over,
has a buffer in flight, still has one after the stale-rate loop, and that
buffer has at least one channel and one sample. -/
def mixStart (rate : Int) (t : AudioThread) :
    Option (AudioThreadInput × List AudioThreadInput × Nat) :=
  if t.passedOver then none
  else
    match t.currentInput with
    | none => none
    | some cur0 =>
      let s : Option AudioThreadInput × List AudioThreadInput × Nat :=
        if cur0.sampleRate ≠ rate then
          ((discardStale rate (t.inputQueue.getD []) (some cur0)).1,
           (discardStale rate (t.inputQueue.getD []) (some cur0)).2, 0)
        else (some cur0, t.inputQueue.getD [], t.audioQueuePtr)
      match s with
      | (none, _, _) => none
      | (some cur, q1, ptr1) =>
        if cur.channels = 0 ∨ cur.data.length = 0 then none else some (cur, q1, ptr1)

/-- The sample loop of lines 158-211 for a source that enters it with the buffer
`cur`, the cursor `ptr` and the queue `q`. -/
def sampleLoop (N : Nat) (gain : ℚ) (cur : AudioThreadInput) (ptr : Nat)
    (q : List AudioThreadInput) (m : Mix) : LoopOut :=
  if cur.channels = 1 then monoLoop gain N 0 cur ptr q (cur.peak * gain) m.out m.trace
  else multiLoop gain (cur.channels * N) 0 cur ptr q (cur.peak * gain) m.out m.trace

/-- The largest `peak * gain` over the buffer `cur` and the buffers `popped`. -/
def peakOver (gain : ℚ) (cur : AudioThreadInput) (popped : List AudioThreadInput) : ℚ :=
  popped.foldl (fun a b => max a (b.peak * gain)) (cur.peak * gain)

/-- Both channels of every stereo frame of the interleaved buffer `out` hold the
same value. -/
def stereoSymmetric (out : List ℚ) : Prop :=
  ∀ i, out.getD (2 * i) 0 = out.getD (2 * i + 1) 0

/-- Every buffer the unit holds, in flight or queued, has one channel. -/
def AudioThread.monoSource (t : AudioThread) : Prop :=
  ∀ b ∈ t.buffers, b.channels = 1

instance (t : AudioThread) : Decidable t.monoSource := by
  unfold AudioThread.monoSource
  infer_instance

/-- The value of the local `peak` when the callback of a running owner reaches
the normalising step (line 217): the sum that the loop over the bound sources
has built from 0. -/
def callbackPeak (threads : Ptr → AudioThread) (outputBuffer : List ℚ)
    (nBufferFrames : Nat) (status : Nat) (userData : Ptr) : ℚ :=
  (mixAll (threads userData).getSampleRate nBufferFrames (threads userData).boundThreads
    (noteUnderflow threads status userData)
    ⟨memsetZero outputBuffer (nBufferFrames * 2), 0, []⟩).2.peak

/-- The buffers popped from the queue `before` to leave the queue `after`. -/
def poppedBuffers (before after : List AudioThreadInput) : List AudioThreadInput :=
  before.take (before.length - after.length)

/-- The term of one bound source in the peak estimate, from its state `t` before
the callback and its state `t'` after it: 0 when the source does not enter its
sample loop; otherwise the largest `peak * gain` over the buffer in flight when
the loop is entered and the buffers popped from the queue during the loop. -/
def sourceEstimate (rate : Int) (t t' : AudioThread) : ℚ :=
  match mixStart rate t with
  | none => 0
  | some (cur, q1, _) => peakOver t.gain cur (poppedBuffers q1 (t'.inputQueue.getD []))

/-! ## The arithmetic of the callback in binary floating point

The definitions above compute with exact rationals. The callback itself
computes in `float` (the output buffer, `v`, `invPeak`, the gain of
`setGain(float)` / `getGain()`, and, by the declarations of `AudioThread.h`, the
samples and the peak field of a buffer) and in `double` (`mixPeak`, `srcPeak`,
`peak`). The
definitions of this section repeat the callback with every arithmetic result
rounded as the source rounds it: a product or sum of `float`s to the nearest
binary32 number, a sum or quotient of `double`s to the nearest binary64 number,
ties to even. A `float` or `double` is a rational here; infinities and NaN are
not represented, so the definitions follow the code as long as no result
exceeds the largest finite number of its format. -/

/-- The position of the leading binary digit of `n`, found in at most `fuel`
halvings: `⌊log₂ n⌋` when `1 ≤ n ≤ fuel`. -/
def log2Fuel : ℕ → ℕ → ℕ
  | 0, _ => 0
  | fuel + 1, n => if n < 2 then 0 else log2Fuel fuel (n / 2) + 1

/-- The integer nearest to `x`, the even one of the two when `x` lies half-way
between two integers. -/
def roundHalfEven (x : ℚ) : ℤ :=
  if x - ⌊x⌋ < 1 / 2 then ⌊x⌋
  else if 1 / 2 < x - ⌊x⌋ then ⌊x⌋ + 1
  else if ⌊x⌋ % 2 = 0 then ⌊x⌋ else ⌊x⌋ + 1

/-- The binary exponent of `x ≠ 0`: the integer `e` with
`2 ^ e ≤ |x| < 2 ^ (e + 1)`. -/
def binade (x : ℚ) : ℤ :=
  if (2 : ℚ) ^ ((log2Fuel x.num.natAbs x.num.natAbs : ℤ) - (log2Fuel x.den x.den : ℤ)) ≤ |x| then
    (log2Fuel x.num.natAbs x.num.natAbs : ℤ) - (log2Fuel x.den x.den : ℤ)
  else (log2Fuel x.num.natAbs x.num.natAbs : ℤ) - (log2Fuel x.den x.den : ℤ) - 1

/-- IEEE 754 rounding to nearest, ties to even, in a binary format with `p`
significant bits whose normal numbers have exponents from `emin` up: `x` is
rounded to a multiple of `2 ^ (e - (p - 1))`, with `e` the exponent of `x`, or
`emin` for a number below the normal range (gradual underflow). -/
def roundBinary (p : ℕ) (emin : ℤ) (x : ℚ) : ℚ :=
  if x = 0 then 0
  else roundHalfEven (x / 2 ^ (max (binade x) emin - (p - 1))) * 2 ^ (max (binade x) emin - (p - 1))

/-- Rounding to `float`, IEEE 754 binary32: 24 significant bits, least normal
exponent -126. -/
def toFloat (x : ℚ) : ℚ := roundBinary 24 (-126) x

/-- Rounding to `double`, IEEE 754 binary64: 53 significant bits, least normal
exponent -1022. -/
def toDouble (x : ℚ) : ℚ := roundBinary 53 (-1022) x

/-- The unit roundoff of `float`: half the distance from 1 to the next `float`. -/
def ulpF : ℚ := 1 / 2 ^ 24

/-- Half the least positive `float`: the largest rounding error below the
normal range. -/
def tinyF : ℚ := 1 / 2 ^ 150

/-- The unit roundoff of `double`. -/
def ulpD : ℚ := 1 / 2 ^ 53

/-- Half the least positive `double`. -/
def tinyD : ℚ := 1 / 2 ^ 1075

/-- The statement `out[i] += v` on `float`s (lines 181, 182 and 206): the sum is
rounded to `float`. -/
def addAtF : List ℚ → Nat → ℚ → List ℚ
  | [], _, _ => []
  | x :: xs, 0, v => toFloat (x + v) :: xs
  | x :: xs, i + 1, v => x :: addAtF xs i v

/-- The normalising loop `for (i = 0; i < n; i++) out[i] *= invPeak` on
`float`s (lines 220-222). -/
def scaleLoopF (invPeak : ℚ) : List ℚ → Nat → List ℚ
  | out, 0 => out
  | [], _ + 1 => []
  | x :: xs, n + 1 => toFloat (x * invPeak) :: scaleLoopF invPeak xs n

/-- The head of both sample loops (lines 162-178 and 189-204) as `refill`, with
`srcPeak` the `float` product `peak * gain`, widened to `double`. -/
def refillF (gain : ℚ) (cur : AudioThreadInput) (ptr : Nat) (q : List AudioThreadInput)
    (mixPeak : ℚ) : Option (AudioThreadInput × Nat × List AudioThreadInput × ℚ) :=
  if cur.data.length ≤ ptr then
    match tryPop q none with
    | (true, some b, rest) =>
      let srcPeak := toFloat (b.peak * gain)
      some (b, 0, rest, if mixPeak < srcPeak then srcPeak else mixPeak)
    | _ => none
  else some (cur, ptr, q, mixPeak)

/-- The single-channel loop, lines 160-185, as `monoLoop`, with
`float v = data[audioQueuePtr] * gain` and the two sums rounded to `float`. -/
def monoLoopF (gain : ℚ) : Nat → Nat → AudioThreadInput → Nat → List AudioThreadInput →
    ℚ → List ℚ → List Access → LoopOut
  | 0, _, cur, ptr, q, mixPeak, out, tr => ⟨some cur, ptr, q, mixPeak, out, tr⟩
  | n + 1, i, cur, ptr, q, mixPeak, out, tr =>
    match refillF gain cur ptr q mixPeak with
    | none => ⟨none, 0, q, mixPeak, out, tr⟩
    | some (c, p, rest, mp) =>
      if c.data.length ≠ 0 then
        let v := toFloat (c.data.getD p 0 * gain)
        monoLoopF gain n (i + 1) c (p + 1) rest mp
          (addAtF (addAtF out (i * 2) v) (i * 2 + 1) v)
          (tr ++ [Access.read c p, Access.write (i * 2), Access.write (i * 2 + 1)])
      else monoLoopF gain n (i + 1) c (p + 1) rest mp out tr

/-- The multi-channel loop, lines 187-210, as `multiLoop`, with the product
`data[audioQueuePtr] * gain` and the sum each rounded to `float`. -/
def multiLoopF (gain : ℚ) : Nat → Nat → AudioThreadInput → Nat → List AudioThreadInput →
    ℚ → List ℚ → List Access → LoopOut
  | 0, _, cur, ptr, q, mixPeak, out, tr => ⟨some cur, ptr, q, mixPeak, out, tr⟩
  | n + 1, i, cur, ptr, q, mixPeak, out, tr =>
    match refillF gain cur ptr q mixPeak with
    | none => ⟨none, 0, q, mixPeak, out, tr⟩
    | some (c, p, rest, mp) =>
      if c.data.length ≠ 0 then
        multiLoopF gain n (i + 1) c (p + 1) rest mp
          (addAtF out i (toFloat (c.data.getD p 0 * gain)))
          (tr ++ [Access.read c p, Access.write i])
      else multiLoopF gain n (i + 1) c (p + 1) rest mp out tr

/-- The sample loop of lines 156-211 in floating point, for a source that enters
it with the buffer `cur`, the cursor `ptr` and the queue `q`: `mixPeak` starts
as the `float` product `peak * gain`. -/
def sampleLoopF (N : Nat) (gain : ℚ) (cur : AudioThreadInput) (ptr : Nat)
    (q : List AudioThreadInput) (m : Mix) : LoopOut :=
  if cur.channels = 1 then
    monoLoopF gain N 0 cur ptr q (toFloat (cur.peak * gain)) m.out m.trace
  else multiLoopF gain (cur.channels * N) 0 cur ptr q (toFloat (cur.peak * gain)) m.out m.trace

/-- The body of the loop over `boundThreads` (lines 100-213) as `mixThread`, in
floating point: `peak += mixPeak` is a sum of `double`s. -/
def mixThreadF (rate : Int) (nBufferFrames : Nat) (t : AudioThread) (m : Mix) :
    AudioThread × Mix :=
  if t.passedOver then (t, m)
  else
    let q := t.inputQueue.getD []
    match t.currentInput with
    | none =>
      let r := tryPop q none
      ({ t with audioQueuePtr := 0, currentInput := r.2.1, inputQueue := some r.2.2 }, m)
    | some cur0 =>
      let s : Option AudioThreadInput × List AudioThreadInput × Nat :=
        if cur0.sampleRate ≠ rate then
          ((discardStale rate q (some cur0)).1, (discardStale rate q (some cur0)).2, 0)
        else (some cur0, q, t.audioQueuePtr)
      match s with
      | (none, q1, ptr1) =>
        ({ t with currentInput := none, inputQueue := some q1, audioQueuePtr := ptr1 }, m)
      | (some cur, q1, ptr1) =>
        if cur.channels = 0 ∨ cur.data.length = 0 then
          if ¬ q1.isEmpty then
            let r := tryPop q1 none
            ({ t with audioQueuePtr := 0, currentInput := r.2.1, inputQueue := some r.2.2 }, m)
          else
            ({ t with currentInput := some cur, inputQueue := some q1, audioQueuePtr := ptr1 }, m)
        else
          let r := sampleLoopF nBufferFrames t.gain cur ptr1 q1 m
          ({ t with currentInput := r.currentInput, inputQueue := some r.queue,
                    audioQueuePtr := r.audioQueuePtr },
           { out := r.out, peak := toDouble (m.peak + r.mixPeak), trace := r.trace })

/-- The loop over `boundThreads` as `mixAll`, in floating point. -/
def mixAllF (rate : Int) (nBufferFrames : Nat) :
    List Ptr → (Ptr → AudioThread) → Mix → (Ptr → AudioThread) × Mix
  | [], threads, m => (threads, m)
  | p :: ps, threads, m =>
    let r := mixThreadF rate nBufferFrames (threads p) m
    mixAllF rate nBufferFrames ps (Function.update threads p r.1) r.2

/-- Lines 216-223 in floating point: `float invPeak = (float)(1.0 / peak)` is
the `double` quotient rounded to `float`, and every product
`out[i] * invPeak` is rounded to `float`. -/
def normalizeF (nBufferFrames : Nat) (m : Mix) : Mix :=
  if m.peak > 1 then
    { m with out := scaleLoopF (toFloat (toDouble (1 / m.peak))) m.out (nBufferFrames * 2),
             trace := m.trace ++ (List.range (nBufferFrames * 2)).map Access.write }
  else m

/-- The value of the `double` variable `peak` when the callback of a running
owner reaches line 217. -/
def callbackPeakF (threads : Ptr → AudioThread) (outputBuffer : List ℚ)
    (nBufferFrames : Nat) (status : Nat) (userData : Ptr) : ℚ :=
  (mixAllF (threads userData).getSampleRate nBufferFrames (threads userData).boundThreads
    (noteUnderflow threads status userData)
    ⟨memsetZero outputBuffer (nBufferFrames * 2), 0, []⟩).2.peak

/-- The static function `audioCallback` (lines 69-226) in floating point. -/
def audioCallbackF (threads : Ptr → AudioThread) (outputBuffer : List ℚ)
    (nBufferFrames : Nat) (status : Nat) (userData : Ptr) : CallbackResult :=
  let out := memsetZero outputBuffer (nBufferFrames * 2)
  let src := threads userData
  if src.isTerminated then ⟨threads, out, 1, []⟩
  else
    let threads1 := noteUnderflow threads status userData
    if src.boundThreads.isEmpty then ⟨threads1, out, 0, []⟩
    else
      let r := mixAllF src.getSampleRate nBufferFrames src.boundThreads threads1 ⟨out, 0, []⟩
      let m := normalizeF nBufferFrames r.2
      ⟨r.1, m.out, 0, m.trace⟩

/-- The bound on an output sample that held `o` after one source, whose final
`mixPeak` is `M`, has added to it at most once in floating point. -/
def writeBound (o M : ℚ) : ℚ :=
  (1 + ulpF) * (|o| + ((1 + 4 * ulpF) * M + 3 * tinyF)) + tinyF

/-! ## Example states -/

/-- A unit with one bound source, `1`. -/
def exBoundOne : AudioThread := { AudioThread.new with boundThreads := [1] }

/-- A one-channel buffer of two samples at 48000 Hz with peak 1/2. -/
def exBuf : AudioThreadInput := ⟨[1/2, -1/4], 48000, 1, 1/2⟩

/-- A one-channel buffer of one sample at 48000 Hz. -/
def exShortBuf : AudioThreadInput := ⟨[1/2], 48000, 1, 1/2⟩

/-- A one-channel buffer of one sample at 44100 Hz. -/
def exStaleBuf : AudioThreadInput := ⟨[1/4], 44100, 1, 1/4⟩

/-- A one-channel buffer of one sample at 48000 Hz with peak 4/5. -/
def exLoudBuf : AudioThreadInput := ⟨[4/5], 48000, 1, 4/5⟩

/-- An owner at 48000 Hz with the bound sources `bound`. -/
def exOwner (bound : List Ptr) : AudioThread :=
  { AudioThread.new with sampleRate := 48000, boundThreads := bound }

/-- An active source with gain 1, the in-flight buffer `cur` at cursor 0, and
the queue `q`. -/
def exSource (cur : Option AudioThreadInput) (q : List AudioThreadInput) : AudioThread :=
  { AudioThread.new with active := true, currentInput := cur, inputQueue := some q }

/-- Owner `0` with the single bound source `1`, which has no in-flight buffer
and `exBuf` alone in its queue. -/
def exFreshHeap : Ptr → AudioThread := fun p =>
  if p = 0 then exOwner [1] else if p = 1 then exSource none [exBuf] else AudioThread.new

/-- Owner `0` with the single bound source `1`, which has `exBuf` in flight at
cursor 0 and one more buffer queued. -/
def exPlayingHeap : Ptr → AudioThread := fun p =>
  if p = 0 then exOwner [1] else if p = 1 then exSource (some exBuf) [exBuf]
  else AudioThread.new

/-- Owner `0` at 48000 Hz with the single bound source `1`, whose in-flight
buffer `exShortBuf` has the owner's rate and one sample, and whose queue holds
the 44100 Hz buffer `exStaleBuf`. -/
def exStaleHeap : Ptr → AudioThread := fun p =>
  if p = 0 then exOwner [1] else if p = 1 then exSource (some exShortBuf) [exStaleBuf]
  else AudioThread.new

/-- Owner `0` with the bound sources `1`, idle (empty queue, nothing in
flight), and `2`, playing `exBuf`. -/
def exIdleHeap : Ptr → AudioThread := fun p =>
  if p = 0 then exOwner [1, 2] else if p = 1 then exSource none []
  else if p = 2 then exSource (some exBuf) [exBuf] else AudioThread.new

/-- Owner `0` with the bound sources `1` and `2`, each with gain 1 and
`exLoudBuf` in flight at cursor 0, and one more buffer queued. -/
def exLoudHeap : Ptr → AudioThread := fun p =>
  if p = 0 then exOwner [1, 2]
  else if p = 1 then exSource (some exLoudBuf) [exLoudBuf]
  else if p = 2 then exSource (some exLoudBuf) [exLoudBuf]
  else AudioThread.new

/-- Device `3` at 44100 Hz, owned by unit `0`, which has the bound sources `1`
and `2`; one demodulator is routed to the device, and the hardware opens. -/
def exWorld : World where
  threads := fun p =>
    if p = 0 then
      { AudioThread.new with outputDevice := 3, sampleRate := 44100, boundThreads := [1, 2] }
    else { AudioThread.new with outputDevice := 3, sampleRate := 44100 }
  deviceController := fun d => if d = 3 then some (some 0) else none
  deviceSampleRate := fun d => if d = 3 then some 44100 else none
  deviceThread := fun _ => none
  demodulators := [⟨3, 44100⟩]
  openStreamFails := fun _ => false
  fresh := 3

/-- Three units and four devices. Unit `0` owns device `3` (44100 Hz) and has the
bound source `1`; unit `2` owns device `4` (48000 Hz), whose hardware stream
fails to open; device `5` has a recorded rate (96000 Hz) and no owner; device
`7` has neither. The next unit is created at address `3`. -/
def exAttachWorld : World where
  threads := fun p =>
    if p = 0 then
      { AudioThread.new with outputDevice := 3, sampleRate := 44100, boundThreads := [1],
                             active := true }
    else if p = 1 then { AudioThread.new with outputDevice := 3, sampleRate := 44100,
                                               active := true }
    else if p = 2 then { AudioThread.new with outputDevice := 4, sampleRate := 22050,
                                               active := false }
    else AudioThread.new
  deviceController := fun d =>
    if d = 3 then some (some 0) else if d = 4 then some (some 2) else none
  deviceSampleRate := fun d =>
    if d = 3 then some 44100 else if d = 4 then some 48000 else if d = 5 then some 96000
    else none
  deviceThread := fun d => if d = 3 then some 0 else if d = 4 then some 2 else none
  demodulators := []
  openStreamFails := fun d => decide (d = 4)
  fresh := 3

/-- One call of `bindThread` or `removeThread` on a unit. -/
inductive BindCall where
  | bindThread (other : Ptr)
  | removeThread (other : Ptr)
deriving DecidableEq, Repr

/-- The unit after one call. -/
def AudioThread.call (t : AudioThread) : BindCall → AudioThread
  | .bindThread other => t.bindThread other
  | .removeThread other => t.removeThread other

/-- The unit after a finite sequence of calls, the first call first. -/
def AudioThread.calls (t : AudioThread) (cs : List BindCall) : AudioThread :=
  cs.foldl AudioThread.call t

/-- A buffer of one three-channel frame at 48000 Hz. -/
def exWideBuf : AudioThreadInput := ⟨[1/4, 1/4, 1/4], 48000, 3, 1/4⟩

/-- Owner `0` with the single bound source `1`, which has the three-channel
buffer `exWideBuf` in flight at cursor 0 and one more buffer queued. -/
def exWideHeap : Ptr → AudioThread := fun p =>
  if p = 0 then exOwner [1] else if p = 1 then exSource (some exWideBuf) [exWideBuf]
  else AudioThread.new

/-- The world `exAttachWorld` with one more registry key: the value `-1`, which
units use for "no output device", has the recorded rate 48000 and unit `2` as
its registered owner. -/
def exUnsetWorld : World :=
  { exAttachWorld with
    deviceController := fun d => if d = -1 then some (some 2) else exAttachWorld.deviceController d
    deviceSampleRate := fun d => if d = -1 then some 48000 else exAttachWorld.deviceSampleRate d }

/-- A one-channel buffer at 48000 Hz that holds no sample. -/
def exEmptyBuf : AudioThreadInput := ⟨[], 48000, 1, 0⟩

/-- Owner `0` with the single bound source `1`, which has the empty buffer
`exEmptyBuf` in flight at cursor 0 and `exBuf` queued. -/
def exEmptyFirstHeap : Ptr → AudioThread := fun p =>
  if p = 0 then exOwner [1] else if p = 1 then exSource (some exEmptyBuf) [exBuf]
  else AudioThread.new

/-- Owner `0` with the single bound source `1`, which has `exBuf` in flight at
cursor 1, one sample before its end, and `exBuf` and `exShortBuf` queued. -/
def exSeamHeap : Ptr → AudioThread := fun p =>
  if p = 0 then exOwner [1]
  else if p = 1 then { exSource (some exBuf) [exBuf, exShortBuf] with audioQueuePtr := 1 }
  else AudioThread.new

/-- Owner `0` with the single bound source `1`, which has `exBuf` in flight at
cursor 1 and an empty queue. -/
def exDrainedHeap : Ptr → AudioThread := fun p =>
  if p = 0 then exOwner [1]
  else if p = 1 then { exSource (some exBuf) [] with audioQueuePtr := 1 }
  else AudioThread.new

/-- Owner `0` with the single bound source `1`, which has `exShortBuf` in
flight, then the empty buffer `exEmptyBuf` and `exBuf` queued. -/
def exGapHeap : Ptr → AudioThread := fun p =>
  if p = 0 then exOwner [1]
  else if p = 1 then exSource (some exShortBuf) [exEmptyBuf, exBuf]
  else AudioThread.new

/-- A one-channel buffer of one sample at 48000 Hz with peak 3. -/
def exSpentBuf : AudioThreadInput := ⟨[3], 48000, 1, 3⟩

/-- Owner `0` with the single bound source `1`, which has `exSpentBuf` in flight
with the cursor at its end (the buffer was played to its last sample in the
period before), and `exShortBuf` queued. -/
def exSpentHeap : Ptr → AudioThread := fun p =>
  if p = 0 then exOwner [1]
  else if p = 1 then { exSource (some exSpentBuf) [exShortBuf] with audioQueuePtr := 1 }
  else AudioThread.new

/-- A one-channel buffer of one sample at 48000 Hz with peak 4. -/
def exDoneBuf : AudioThreadInput := ⟨[4], 48000, 1, 4⟩

/-- Owner `0` with the single bound source `1`, which has `exDoneBuf` in flight
with the cursor at its end and `exBuf`, of two samples, queued. -/
def exSpentThenBufHeap : Ptr → AudioThread := fun p =>
  if p = 0 then exOwner [1]
  else if p = 1 then { exSource (some exDoneBuf) [exBuf] with audioQueuePtr := 1 }
  else AudioThread.new

/-- No call of `dac.stopStream`, `dac.closeStream` or `dac.startStream` raises. -/
def noFaults : DacFaults := ⟨fun _ => false, fun _ => false, fun _ => false⟩

/-- The world `exWorld` with `parameters.deviceId` of every unit at device `3`,
as `setupDevice(3)` leaves it, and hardware on which `dac.openStream` raises for
device `3` (for instance because it does not support the rate asked for). -/
def exRefusedWorld : World :=
  { exWorld with
    threads := fun p => { exWorld.threads p with parametersDeviceId := 3 }
    openStreamFails := fun d => decide (d = 3) }

/-- A one-channel buffer at 48000 Hz whose one sample, `12650867 / 2 ^ 24`, is a
`float`, and whose peak is that sample. -/
def exTieBufA : AudioThreadInput := ⟨[12650867 / 2 ^ 24], 48000, 1, 12650867 / 2 ^ 24⟩

/-- A one-channel buffer at 48000 Hz whose one sample, `12766832 / 2 ^ 24`, is a
`float`, and whose peak is that sample. -/
def exTieBufB : AudioThreadInput := ⟨[12766832 / 2 ^ 24], 48000, 1, 12766832 / 2 ^ 24⟩

/-- Owner `0` with the bound sources `1` and `2`, each with gain 1: source `1`
has `exTieBufA` in flight, source `2` has `exTieBufB` in flight, and each has
one more buffer queued. -/
def exTieHeap : Ptr → AudioThread := fun p =>
  if p = 0 then exOwner [1, 2]
  else if p = 1 then exSource (some exTieBufA) [exTieBufA]
  else if p = 2 then exSource (some exTieBufB) [exTieBufB]
  else AudioThread.new

/-! ## Theorems: the bound-source list and the gain -/

/-- C4, the code at the failing input: on a fresh unit (gain 1) `setGain(3)`
leaves `getGain()` at 3, not at the clamped value `min (max 3 0) 2 = 2`. -/
theorem setGain_three_not_clamped :
    (AudioThread.new.setGain 3).getGain = 3 ∧
    (AudioThread.new.setGain 3).getGain ≠ min (max 3 0) 2 := by
  refine ⟨by decide, ?_⟩
  have h : (AudioThread.new.setGain 3).getGain = 3 := by decide
  rw [h]
  norm_num

/-- C5 as stated fails: on the list `[1]`, `bindThread(1)` followed by
`removeThread(1)` leaves the empty list, so source `1` has left the set. -/
theorem bind_then_remove_bound_source_drops_it :
    exBoundOne.boundThreads = [1] ∧
    ((exBoundOne.bindThread 1).removeThread 1).boundThreads = [] ∧
    ¬ (∀ x, x ∈ ((exBoundOne.bindThread 1).removeThread 1).boundThreads ↔
        x ∈ exBoundOne.boundThreads) := by
  refine ⟨by decide, by decide, ?_⟩
  intro h
  have h1 := (h 1).2 (by decide)
  revert h1
  decide

/-- C5 amended: for a source `s` that is not in the bound-source list,
`bindThread(s)` followed by `removeThread(s)` gives back the unit unchanged, in
particular the same bound-source list. -/
theorem bind_then_remove_unbound_source (t : AudioThread) (s : Ptr)
    (hs : s ∉ t.boundThreads) : (t.bindThread s).removeThread s = t := by
  have h : (t.boundThreads ++ [s]).erase s = t.boundThreads := by
    rw [List.erase_append_right _ hs]
    simp
  simp [AudioThread.bindThread, AudioThread.removeThread, hs, h]

/-- Witness of `bind_then_remove_unbound_source`: source `2` on the list `[1]`. -/
theorem bind_then_remove_unbound_source_witness :
    (2 : Ptr) ∉ exBoundOne.boundThreads ∧
    (exBoundOne.bindThread 2).removeThread 2 = exBoundOne :=
  ⟨by decide, bind_then_remove_unbound_source exBoundOne 2 (by decide)⟩

/-- C6: `bindThread(s)` applied twice gives the same unit as applied once, and
when `s` was not bound before, the resulting list holds `s` exactly once. -/
theorem bindThread_idempotent (t : AudioThread) (s : Ptr) :
    (t.bindThread s).bindThread s = t.bindThread s ∧
    (s ∉ t.boundThreads → (t.bindThread s).boundThreads.count s = 1) := by
  constructor
  · by_cases hs : s ∈ t.boundThreads
    · simp [AudioThread.bindThread, hs]
    · simp [AudioThread.bindThread, hs]
  · intro hs
    simp [AudioThread.bindThread, hs, List.count_eq_zero_of_not_mem hs]

/-- Witness of `bindThread_idempotent`: source `2` on the list `[1]`. -/
theorem bindThread_idempotent_witness :
    (exBoundOne.bindThread 2).bindThread 2 = exBoundOne.bindThread 2 ∧
    (exBoundOne.bindThread 2).boundThreads.count 2 = 1 :=
  ⟨(bindThread_idempotent exBoundOne 2).1, (bindThread_idempotent exBoundOne 2).2 (by decide)⟩

/-! ## Theorems: the mixing callback -/

/-! ### The output buffer primitives -/

theorem memsetZero_length (out : List ℚ) (n : Nat) : (memsetZero out n).length = out.length := by
  induction out generalizing n with
  | nil => cases n <;> simp [memsetZero]
  | cons x xs ih => cases n <;> simp [memsetZero, ih]

theorem memsetZero_full (out : List ℚ) (n : Nat) (h : out.length = n) :
    memsetZero out n = List.replicate n 0 := by
  induction out generalizing n with
  | nil => subst h; simp [memsetZero]
  | cons x xs ih =>
    cases n with
    | zero => simp at h
    | succ n =>
      have h1 : xs.length = n := by simpa using h
      simp [memsetZero, ih n h1, List.replicate_succ]

theorem addAt_length (out : List ℚ) (i : Nat) (v : ℚ) : (addAt out i v).length = out.length := by
  induction out generalizing i with
  | nil => simp [addAt]
  | cons x xs ih => cases i <;> simp [addAt, ih]

theorem addAt_getD (out : List ℚ) (i k : Nat) (v : ℚ) :
    (addAt out i v).getD k 0 =
      if k = i ∧ i < out.length then out.getD k 0 + v else out.getD k 0 := by
  induction out generalizing i k with
  | nil => simp [addAt]
  | cons x xs ih =>
    cases i with
    | zero => cases k <;> simp [addAt]
    | succ i =>
      cases k with
      | zero => simp [addAt]
      | succ k =>
        simp only [addAt, List.getD_cons_succ, List.length_cons, Nat.add_lt_add_iff_right,
          Nat.add_right_cancel_iff]
        exact ih i k

theorem addAt_getD_sub (out : List ℚ) (i k : Nat) (v : ℚ) :
    (addAt out i v).getD k 0 - out.getD k 0 = if k = i ∧ i < out.length then v else 0 := by
  rw [addAt_getD]
  split <;> ring

theorem scaleLoop_length (c : ℚ) (out : List ℚ) (n : Nat) :
    (scaleLoop c out n).length = out.length := by
  induction out generalizing n with
  | nil => cases n <;> simp [scaleLoop]
  | cons x xs ih => cases n <;> simp [scaleLoop, ih]

theorem scaleLoop_getD (c : ℚ) (out : List ℚ) (n k : Nat) :
    (scaleLoop c out n).getD k 0 = if k < n then out.getD k 0 * c else out.getD k 0 := by
  induction out generalizing n k with
  | nil => cases n <;> simp [scaleLoop]
  | cons x xs ih =>
    cases n with
    | zero => simp [scaleLoop]
    | succ n =>
      cases k with
      | zero => simp [scaleLoop]
      | succ k =>
        simp only [scaleLoop, List.getD_cons_succ, Nat.add_lt_add_iff_right]
        exact ih n k

theorem replicate_zero_getD (n k : Nat) : (List.replicate n (0 : ℚ)).getD k 0 = 0 := by
  induction n generalizing k with
  | zero => rfl
  | succ n ih =>
    cases k with
    | zero => rfl
    | succ k => simp [List.replicate_succ]

theorem getElem?_of_getD (l : List ℚ) (k : Nat) (h : k < l.length) :
    l[k]? = some (l.getD k 0) := by
  simp [List.getD, List.getElem?_eq_getElem h]

theorem exists_getD_of_mem (l : List ℚ) (x : ℚ) (h : x ∈ l) :
    ∃ k, k < l.length ∧ l.getD k 0 = x := by
  obtain ⟨k, hk, e⟩ := List.getElem_of_mem h
  exact ⟨k, hk, by rw [List.getD_eq_getElem _ _ hk]; exact e⟩

/-! ### Silence without a running owner or a bound source -/

theorem noteUnderflow_eq (threads : Ptr → AudioThread) (status : Nat) (u p : Ptr) :
    ∃ c, noteUnderflow threads status u p = { threads p with underflowCount := c } := by
  unfold noteUnderflow
  by_cases hs : status = 0
  · exact ⟨(threads p).underflowCount, by simp [hs]⟩
  · by_cases hp : p = u
    · subst hp; exact ⟨(threads p).underflowCount + 1, by simp [hs]⟩
    · exact ⟨(threads p).underflowCount, by simp [hs, Function.update_noteq hp]⟩

theorem noteUnderflow_fields (threads : Ptr → AudioThread) (status : Nat) (u p : Ptr) :
    (noteUnderflow threads status u p).currentInput = (threads p).currentInput ∧
    (noteUnderflow threads status u p).audioQueuePtr = (threads p).audioQueuePtr ∧
    (noteUnderflow threads status u p).inputQueue = (threads p).inputQueue := by
  obtain ⟨c, hc⟩ := noteUnderflow_eq threads status u p
  simp [hc]

/-- C7: when the owning unit is terminated or has no bound source, the callback
leaves all `2 * N` samples of the output buffer at zero whatever they held
before, leaves every unit's in-flight buffer, cursor and queue as they were, and
returns a nonzero status exactly when the owner is terminated, 0 otherwise. -/
theorem audioCallback_silent_when_terminated_or_unbound (threads : Ptr → AudioThread)
    (out : List ℚ) (N status : Nat) (u : Ptr) (hlen : out.length = 2 * N)
    (h : (threads u).isTerminated = true ∨ (threads u).boundThreads = []) :
    (audioCallback threads out N status u).out = List.replicate (2 * N) 0 ∧
    (∀ p, ((audioCallback threads out N status u).threads p).currentInput
            = (threads p).currentInput ∧
          ((audioCallback threads out N status u).threads p).audioQueuePtr
            = (threads p).audioQueuePtr ∧
          ((audioCallback threads out N status u).threads p).inputQueue
            = (threads p).inputQueue) ∧
    ((audioCallback threads out N status u).ret ≠ 0 ↔ (threads u).isTerminated = true) ∧
    ((threads u).isTerminated = false → (audioCallback threads out N status u).ret = 0) := by
  have hz : memsetZero out (N * 2) = List.replicate (2 * N) 0 := by
    rw [Nat.mul_comm N 2]; exact memsetZero_full out (2 * N) hlen
  by_cases ht : (threads u).isTerminated = true
  · simp [audioCallback, ht, hz]
  · have hb : (threads u).boundThreads = [] := by
      rcases h with h | h
      · exact absurd h ht
      · exact h
    have ht' : (threads u).isTerminated = false := by simpa using ht
    have hq := noteUnderflow_fields threads status u
    simp [audioCallback, ht', hb, hz, hq]

/-- Witness of `audioCallback_silent_when_terminated_or_unbound`: a fresh unit,
which has no bound source, and a two-frame buffer holding stale samples. -/
theorem audioCallback_silent_when_terminated_or_unbound_witness :
    (audioCallback (fun _ => AudioThread.new) [7, 7, 7, 7] 2 1 0).out = List.replicate (2 * 2) 0 ∧
    (audioCallback (fun _ => AudioThread.new) [7, 7, 7, 7] 2 1 0).ret = 0 :=
  ⟨(audioCallback_silent_when_terminated_or_unbound (fun _ => AudioThread.new) [7, 7, 7, 7] 2 1 0
      (by decide) (Or.inr (by decide))).1,
   (audioCallback_silent_when_terminated_or_unbound (fun _ => AudioThread.new) [7, 7, 7, 7] 2 1 0
      (by decide) (Or.inr (by decide))).2.2.2 (by decide)⟩

/-! ### Sources the loop passes over -/

/-- The mixing of one source depends on, and changes, only its `mixFields`. -/
theorem mixThread_congr (rate : Int) (N : Nat) (t t' : AudioThread) (m : Mix)
    (h : t.mixFields = t'.mixFields) :
    (mixThread rate N t m).2 = (mixThread rate N t' m).2 ∧
    (mixThread rate N t m).1.mixFields = (mixThread rate N t' m).1.mixFields := by
  cases t; cases t'
  simp only [AudioThread.mixFields, Prod.mk.injEq] at h
  obtain ⟨h1, h2, h3, h4, h5, h6⟩ := h
  subst h1 h2 h3 h4 h5 h6
  simp only [mixThread, AudioThread.passedOver, AudioThread.mixFields]
  split
  · simp
  · split
    · simp
    · split
      · simp
      · split
        · split <;> simp
        · simp

theorem mixAll_congr (rate : Int) (N : Nat) (ps : List Ptr) :
    ∀ (h h' : Ptr → AudioThread) (m : Mix),
      (∀ p, (h p).mixFields = (h' p).mixFields) →
      (mixAll rate N ps h m).2 = (mixAll rate N ps h' m).2 ∧
      ∀ p, ((mixAll rate N ps h m).1 p).mixFields = ((mixAll rate N ps h' m).1 p).mixFields := by
  induction ps with
  | nil => intro h h' m hh; exact ⟨rfl, hh⟩
  | cons a ps ih =>
    intro h h' m hh
    obtain ⟨e1, e2⟩ := mixThread_congr rate N (h a) (h' a) m (hh a)
    simp only [mixAll]
    rw [e1]
    apply ih
    intro p
    by_cases hp : p = a
    · subst hp; simpa using e2
    · simp [Function.update_noteq hp, hh p]

theorem noteUnderflow_mixFields (threads : Ptr → AudioThread) (status : Nat) (u p : Ptr) :
    (noteUnderflow threads status u p).mixFields = (threads p).mixFields := by
  obtain ⟨c, hc⟩ := noteUnderflow_eq threads status u p
  simp [hc, AudioThread.mixFields]

theorem passedOver_of_mixFields (t t' : AudioThread) (h : t.mixFields = t'.mixFields) :
    t.passedOver = t'.passedOver := by
  simp only [AudioThread.mixFields, Prod.mk.injEq] at h
  obtain ⟨h1, h2, h3, -, -, -⟩ := h
  simp [AudioThread.passedOver, h1, h2, h3]

/-- The heap the loop runs on differs from the given one in `underflowCount`
only, which the loop does not look at. -/
theorem mixAll_noteUnderflow (rate : Int) (N : Nat) (ps : List Ptr)
    (threads : Ptr → AudioThread) (status : Nat) (u : Ptr) (m : Mix) :
    (mixAll rate N ps (noteUnderflow threads status u) m).2 = (mixAll rate N ps threads m).2 :=
  (mixAll_congr rate N ps _ _ m (noteUnderflow_mixFields threads status u)).1

/-- A source that line 106 passes over is left as it is, and so are the
accumulators. -/
theorem mixThread_passedOver (rate : Int) (N : Nat) (t : AudioThread) (m : Mix)
    (h : t.passedOver = true) : mixThread rate N t m = (t, m) := by
  simp [mixThread, h]

theorem mixAll_erase_passedOver (rate : Int) (N : Nat) (s : Ptr) (ps : List Ptr) :
    ∀ (h : Ptr → AudioThread) (m : Mix), (h s).passedOver = true →
      mixAll rate N (ps.erase s) h m = mixAll rate N ps h m := by
  induction ps with
  | nil => intro h m _; rfl
  | cons a ps ih =>
    intro h m hs
    by_cases ha : a = s
    · subst ha
      simp [mixAll, mixThread_passedOver rate N (h a) m hs]
    · have hne : ¬ (a == s) = true := by simpa using ha
      rw [List.erase_cons_tail hne]
      simp only [mixAll]
      apply ih
      rw [Function.update_noteq (Ne.symm ha)]
      exact hs

/-- The output of the callback on a unit that is not terminated: the early
return on an empty list gives what the loop and the normalising step give. -/
theorem audioCallback_out_of_running (threads : Ptr → AudioThread) (out : List ℚ)
    (N status : Nat) (u : Ptr) (ht : (threads u).terminated = false) :
    (audioCallback threads out N status u).out =
      (normalize N (mixAll (threads u).sampleRate N (threads u).boundThreads
        (noteUnderflow threads status u) ⟨memsetZero out (N * 2), 0, []⟩).2).out := by
  by_cases hb : (threads u).boundThreads = []
  · have h10 : ¬ ((1 : ℚ) < 0) := by norm_num
    simp [audioCallback, AudioThread.isTerminated, ht, hb, mixAll, normalize, h10]
  · simp [audioCallback, AudioThread.isTerminated, ht, hb, AudioThread.getSampleRate]

/-- The heap after the callback on a unit that is not terminated. -/
theorem audioCallback_threads_of_running (threads : Ptr → AudioThread) (out : List ℚ)
    (N status : Nat) (u : Ptr) (ht : (threads u).terminated = false) :
    (audioCallback threads out N status u).threads =
      (mixAll (threads u).sampleRate N (threads u).boundThreads
        (noteUnderflow threads status u) ⟨memsetZero out (N * 2), 0, []⟩).1 := by
  by_cases hb : (threads u).boundThreads = []
  · simp [audioCallback, AudioThread.isTerminated, ht, hb, mixAll]
  · simp [audioCallback, AudioThread.isTerminated, ht, hb, AudioThread.getSampleRate]

/-- C8: a bound source whose queue is empty (or absent) and which has no
in-flight buffer leaves the output buffer of the callback exactly as it is when
that source has been removed from the owner's bound-source list with
`removeThread`. -/
theorem audioCallback_idle_source_as_unbound (threads : Ptr → AudioThread) (out : List ℚ)
    (N status : Nat) (u s : Ptr)
    (hq : (threads s).inputQueue = none ∨ (threads s).inputQueue = some [])
    (hc : (threads s).currentInput = none) :
    (audioCallback threads out N status u).out =
      (audioCallback (Function.update threads u ((threads u).removeThread s))
        out N status u).out := by
  have _ := hc
  by_cases ht : (threads u).terminated = true
  · simp [audioCallback, AudioThread.isTerminated, ht, AudioThread.removeThread]
  · have ht' : (threads u).terminated = false := by simpa using ht
    have ht2 : ((Function.update threads u ((threads u).removeThread s)) u).terminated = false := by
      simp [AudioThread.removeThread, ht']
    rw [audioCallback_out_of_running threads out N status u ht',
      audioCallback_out_of_running _ out N status u ht2]
    have hpo : (noteUnderflow threads status u s).passedOver = true := by
      rw [passedOver_of_mixFields _ _ (noteUnderflow_mixFields threads status u s)]
      rcases hq with hq | hq <;> simp [AudioThread.passedOver, hq]
    have hcongr : ∀ p,
        (noteUnderflow (Function.update threads u ((threads u).removeThread s)) status u p).mixFields
          = (noteUnderflow threads status u p).mixFields := by
      intro p
      rw [noteUnderflow_mixFields, noteUnderflow_mixFields]
      by_cases hp : p = u
      · subst hp; simp [AudioThread.removeThread, AudioThread.mixFields]
      · simp [Function.update_noteq hp]
    have e1 : (Function.update threads u ((threads u).removeThread s) u).sampleRate
        = (threads u).sampleRate := by simp [AudioThread.removeThread]
    have e2 : (Function.update threads u ((threads u).removeThread s) u).boundThreads
        = (threads u).boundThreads.erase s := by simp [AudioThread.removeThread]
    rw [e1, e2, (mixAll_congr _ N _ _ _ _ hcongr).1, mixAll_erase_passedOver _ N s _ _ _ hpo]

/-- Witness of `audioCallback_idle_source_as_unbound`: owner `0` with the idle
source `1` and the playing source `2`. -/
theorem audioCallback_idle_source_as_unbound_witness :
    (exIdleHeap 1).inputQueue = some [] ∧ (exIdleHeap 1).currentInput = none ∧
    (audioCallback exIdleHeap [0, 0, 0, 0] 2 0 0).out =
      (audioCallback (Function.update exIdleHeap 0 ((exIdleHeap 0).removeThread 1))
        [0, 0, 0, 0] 2 0 0).out :=
  ⟨by decide, by decide,
    audioCallback_idle_source_as_unbound exIdleHeap [0, 0, 0, 0] 2 0 0 1
      (Or.inr (by decide)) (by decide)⟩

/-! ### The sample loops while the in-flight buffer lasts -/

theorem refill_of_lt (gain : ℚ) (cur : AudioThreadInput) (ptr : Nat)
    (q : List AudioThreadInput) (mp : ℚ) (h : ptr < cur.data.length) :
    refill gain cur ptr q mp = some (cur, ptr, q, mp) := by
  simp [refill, Nat.not_le.mpr h]

/-- While the in-flight buffer has `n` samples left the single-channel loop pops
nothing: frame `j` of the `n` frames receives sample `ptr + j`, scaled by the
gain, in both of its channels. -/
theorem monoLoop_one_buffer (gain : ℚ) (cur : AudioThreadInput) (q : List AudioThreadInput)
    (mp : ℚ) (n : Nat) :
    ∀ (i ptr : Nat) (out : List ℚ) (tr : List Access), ptr + n ≤ cur.data.length →
      (monoLoop gain n i cur ptr q mp out tr).currentInput = some cur ∧
      (monoLoop gain n i cur ptr q mp out tr).audioQueuePtr = ptr + n ∧
      (monoLoop gain n i cur ptr q mp out tr).queue = q ∧
      (monoLoop gain n i cur ptr q mp out tr).mixPeak = mp ∧
      (monoLoop gain n i cur ptr q mp out tr).out.length = out.length ∧
      ∀ k, k < out.length →
        (monoLoop gain n i cur ptr q mp out tr).out.getD k 0 =
          out.getD k 0 +
            (if i * 2 ≤ k ∧ k < (i + n) * 2 then cur.data.getD (ptr + (k / 2 - i)) 0 * gain
             else 0) := by
  induction n with
  | zero =>
    intro i ptr out tr _
    refine ⟨rfl, rfl, rfl, rfl, rfl, ?_⟩
    intro k _
    have : ¬ (i * 2 ≤ k ∧ k < (i + 0) * 2) := by omega
    simp [monoLoop, this]
  | succ n ih =>
    intro i ptr out tr h
    have hlt : ptr < cur.data.length := by omega
    have hne : cur.data.length ≠ 0 := by omega
    have hstep : monoLoop gain (n + 1) i cur ptr q mp out tr =
        monoLoop gain n (i + 1) cur (ptr + 1) q mp
          (addAt (addAt out (i * 2) (cur.data.getD ptr 0 * gain)) (i * 2 + 1)
            (cur.data.getD ptr 0 * gain))
          (tr ++ [Access.read cur ptr, Access.write (i * 2), Access.write (i * 2 + 1)]) := by
      simp [monoLoop, refill_of_lt gain cur ptr q mp hlt, hne]
    rw [hstep]
    obtain ⟨h1, h2, h3, h4, h5, h6⟩ := ih (i + 1) (ptr + 1)
      (addAt (addAt out (i * 2) (cur.data.getD ptr 0 * gain)) (i * 2 + 1)
        (cur.data.getD ptr 0 * gain))
      (tr ++ [Access.read cur ptr, Access.write (i * 2), Access.write (i * 2 + 1)]) (by omega)
    refine ⟨h1, by rw [h2]; omega, h3, h4, by rw [h5, addAt_length, addAt_length], ?_⟩
    intro k hk
    rw [h6 k (by rw [addAt_length, addAt_length]; exact hk), addAt_getD, addAt_getD, addAt_length]
    by_cases hk0 : k = i * 2
    · have e : ptr + (k / 2 - i) = ptr := by omega
      rw [if_neg (by omega : ¬ ((i + 1) * 2 ≤ k ∧ k < (i + 1 + n) * 2)),
        if_pos (by omega : i * 2 ≤ k ∧ k < (i + (n + 1)) * 2),
        if_neg (by omega : ¬ (k = i * 2 + 1 ∧ i * 2 + 1 < out.length)),
        if_pos (by omega : k = i * 2 ∧ i * 2 < out.length), e]
      ring
    · by_cases hk1 : k = i * 2 + 1
      · have e : ptr + (k / 2 - i) = ptr := by omega
        rw [if_neg (by omega : ¬ ((i + 1) * 2 ≤ k ∧ k < (i + 1 + n) * 2)),
          if_pos (by omega : i * 2 ≤ k ∧ k < (i + (n + 1)) * 2),
          if_pos (by omega : k = i * 2 + 1 ∧ i * 2 + 1 < out.length),
          if_neg (by omega : ¬ (k = i * 2 ∧ i * 2 < out.length)), e]
        ring
      · rw [if_neg (by omega : ¬ (k = i * 2 + 1 ∧ i * 2 + 1 < out.length)),
          if_neg (by omega : ¬ (k = i * 2 ∧ i * 2 < out.length))]
        by_cases hin : (i + 1) * 2 ≤ k ∧ k < (i + 1 + n) * 2
        · have e : ptr + 1 + (k / 2 - (i + 1)) = ptr + (k / 2 - i) := by omega
          rw [if_pos hin, if_pos (by omega : i * 2 ≤ k ∧ k < (i + (n + 1)) * 2), e]
        · rw [if_neg hin, if_neg (by omega : ¬ (i * 2 ≤ k ∧ k < (i + (n + 1)) * 2))]

/-- While the in-flight buffer has `n` samples left the multi-channel loop pops
nothing: output sample `i + j` receives sample `ptr + j`, scaled by the gain. -/
theorem multiLoop_one_buffer (gain : ℚ) (cur : AudioThreadInput) (q : List AudioThreadInput)
    (mp : ℚ) (n : Nat) :
    ∀ (i ptr : Nat) (out : List ℚ) (tr : List Access), ptr + n ≤ cur.data.length →
      (multiLoop gain n i cur ptr q mp out tr).currentInput = some cur ∧
      (multiLoop gain n i cur ptr q mp out tr).audioQueuePtr = ptr + n ∧
      (multiLoop gain n i cur ptr q mp out tr).queue = q ∧
      (multiLoop gain n i cur ptr q mp out tr).mixPeak = mp ∧
      (multiLoop gain n i cur ptr q mp out tr).out.length = out.length ∧
      ∀ k, k < out.length →
        (multiLoop gain n i cur ptr q mp out tr).out.getD k 0 =
          out.getD k 0 +
            (if i ≤ k ∧ k < i + n then cur.data.getD (ptr + (k - i)) 0 * gain else 0) := by
  induction n with
  | zero =>
    intro i ptr out tr _
    refine ⟨rfl, rfl, rfl, rfl, rfl, ?_⟩
    intro k _
    have : ¬ (i ≤ k ∧ k < i + 0) := by omega
    simp [multiLoop, this]
  | succ n ih =>
    intro i ptr out tr h
    have hlt : ptr < cur.data.length := by omega
    have hne : cur.data.length ≠ 0 := by omega
    have hstep : multiLoop gain (n + 1) i cur ptr q mp out tr =
        multiLoop gain n (i + 1) cur (ptr + 1) q mp
          (addAt out i (cur.data.getD ptr 0 * gain))
          (tr ++ [Access.read cur ptr, Access.write i]) := by
      simp [multiLoop, refill_of_lt gain cur ptr q mp hlt, hne]
    rw [hstep]
    obtain ⟨h1, h2, h3, h4, h5, h6⟩ := ih (i + 1) (ptr + 1)
      (addAt out i (cur.data.getD ptr 0 * gain))
      (tr ++ [Access.read cur ptr, Access.write i]) (by omega)
    refine ⟨h1, by rw [h2]; omega, h3, h4, by rw [h5, addAt_length], ?_⟩
    intro k hk
    rw [h6 k (by rw [addAt_length]; exact hk), addAt_getD]
    by_cases hk0 : k = i
    · have e : ptr + (k - i) = ptr := by omega
      rw [if_neg (by omega : ¬ (i + 1 ≤ k ∧ k < i + 1 + n)),
        if_pos (by omega : i ≤ k ∧ k < i + (n + 1)),
        if_pos (by omega : k = i ∧ i < out.length), e]
      ring
    · rw [if_neg (by omega : ¬ (k = i ∧ i < out.length))]
      by_cases hin : i + 1 ≤ k ∧ k < i + 1 + n
      · have e : ptr + 1 + (k - (i + 1)) = ptr + (k - i) := by omega
        rw [if_pos hin, if_pos (by omega : i ≤ k ∧ k < i + (n + 1)), e]
      · rw [if_neg hin, if_neg (by omega : ¬ (i ≤ k ∧ k < i + (n + 1)))]

/-- One bound source that plays from one buffer: its peak term is added to the
running peak and its contribution to every sample of the output buffer. -/
theorem mixThread_playsOneBuffer (rate : Int) (N : Nat) (t : AudioThread) (m : Mix)
    (hlen : m.out.length = 2 * N) (h : t.playsOneBuffer rate N) :
    (mixThread rate N t m).2.peak = m.peak + t.peakTerm ∧
    (mixThread rate N t m).2.out.length = m.out.length ∧
    ∀ k, k < 2 * N →
      (mixThread rate N t m).2.out.getD k 0 = m.out.getD k 0 + t.contribution k := by
  obtain ⟨hpo, hcur⟩ := h
  cases hc : t.currentInput with
  | none => simp [hc] at hcur
  | some b =>
    simp only [hc] at hcur
    obtain ⟨hrate, hdata, hch⟩ := hcur
    have hlen0 : b.data.length ≠ 0 := by
      intro h0; exact hdata (List.length_eq_zero.mp h0)
    rcases hch with ⟨hch, hroom⟩ | ⟨hch, hroom⟩
    · obtain ⟨-, -, -, h4, h5, h6⟩ := monoLoop_one_buffer t.gain b (t.inputQueue.getD [])
        (b.peak * t.gain) N 0 t.audioQueuePtr m.out m.trace hroom
      have e : mixThread rate N t m =
          ({ t with currentInput := (monoLoop t.gain N 0 b t.audioQueuePtr
                      (t.inputQueue.getD []) (b.peak * t.gain) m.out m.trace).currentInput,
                    inputQueue := some (monoLoop t.gain N 0 b t.audioQueuePtr
                      (t.inputQueue.getD []) (b.peak * t.gain) m.out m.trace).queue,
                    audioQueuePtr := (monoLoop t.gain N 0 b t.audioQueuePtr
                      (t.inputQueue.getD []) (b.peak * t.gain) m.out m.trace).audioQueuePtr },
           { out := (monoLoop t.gain N 0 b t.audioQueuePtr
                      (t.inputQueue.getD []) (b.peak * t.gain) m.out m.trace).out,
             peak := m.peak + (monoLoop t.gain N 0 b t.audioQueuePtr
                      (t.inputQueue.getD []) (b.peak * t.gain) m.out m.trace).mixPeak,
             trace := (monoLoop t.gain N 0 b t.audioQueuePtr
                      (t.inputQueue.getD []) (b.peak * t.gain) m.out m.trace).trace }) := by
        simp [mixThread, hpo, hc, hrate, hch, hlen0]
      rw [e]
      refine ⟨by simp [h4, AudioThread.peakTerm, hc], h5, ?_⟩
      intro k hk
      simp only
      rw [h6 k (by omega), if_pos (by omega : 0 * 2 ≤ k ∧ k < (0 + N) * 2)]
      simp [AudioThread.contribution, hc, hch]
    · obtain ⟨-, -, -, h4, h5, h6⟩ := multiLoop_one_buffer t.gain b (t.inputQueue.getD [])
        (b.peak * t.gain) (b.channels * N) 0 t.audioQueuePtr m.out m.trace (by rw [hch]; exact hroom)
      have e : mixThread rate N t m =
          ({ t with currentInput := (multiLoop t.gain (b.channels * N) 0 b t.audioQueuePtr
                      (t.inputQueue.getD []) (b.peak * t.gain) m.out m.trace).currentInput,
                    inputQueue := some (multiLoop t.gain (b.channels * N) 0 b t.audioQueuePtr
                      (t.inputQueue.getD []) (b.peak * t.gain) m.out m.trace).queue,
                    audioQueuePtr := (multiLoop t.gain (b.channels * N) 0 b t.audioQueuePtr
                      (t.inputQueue.getD []) (b.peak * t.gain) m.out m.trace).audioQueuePtr },
           { out := (multiLoop t.gain (b.channels * N) 0 b t.audioQueuePtr
                      (t.inputQueue.getD []) (b.peak * t.gain) m.out m.trace).out,
             peak := m.peak + (multiLoop t.gain (b.channels * N) 0 b t.audioQueuePtr
                      (t.inputQueue.getD []) (b.peak * t.gain) m.out m.trace).mixPeak,
             trace := (multiLoop t.gain (b.channels * N) 0 b t.audioQueuePtr
                      (t.inputQueue.getD []) (b.peak * t.gain) m.out m.trace).trace }) := by
        simp [mixThread, hpo, hc, hrate, hch, hlen0]
      rw [e]
      refine ⟨by simp [h4, AudioThread.peakTerm, hc], h5, ?_⟩
      intro k hk
      simp only
      rw [h6 k (by omega), if_pos (by rw [hch]; omega : 0 ≤ k ∧ k < 0 + b.channels * N)]
      simp [AudioThread.contribution, hc, hch]

/-- Bound sources that are pairwise distinct and each play from one buffer:
the loop adds up their peak terms and, sample by sample, their contributions. -/
theorem mixAll_playsOneBuffer (rate : Int) (N : Nat) (ps : List Ptr) :
    ∀ (h : Ptr → AudioThread) (m : Mix), m.out.length = 2 * N → ps.Nodup →
      (∀ p ∈ ps, (h p).playsOneBuffer rate N) →
      (mixAll rate N ps h m).2.peak = m.peak + (ps.map (fun p => (h p).peakTerm)).sum ∧
      (mixAll rate N ps h m).2.out.length = m.out.length ∧
      ∀ k, k < 2 * N →
        (mixAll rate N ps h m).2.out.getD k 0 =
          m.out.getD k 0 + (ps.map (fun p => (h p).contribution k)).sum := by
  induction ps with
  | nil =>
    intro h m _ _ _
    simp [mixAll]
  | cons a ps ih =>
    intro h m hlen hnd hsrc
    obtain ⟨ha, hnd'⟩ := List.nodup_cons.mp hnd
    obtain ⟨e1, e2, e3⟩ := mixThread_playsOneBuffer rate N (h a) m hlen
      (hsrc a (List.mem_cons_self a ps))
    have hsame : ∀ p ∈ ps, Function.update h a (mixThread rate N (h a) m).1 p = h p := by
      intro p hp
      have hne : p ≠ a := fun e => ha (e ▸ hp)
      exact Function.update_noteq hne _ _
    obtain ⟨i1, i2, i3⟩ := ih (Function.update h a (mixThread rate N (h a) m).1)
      (mixThread rate N (h a) m).2 (by rw [e2]; exact hlen) hnd'
      (fun p hp => by rw [hsame p hp]; exact hsrc p (List.mem_cons_of_mem a hp))
    have s1 : (ps.map (fun p =>
        (Function.update h a (mixThread rate N (h a) m).1 p).peakTerm)) =
        ps.map (fun p => (h p).peakTerm) :=
      List.map_congr_left (fun p hp => by rw [hsame p hp])
    have s2 : ∀ k, (ps.map (fun p =>
        (Function.update h a (mixThread rate N (h a) m).1 p).contribution k)) =
        ps.map (fun p => (h p).contribution k) :=
      fun k => List.map_congr_left (fun p hp => by rw [hsame p hp])
    simp only [mixAll, List.map_cons, List.sum_cons]
    refine ⟨by rw [i1, e1, s1]; ring, by rw [i2, e2], ?_⟩
    intro k hk
    rw [i3 k hk, e3 k hk, s2 k]
    ring

/-- C1 as stated fails for a source whose buffer in flight was played to its end
in the period before. In `exSpentThenBufHeap` the single source has gain 1; in a
callback of 2 frames every sample it contributes is read from the one buffer
`exBuf`, popped at frame 0, whose peak is 1/2. The sum of the `p_i * g_i` is
1/2, at most 1, so the claim gives the unscaled output `[1/2, 1/2, -1/4, -1/4]`.
The callback scales it by 1/4: line 156 has seeded the estimate with the peak 4
of the spent buffer `exDoneBuf`. All the values are `float`s, and the callback
in floating point, `audioCallbackF`, gives the same output. -/
theorem audioCallback_soft_limiting_scales_after_spent_buffer :
    (exSpentThenBufHeap 0).isTerminated = false ∧
    (exSpentThenBufHeap 0).boundThreads = [1] ∧
    (audioCallback exSpentThenBufHeap [0, 0, 0, 0] 2 0 0).trace =
      [Access.read exBuf 0, Access.write 0, Access.write 1,
       Access.read exBuf 1, Access.write 2, Access.write 3,
       Access.write 0, Access.write 1, Access.write 2, Access.write 3] ∧
    exBuf.peak * (exSpentThenBufHeap 1).gain = 1 / 2 ∧
    (exSpentThenBufHeap 1).currentInput = some exDoneBuf ∧
    (exSpentThenBufHeap 1).audioQueuePtr = exDoneBuf.data.length ∧
    (audioCallback exSpentThenBufHeap [0, 0, 0, 0] 2 0 0).out = [1 / 8, 1 / 8, -1 / 16, -1 / 16] ∧
    (audioCallback exSpentThenBufHeap [0, 0, 0, 0] 2 0 0).out ≠ [1 / 2, 1 / 2, -1 / 4, -1 / 4] ∧
    (audioCallbackF exSpentThenBufHeap [0, 0, 0, 0] 2 0 0).out
      = [1 / 8, 1 / 8, -1 / 16, -1 / 16] := by
  refine ⟨rfl, rfl, by decide!, by decide!, rfl, rfl, by decide!, by decide!, by decide!⟩

/-- C1 amended, the soft limiting rule: on an owner that is not terminated, whose
bound sources are pairwise distinct and each have in flight, when the callback
starts, a buffer that serves the whole period (the source is not passed over;
the buffer has the owner's rate, one or two channels, and enough samples left
after the cursor for all `N` frames), with peak `p_i` and gain `g_i`: every
sample of the output buffer is the sum of the gain-scaled contributions when the
sum of the `p_i * g_i` is at most 1, and that sum multiplied by
`1 / (sum of p_i * g_i)` when it exceeds 1. -/
theorem audioCallback_soft_limiting (threads : Ptr → AudioThread) (out : List ℚ)
    (N status : Nat) (u : Ptr) (hlen : out.length = 2 * N)
    (ht : (threads u).isTerminated = false)
    (hnd : (threads u).boundThreads.Nodup)
    (hsrc : ∀ p ∈ (threads u).boundThreads,
      (threads p).playsOneBuffer (threads u).getSampleRate N) :
    (((threads u).boundThreads.map (fun p => (threads p).peakTerm)).sum ≤ 1 →
      ∀ k, k < 2 * N →
        (audioCallback threads out N status u).out[k]? =
          some (((threads u).boundThreads.map (fun p => (threads p).contribution k)).sum)) ∧
    (((threads u).boundThreads.map (fun p => (threads p).peakTerm)).sum > 1 →
      ∀ k, k < 2 * N →
        (audioCallback threads out N status u).out[k]? =
          some (((threads u).boundThreads.map (fun p => (threads p).contribution k)).sum *
            (1 / ((threads u).boundThreads.map (fun p => (threads p).peakTerm)).sum))) := by
  have hz : memsetZero out (N * 2) = List.replicate (2 * N) 0 := by
    rw [Nat.mul_comm N 2]; exact memsetZero_full out (2 * N) hlen
  have hm0 : (⟨memsetZero out (N * 2), 0, []⟩ : Mix).out.length = 2 * N := by
    simp [hz]
  obtain ⟨e1, e2, e3⟩ := mixAll_playsOneBuffer (threads u).sampleRate N (threads u).boundThreads
    threads ⟨memsetZero out (N * 2), 0, []⟩ hm0 hnd hsrc
  have hout := audioCallback_out_of_running threads out N status u ht
  rw [mixAll_noteUnderflow] at hout
  have hzero : ∀ k, (memsetZero out (N * 2)).getD k 0 = 0 := by
    intro k; rw [hz]; exact replicate_zero_getD (2 * N) k
  simp only [zero_add] at e1
  constructor
  · intro hle k hk
    have hn : normalize N (mixAll (threads u).sampleRate N (threads u).boundThreads threads
        ⟨memsetZero out (N * 2), 0, []⟩).2 = (mixAll (threads u).sampleRate N
        (threads u).boundThreads threads ⟨memsetZero out (N * 2), 0, []⟩).2 := by
      simp [normalize, e1, not_lt.mpr hle]
    rw [hout, hn, getElem?_of_getD _ k (by rw [e2, hm0]; exact hk), e3 k hk, hzero k, zero_add]
  · intro hgt k hk
    have hn : (normalize N (mixAll (threads u).sampleRate N (threads u).boundThreads threads
        ⟨memsetZero out (N * 2), 0, []⟩).2).out = scaleLoop
          (1 / ((threads u).boundThreads.map (fun p => (threads p).peakTerm)).sum)
          (mixAll (threads u).sampleRate N (threads u).boundThreads threads
            ⟨memsetZero out (N * 2), 0, []⟩).2.out (N * 2) := by
      simp [normalize, e1, hgt]
    rw [hout, hn, getElem?_of_getD _ k (by rw [scaleLoop_length, e2, hm0]; exact hk),
      scaleLoop_getD, if_pos (by omega : k < N * 2), e3 k hk, hzero k, zero_add]

/-- Witness of `audioCallback_soft_limiting`: two sources with peak 4/5 and gain
1 give the estimate 8/5, and the one frame is the sum 8/5 scaled by
`1 / (8/5)`; one source with peak 1/2 is left unscaled. -/
theorem audioCallback_soft_limiting_witness :
    (audioCallback exLoudHeap [0, 0] 1 0 0).out[0]? =
      some ((((exLoudHeap 0).boundThreads.map (fun p => (exLoudHeap p).contribution 0)).sum) *
        (1 / ((exLoudHeap 0).boundThreads.map (fun p => (exLoudHeap p).peakTerm)).sum)) ∧
    (audioCallback exPlayingHeap [0, 0, 0, 0] 2 0 0).out[3]? =
      some (((exPlayingHeap 0).boundThreads.map (fun p => (exPlayingHeap p).contribution 3)).sum) :=
  ⟨(audioCallback_soft_limiting exLoudHeap [0, 0] 1 0 0 (by decide) (by decide) (by decide)
      (by decide)).2 (by decide!) 0 (by decide),
   (audioCallback_soft_limiting exPlayingHeap [0, 0, 0, 0] 2 0 0 (by decide) (by decide)
      (by decide) (by decide)).1 (by decide!) 3 (by decide)⟩

/-! ### A single source with a single buffer -/

/-- C2 as stated fails: owner `0` at 48000 Hz has the single bound source `1`,
active, not terminated, gain 1, nothing in flight, and its queue holds the one
1-channel buffer `exBuf` of 2 samples at 48000 Hz with peak 1/2. One callback
of 2 frames outputs silence, so `output[0]` is 0 and not `data[0] = 1/2`; the
buffer has only become the in-flight buffer. -/
theorem audioCallback_fresh_source_first_period_silent :
    (exFreshHeap 0).sampleRate = 48000 ∧ (exFreshHeap 0).boundThreads = [1] ∧
    (exFreshHeap 0).terminated = false ∧
    (exFreshHeap 1).active = true ∧ (exFreshHeap 1).terminated = false ∧
    (exFreshHeap 1).gain = 1 ∧ (exFreshHeap 1).currentInput = none ∧
    (exFreshHeap 1).inputQueue = some [exBuf] ∧
    exBuf.channels = 1 ∧ exBuf.data.length = 2 ∧ exBuf.sampleRate = 48000 ∧ exBuf.peak ≤ 1 ∧
    (audioCallback exFreshHeap [0, 0, 0, 0] 2 0 0).out = [0, 0, 0, 0] ∧
    (audioCallback exFreshHeap [0, 0, 0, 0] 2 0 0).out[0]? ≠ exBuf.data[0]? ∧
    ((audioCallback exFreshHeap [0, 0, 0, 0] 2 0 0).threads 1).currentInput = some exBuf := by
  decide!

/-- C2 amended: an owner that is not terminated has exactly one bound source,
active, not terminated, with gain 1; `b` is a 1-channel buffer of `N` samples at
the owner's rate with peak at most 1. If the source has nothing in flight and
`b` alone in its queue, one callback of `N` frames outputs silence and only
makes `b` the in-flight buffer, with cursor 0 and an empty queue. If `b` is in
flight at cursor 0 and the queue is not empty, one callback of `N` frames gives
`output[2i] = output[2i+1] = data[i]` for every frame `i < N`, unscaled. -/
theorem audioCallback_single_mono_source (threads : Ptr → AudioThread) (out : List ℚ)
    (N status : Nat) (u s : Ptr) (b : AudioThreadInput)
    (hlen : out.length = 2 * N)
    (hu : (threads u).isTerminated = false) (hb : (threads u).boundThreads = [s])
    (hact : (threads s).isActive = true) (hnt : (threads s).isTerminated = false)
    (hg : (threads s).gain = 1)
    (hch : b.channels = 1) (hN : b.data.length = N)
    (hr : b.sampleRate = (threads u).getSampleRate) (hpk : b.peak ≤ 1) :
    ((threads s).currentInput = none → (threads s).inputQueue = some [b] →
      (audioCallback threads out N status u).out = List.replicate (2 * N) 0 ∧
      ((audioCallback threads out N status u).threads s).currentInput = some b ∧
      ((audioCallback threads out N status u).threads s).audioQueuePtr = 0 ∧
      ((audioCallback threads out N status u).threads s).inputQueue = some []) ∧
    ((threads s).currentInput = some b → (threads s).audioQueuePtr = 0 →
      (∃ q, (threads s).inputQueue = some q ∧ q ≠ []) →
      ∀ i, i < N →
        (audioCallback threads out N status u).out[2 * i]? = b.data[i]? ∧
        (audioCallback threads out N status u).out[2 * i + 1]? = b.data[i]?) := by
  have hz : memsetZero out (N * 2) = List.replicate (2 * N) 0 := by
    rw [Nat.mul_comm N 2]; exact memsetZero_full out (2 * N) hlen
  have hout := audioCallback_out_of_running threads out N status u hu
  have hthr := audioCallback_threads_of_running threads out N status u hu
  simp only [AudioThread.isActive, AudioThread.isTerminated, AudioThread.getSampleRate]
    at hact hnt hr
  constructor
  · intro hcur hq
    obtain ⟨c, hc⟩ := noteUnderflow_eq threads status u s
    have h10 : ¬ ((1 : ℚ) < 0) := by norm_num
    rw [hout, hthr, hb]
    simp [mixAll, mixThread, AudioThread.passedOver, hc, hcur, hq, hact, hnt, tryPop,
      normalize, h10, hz]
  · intro hcur hptr hq i hi
    obtain ⟨q, hq, hqne⟩ := hq
    have hplay : (threads s).playsOneBuffer (threads u).sampleRate N := by
      refine ⟨?_, ?_⟩
      · cases q with
        | nil => exact absurd rfl hqne
        | cons x xs => simp [AudioThread.passedOver, hq, hact, hnt]
      · simp only [hcur]
        refine ⟨hr, ?_, Or.inl ⟨hch, by omega⟩⟩
        intro h0
        rw [h0] at hN
        simp at hN
        omega
    have hm0 : (⟨memsetZero out (N * 2), 0, []⟩ : Mix).out.length = 2 * N := by
      simp [hz]
    obtain ⟨e1, e2, e3⟩ := mixAll_playsOneBuffer (threads u).sampleRate N [s]
      threads ⟨memsetZero out (N * 2), 0, []⟩ hm0 (List.nodup_singleton s)
      (fun p hp => by rw [List.mem_singleton.mp hp]; exact hplay)
    rw [mixAll_noteUnderflow, hb] at hout
    have hpeak : (mixAll (threads u).sampleRate N [s] threads
        ⟨memsetZero out (N * 2), 0, []⟩).2.peak = b.peak := by
      rw [e1]; simp [AudioThread.peakTerm, hcur, hg]
    have hn : normalize N (mixAll (threads u).sampleRate N [s] threads
        ⟨memsetZero out (N * 2), 0, []⟩).2 = (mixAll (threads u).sampleRate N [s] threads
        ⟨memsetZero out (N * 2), 0, []⟩).2 := by
      simp [normalize, hpeak, not_lt.mpr hpk]
    have hzero : ∀ k, (memsetZero out (N * 2)).getD k 0 = 0 := by
      intro k; rw [hz]; exact replicate_zero_getD (2 * N) k
    have hval : ∀ k, k < 2 * N → k / 2 = i →
        (audioCallback threads out N status u).out[k]? = b.data[i]? := by
      intro k hk hki
      rw [hout, hn, getElem?_of_getD _ k (by rw [e2, hm0]; exact hk), e3 k hk, hzero k,
        getElem?_of_getD b.data i (by omega)]
      simp [AudioThread.contribution, hcur, hch, hptr, hg, hki]
    exact ⟨hval (2 * i) (by omega) (by omega), hval (2 * i + 1) (by omega) (by omega)⟩

/-- Witness of `audioCallback_single_mono_source`: the heap `exFreshHeap` for a
source whose buffer is still queued, the heap `exPlayingHeap` for a source
whose buffer is in flight, both with `exBuf` and a period of 2 frames. -/
theorem audioCallback_single_mono_source_witness :
    ((audioCallback exFreshHeap [0, 0, 0, 0] 2 0 0).out = List.replicate (2 * 2) 0 ∧
      ((audioCallback exFreshHeap [0, 0, 0, 0] 2 0 0).threads 1).currentInput = some exBuf ∧
      ((audioCallback exFreshHeap [0, 0, 0, 0] 2 0 0).threads 1).audioQueuePtr = 0 ∧
      ((audioCallback exFreshHeap [0, 0, 0, 0] 2 0 0).threads 1).inputQueue = some []) ∧
    ((audioCallback exPlayingHeap [0, 0, 0, 0] 2 0 0).out[2 * 1]? = exBuf.data[1]? ∧
      (audioCallback exPlayingHeap [0, 0, 0, 0] 2 0 0).out[2 * 1 + 1]? = exBuf.data[1]?) :=
  ⟨(audioCallback_single_mono_source exFreshHeap [0, 0, 0, 0] 2 0 0 1 exBuf (by decide)
      (by decide) (by decide) (by decide) (by decide) (by decide) (by decide) (by decide)
      (by decide) (by decide!)).1 rfl rfl,
   (audioCallback_single_mono_source exPlayingHeap [0, 0, 0, 0] 2 0 0 1 exBuf (by decide)
      (by decide) (by decide) (by decide) (by decide) (by decide) (by decide) (by decide)
      (by decide) (by decide!)).2 rfl rfl ⟨[exBuf], rfl, by simp⟩ 1 (by decide)⟩

/-! ### The output never exceeds the peak estimate -/

theorem sample_le_peak (b : AudioThreadInput) (gain : ℚ) (p : Nat)
    (hb : b.peakBoundsSamples) (hg : 0 ≤ gain) (hp : p < b.data.length) :
    |b.data.getD p 0 * gain| ≤ b.peak * gain := by
  have hx : b.data.getD p 0 ∈ b.data := by
    rw [List.getD_eq_getElem _ _ hp]
    exact List.getElem_mem hp
  rw [abs_mul, abs_of_nonneg hg]
  exact mul_le_mul_of_nonneg_right (hb _ hx) hg

/-- What the head of a sample loop hands on, when it does not break: the
buffer comes from the in-flight one or the queue, the queue only shrinks,
`mixPeak` only grows and covers the buffer's `peak * gain`, and the cursor is
inside the buffer unless the buffer is empty. -/
theorem refill_some (gain : ℚ) (cur : AudioThreadInput) (ptr : Nat) (q : List AudioThreadInput)
    (mp : ℚ) (c : AudioThreadInput) (p : Nat) (rest : List AudioThreadInput) (mp' : ℚ)
    (h : refill gain cur ptr q mp = some (c, p, rest, mp')) (hmp : cur.peak * gain ≤ mp) :
    mp ≤ mp' ∧ c.peak * gain ≤ mp' ∧ (c = cur ∨ c ∈ q) ∧ (∀ b ∈ rest, b ∈ q) ∧
    (c.data.length ≠ 0 → p < c.data.length) := by
  unfold refill at h
  by_cases hlt : cur.data.length ≤ ptr
  · cases q with
    | nil => simp [hlt, tryPop] at h
    | cons b rest' =>
      simp only [hlt, tryPop, if_true, Option.some.injEq, Prod.mk.injEq] at h
      obtain ⟨rfl, rfl, rfl, rfl⟩ := h
      refine ⟨?_, ?_, Or.inr (List.mem_cons_self _ _), fun b hb => List.mem_cons_of_mem _ hb,
        fun h0 => Nat.pos_of_ne_zero h0⟩
      · split
        · exact le_of_lt (by assumption)
        · exact le_refl _
      · split
        · exact le_refl _
        · exact not_lt.mp (by assumption)
  · simp only [hlt, if_false, Option.some.injEq, Prod.mk.injEq] at h
    obtain ⟨rfl, rfl, rfl, rfl⟩ := h
    exact ⟨le_refl _, hmp, Or.inl rfl, fun b hb => hb, fun _ => Nat.not_le.mp hlt⟩

/-- The single-channel loop changes each output sample by at most the final
`mixPeak`, and leaves the frames before `i` alone. -/
theorem monoLoop_bounded (gain : ℚ) (hg : 0 ≤ gain) (n : Nat) :
    ∀ (i : Nat) (cur : AudioThreadInput) (ptr : Nat) (q : List AudioThreadInput) (mp : ℚ)
      (out : List ℚ) (tr : List Access) (r : LoopOut),
      monoLoop gain n i cur ptr q mp out tr = r →
      cur.peakBoundsSamples → (∀ b ∈ q, b.peakBoundsSamples) → cur.peak * gain ≤ mp → 0 ≤ mp →
      mp ≤ r.mixPeak ∧ r.out.length = out.length ∧
      (∀ k, |r.out.getD k 0 - out.getD k 0| ≤ r.mixPeak) ∧
      (∀ k, k < i * 2 → r.out.getD k 0 = out.getD k 0) ∧
      (∀ b, r.currentInput = some b → b = cur ∨ b ∈ q) ∧ (∀ b ∈ r.queue, b ∈ q) := by
  induction n with
  | zero =>
    intro i cur ptr q mp out tr r hr hcur _ _ hmp0
    subst hr
    refine ⟨le_refl _, rfl, ?_, fun _ _ => rfl, ?_, fun b hb => hb⟩
    · intro k; simpa [monoLoop] using hmp0
    · intro b hb
      simp only [monoLoop, Option.some.injEq] at hb
      exact Or.inl hb.symm
  | succ n ih =>
    intro i cur ptr q mp out tr r hr hcur hq hmp hmp0
    cases hrf : refill gain cur ptr q mp with
    | none =>
      simp only [monoLoop, hrf] at hr
      subst hr
      refine ⟨le_refl _, rfl, ?_, fun _ _ => rfl, ?_, fun b hb => hb⟩
      · intro k; simpa using hmp0
      · intro b hb; simp at hb
    | some x =>
      obtain ⟨c, p, rest, mp'⟩ := x
      obtain ⟨f1, f2, f3, f4, f5⟩ := refill_some gain cur ptr q mp c p rest mp' hrf hmp
      have hc : c.peakBoundsSamples := by
        rcases f3 with rfl | hin
        · exact hcur
        · exact hq c hin
      have hrest : ∀ b ∈ rest, b.peakBoundsSamples := fun b hb => hq b (f4 b hb)
      have hmp0' : 0 ≤ mp' := le_trans hmp0 f1
      by_cases hlen : c.data.length ≠ 0
      · simp only [monoLoop, hrf, hlen, if_true, ne_eq, not_false_eq_true] at hr
        obtain ⟨g1, g2, g3, g4, g5, g6⟩ := ih (i + 1) c (p + 1) rest mp' _ _ r hr hc hrest f2 hmp0'
        have hv : |c.data.getD p 0 * gain| ≤ mp' :=
          le_trans (sample_le_peak c gain p hc hg (f5 hlen)) f2
        refine ⟨le_trans f1 g1, by rw [g2, addAt_length, addAt_length], ?_, ?_, ?_, ?_⟩
        · intro k
          by_cases hk : k < (i + 1) * 2
          · rw [g4 k hk]
            have e : (addAt (addAt out (i * 2) (c.data.getD p 0 * gain)) (i * 2 + 1)
                (c.data.getD p 0 * gain)).getD k 0 - out.getD k 0 =
                (if k = i * 2 + 1 ∧ i * 2 + 1 < (addAt out (i * 2)
                    (c.data.getD p 0 * gain)).length then c.data.getD p 0 * gain else 0) +
                (if k = i * 2 ∧ i * 2 < out.length then c.data.getD p 0 * gain else 0) := by
              rw [← addAt_getD_sub, ← addAt_getD_sub]; ring
            rw [e]
            have hg1 : (0 : ℚ) ≤ r.mixPeak := le_trans hmp0' g1
            split
            · split
              · omega
              · rw [add_zero]; exact le_trans hv g1
            · split
              · rw [zero_add]; exact le_trans hv g1
              · simpa using hg1
          · have e1 : (addAt (addAt out (i * 2) (c.data.getD p 0 * gain)) (i * 2 + 1)
                (c.data.getD p 0 * gain)).getD k 0 = out.getD k 0 := by
              rw [addAt_getD, addAt_getD, if_neg (by omega), if_neg (by omega)]
            rw [← e1]
            exact g3 k
        · intro k hk
          rw [g4 k (by omega), addAt_getD, addAt_getD, if_neg (by omega), if_neg (by omega)]
        · intro b hb
          rcases g5 b hb with rfl | hin
          · exact f3
          · exact Or.inr (f4 b hin)
        · intro b hb
          exact f4 b (g6 b hb)
      · have hlen0 : c.data.length = 0 := by simpa using hlen
        simp only [monoLoop, hrf, hlen0, ne_eq, not_true_eq_false, if_false] at hr
        obtain ⟨g1, g2, g3, g4, g5, g6⟩ := ih (i + 1) c (p + 1) rest mp' _ _ r hr hc hrest f2 hmp0'
        refine ⟨le_trans f1 g1, g2, g3, fun k hk => g4 k (by omega), ?_, ?_⟩
        · intro b hb
          rcases g5 b hb with rfl | hin
          · exact f3
          · exact Or.inr (f4 b hin)
        · intro b hb
          exact f4 b (g6 b hb)

/-- The multi-channel loop changes each output sample by at most the final
`mixPeak`, and leaves the samples before `i` alone. -/
theorem multiLoop_bounded (gain : ℚ) (hg : 0 ≤ gain) (n : Nat) :
    ∀ (i : Nat) (cur : AudioThreadInput) (ptr : Nat) (q : List AudioThreadInput) (mp : ℚ)
      (out : List ℚ) (tr : List Access) (r : LoopOut),
      multiLoop gain n i cur ptr q mp out tr = r →
      cur.peakBoundsSamples → (∀ b ∈ q, b.peakBoundsSamples) → cur.peak * gain ≤ mp → 0 ≤ mp →
      mp ≤ r.mixPeak ∧ r.out.length = out.length ∧
      (∀ k, |r.out.getD k 0 - out.getD k 0| ≤ r.mixPeak) ∧
      (∀ k, k < i → r.out.getD k 0 = out.getD k 0) ∧
      (∀ b, r.currentInput = some b → b = cur ∨ b ∈ q) ∧ (∀ b ∈ r.queue, b ∈ q) := by
  induction n with
  | zero =>
    intro i cur ptr q mp out tr r hr hcur _ _ hmp0
    subst hr
    refine ⟨le_refl _, rfl, ?_, fun _ _ => rfl, ?_, fun b hb => hb⟩
    · intro k; simpa [multiLoop] using hmp0
    · intro b hb
      simp only [multiLoop, Option.some.injEq] at hb
      exact Or.inl hb.symm
  | succ n ih =>
    intro i cur ptr q mp out tr r hr hcur hq hmp hmp0
    cases hrf : refill gain cur ptr q mp with
    | none =>
      simp only [multiLoop, hrf] at hr
      subst hr
      refine ⟨le_refl _, rfl, ?_, fun _ _ => rfl, ?_, fun b hb => hb⟩
      · intro k; simpa using hmp0
      · intro b hb; simp at hb
    | some x =>
      obtain ⟨c, p, rest, mp'⟩ := x
      obtain ⟨f1, f2, f3, f4, f5⟩ := refill_some gain cur ptr q mp c p rest mp' hrf hmp
      have hc : c.peakBoundsSamples := by
        rcases f3 with rfl | hin
        · exact hcur
        · exact hq c hin
      have hrest : ∀ b ∈ rest, b.peakBoundsSamples := fun b hb => hq b (f4 b hb)
      have hmp0' : 0 ≤ mp' := le_trans hmp0 f1
      by_cases hlen : c.data.length ≠ 0
      · simp only [multiLoop, hrf, hlen, if_true, ne_eq, not_false_eq_true] at hr
        obtain ⟨g1, g2, g3, g4, g5, g6⟩ := ih (i + 1) c (p + 1) rest mp' _ _ r hr hc hrest f2 hmp0'
        have hv : |c.data.getD p 0 * gain| ≤ mp' :=
          le_trans (sample_le_peak c gain p hc hg (f5 hlen)) f2
        refine ⟨le_trans f1 g1, by rw [g2, addAt_length], ?_, ?_, ?_, ?_⟩
        · intro k
          by_cases hk : k < i + 1
          · rw [g4 k hk, addAt_getD_sub]
            have hg1 : (0 : ℚ) ≤ r.mixPeak := le_trans hmp0' g1
            split
            · exact le_trans hv g1
            · simpa using hg1
          · have e1 : (addAt out i (c.data.getD p 0 * gain)).getD k 0 = out.getD k 0 := by
              rw [addAt_getD, if_neg (by omega)]
            rw [← e1]
            exact g3 k
        · intro k hk
          rw [g4 k (by omega), addAt_getD, if_neg (by omega)]
        · intro b hb
          rcases g5 b hb with rfl | hin
          · exact f3
          · exact Or.inr (f4 b hin)
        · intro b hb
          exact f4 b (g6 b hb)
      · have hlen0 : c.data.length = 0 := by simpa using hlen
        simp only [multiLoop, hrf, hlen0, ne_eq, not_true_eq_false, if_false] at hr
        obtain ⟨g1, g2, g3, g4, g5, g6⟩ := ih (i + 1) c (p + 1) rest mp' _ _ r hr hc hrest f2 hmp0'
        refine ⟨le_trans f1 g1, g2, g3, fun k hk => g4 k (by omega), ?_, ?_⟩
        · intro b hb
          rcases g5 b hb with rfl | hin
          · exact f3
          · exact Or.inr (f4 b hin)
        · intro b hb
          exact f4 b (g6 b hb)

theorem discardStale_mem (rate : Int) (q : List AudioThreadInput) :
    ∀ (cur : Option AudioThreadInput),
      (∀ b, (discardStale rate q cur).1 = some b → cur = some b ∨ b ∈ q) ∧
      (∀ b ∈ (discardStale rate q cur).2, b ∈ q) := by
  induction q with
  | nil => intro cur; simp [discardStale]
  | cons a q ih =>
    intro cur
    by_cases ha : a.sampleRate = rate
    · simp only [discardStale, ha, if_true, Option.some.injEq]
      exact ⟨fun b hb => Or.inr (hb ▸ List.mem_cons_self _ _),
        fun b hb => List.mem_cons_of_mem _ hb⟩
    · simp only [discardStale, ha, if_false]
      obtain ⟨h1, h2⟩ := ih none
      refine ⟨fun b hb => ?_, fun b hb => List.mem_cons_of_mem _ (h2 b hb)⟩
      rcases h1 b hb with h | h
      · simp at h
      · exact Or.inr (List.mem_cons_of_mem _ h)

theorem tryPop_mem (q : List AudioThreadInput) :
    (∀ b, (tryPop q none).2.1 = some b → b ∈ q) ∧ (∀ b ∈ (tryPop q none).2.2, b ∈ q) := by
  cases q with
  | nil => simp [tryPop]
  | cons a q =>
    simp only [tryPop, Option.some.injEq]
    exact ⟨fun b hb => hb ▸ List.mem_cons_self _ _, fun b hb => List.mem_cons_of_mem _ hb⟩

theorem mem_buffers (t : AudioThread) (b : AudioThreadInput) :
    b ∈ t.buffers ↔ t.currentInput = some b ∨ b ∈ t.inputQueue.getD [] := by
  unfold AudioThread.buffers
  cases t.currentInput <;> simp [eq_comm]

theorem boundedSource_of_buffers (t t' : AudioThread) (h : t.boundedSource)
    (hg : t'.gain = t.gain) (hb : ∀ b ∈ t'.buffers, b ∈ t.buffers) : t'.boundedSource :=
  ⟨hg ▸ h.1, fun b hb' => h.2 b (hb b hb')⟩

theorem syncRate_mem (rate : Int) (cur0 : AudioThreadInput) (q : List AudioThreadInput)
    (ptr : Nat) (c : Option AudioThreadInput) (q1 : List AudioThreadInput) (ptr1 : Nat)
    (heq : (if cur0.sampleRate ≠ rate then
        ((discardStale rate q (some cur0)).1, (discardStale rate q (some cur0)).2, 0)
      else (some cur0, q, ptr)) = (c, q1, ptr1)) :
    (∀ b, c = some b → b = cur0 ∨ b ∈ q) ∧ (∀ b ∈ q1, b ∈ q) := by
  by_cases hrate : cur0.sampleRate ≠ rate
  · simp only [hrate, if_true, ne_eq, not_false_eq_true, Prod.mk.injEq] at heq
    obtain ⟨rfl, rfl, -⟩ := heq
    obtain ⟨h1, h2⟩ := discardStale_mem rate q (some cur0)
    refine ⟨fun b hb => ?_, h2⟩
    rcases h1 b hb with h | h
    · exact Or.inl (Option.some.inj h).symm
    · exact Or.inr h
  · simp only [hrate, if_false, Prod.mk.injEq] at heq
    obtain ⟨rfl, rfl, -⟩ := heq
    exact ⟨fun b hb => Or.inl (Option.some.inj hb).symm, fun b hb => hb⟩

/-- Mixing one bound source with a non-negative gain and peak-bounded buffers
raises the running peak by at least as much as it changes any output sample,
and leaves the source with a non-negative gain and peak-bounded buffers. -/
theorem mixThread_bounded (rate : Int) (N : Nat) (t : AudioThread) (m : Mix)
    (h : t.boundedSource) (r : AudioThread × Mix) (hr : mixThread rate N t m = r) :
    m.peak ≤ r.2.peak ∧ r.2.out.length = m.out.length ∧
    (∀ k, |r.2.out.getD k 0 - m.out.getD k 0| ≤ r.2.peak - m.peak) ∧
    r.1.boundedSource := by
  have triv : ∀ t' : AudioThread, t'.boundedSource →
      m.peak ≤ (t', m).2.peak ∧ (t', m).2.out.length = m.out.length ∧
      (∀ k, |(t', m).2.out.getD k 0 - m.out.getD k 0| ≤ (t', m).2.peak - m.peak) ∧
      (t', m).1.boundedSource := by
    intro t' ht'
    refine ⟨le_refl _, rfl, ?_, ht'⟩
    intro k; simp
  by_cases hpo : t.passedOver = true
  · rw [mixThread_passedOver rate N t m hpo] at hr
    subst hr
    exact triv t h
  · have hpo' : t.passedOver = false := by simpa using hpo
    cases hq : t.inputQueue with
    | none => simp [AudioThread.passedOver, hq] at hpo'
    | some q =>
      unfold mixThread at hr
      simp only [hpo', hq, Option.getD_some, Bool.false_eq_true, if_false] at hr
      cases hc : t.currentInput with
      | none =>
        simp only [hc] at hr
        subst hr
        apply triv
        refine boundedSource_of_buffers t _ h (by rfl) ?_
        intro b hb
        rw [mem_buffers] at hb ⊢
        simp only [Option.getD_some, hq] at hb ⊢
        rcases hb with hb | hb
        · exact Or.inr ((tryPop_mem q).1 b hb)
        · exact Or.inr ((tryPop_mem q).2 b hb)
      | some cur0 =>
        simp only [hc] at hr
        split at hr
        · rename_i q1 ptr1 heq
          obtain ⟨-, s2⟩ := syncRate_mem rate cur0 q _ _ _ _ heq
          subst hr
          apply triv
          refine boundedSource_of_buffers t _ h (by rfl) ?_
          intro b hb
          rw [mem_buffers] at hb ⊢
          simp only [Option.getD_some, hq] at hb ⊢
          rcases hb with hb | hb
          · simp at hb
          · exact Or.inr (s2 b hb)
        · rename_i cur q1 ptr1 heq
          obtain ⟨s1, s2⟩ := syncRate_mem rate cur0 q _ _ _ _ heq
          have hcurmem : cur ∈ t.buffers := by
            rw [mem_buffers, hc, hq]
            rcases s1 cur rfl with e | e
            · exact Or.inl (by rw [e])
            · exact Or.inr e
          have hq1mem : ∀ b ∈ q1, b ∈ t.buffers := by
            intro b hb
            rw [mem_buffers, hq]
            exact Or.inr (s2 b hb)
          split at hr
          · split at hr
            · subst hr
              apply triv
              refine boundedSource_of_buffers t _ h (by rfl) ?_
              intro b hb
              rw [mem_buffers] at hb
              simp only [Option.getD_some] at hb
              rcases hb with hb | hb
              · exact hq1mem b ((tryPop_mem q1).1 b hb)
              · exact hq1mem b ((tryPop_mem q1).2 b hb)
            · subst hr
              apply triv
              refine boundedSource_of_buffers t _ h (by rfl) ?_
              intro b hb
              rw [mem_buffers] at hb
              simp only [Option.getD_some, Option.some.injEq] at hb
              rcases hb with hb | hb
              · exact hb ▸ hcurmem
              · exact hq1mem b hb
          · rename_i hnz
            have hdata : cur.data.length ≠ 0 := fun h0 => hnz (Or.inr h0)
            have hcurb : cur.peakBoundsSamples := (h.2 cur hcurmem).2
            have hq1b : ∀ b ∈ q1, b.peakBoundsSamples := fun b hb => (h.2 b (hq1mem b hb)).2
            have hpk : 0 ≤ cur.peak := by
              cases hd : cur.data with
              | nil => simp [hd] at hdata
              | cons x xs =>
                exact le_trans (abs_nonneg x) (hcurb x (by rw [hd]; exact List.mem_cons_self _ _))
            have hmp0 : 0 ≤ cur.peak * t.gain := mul_nonneg hpk h.1
            have key : ∀ L : LoopOut,
                (if cur.channels = 1 then
                  monoLoop t.gain N 0 cur ptr1 q1 (cur.peak * t.gain) m.out m.trace
                else multiLoop t.gain (cur.channels * N) 0 cur ptr1 q1 (cur.peak * t.gain)
                  m.out m.trace) = L →
                cur.peak * t.gain ≤ L.mixPeak ∧ L.out.length = m.out.length ∧
                (∀ k, |L.out.getD k 0 - m.out.getD k 0| ≤ L.mixPeak) ∧
                (∀ b, L.currentInput = some b → b = cur ∨ b ∈ q1) ∧ (∀ b ∈ L.queue, b ∈ q1) := by
              intro L hL
              by_cases hch : cur.channels = 1
              · rw [if_pos hch] at hL
                obtain ⟨g1, g2, g3, -, g5, g6⟩ := monoLoop_bounded t.gain h.1 N 0 cur ptr1 q1 _
                  m.out m.trace L hL hcurb hq1b (le_refl _) hmp0
                exact ⟨g1, g2, g3, g5, g6⟩
              · rw [if_neg hch] at hL
                obtain ⟨g1, g2, g3, -, g5, g6⟩ := multiLoop_bounded t.gain h.1 _ 0 cur ptr1 q1 _
                  m.out m.trace L hL hcurb hq1b (le_refl _) hmp0
                exact ⟨g1, g2, g3, g5, g6⟩
            obtain ⟨g1, g2, g3, g5, g6⟩ := key _ rfl
            subst hr
            refine ⟨?_, g2, ?_, ?_⟩
            · simp only
              linarith
            · intro k
              simp only [add_sub_cancel_left]
              exact g3 k
            · refine boundedSource_of_buffers t _ h (by rfl) ?_
              intro b hb
              rw [mem_buffers] at hb
              simp only [Option.getD_some] at hb
              rcases hb with hb | hb
              · rcases g5 b hb with e | e
                · exact e ▸ hcurmem
                · exact hq1mem b e
              · exact hq1mem b (g6 b hb)

/-- The loop over bound sources with non-negative gains and peak-bounded
buffers: no output sample moves by more than the running peak grows. -/
theorem mixAll_bounded (rate : Int) (N : Nat) (ps : List Ptr) :
    ∀ (h : Ptr → AudioThread) (m : Mix), (∀ p ∈ ps, (h p).boundedSource) →
      m.peak ≤ (mixAll rate N ps h m).2.peak ∧
      (mixAll rate N ps h m).2.out.length = m.out.length ∧
      ∀ k, |(mixAll rate N ps h m).2.out.getD k 0 - m.out.getD k 0|
        ≤ (mixAll rate N ps h m).2.peak - m.peak := by
  induction ps with
  | nil =>
    intro h m _
    simp [mixAll]
  | cons a ps ih =>
    intro h m hsrc
    obtain ⟨e1, e2, e3, e4⟩ := mixThread_bounded rate N (h a) m
      (hsrc a (List.mem_cons_self a ps)) _ rfl
    have hsrc' : ∀ p ∈ ps, (Function.update h a (mixThread rate N (h a) m).1 p).boundedSource := by
      intro p hp
      by_cases hpa : p = a
      · subst hpa; simpa using e4
      · rw [Function.update_noteq hpa]
        exact hsrc p (List.mem_cons_of_mem a hp)
    obtain ⟨i1, i2, i3⟩ := ih (Function.update h a (mixThread rate N (h a) m).1)
      (mixThread rate N (h a) m).2 hsrc'
    simp only [mixAll]
    refine ⟨le_trans e1 i1, by rw [i2, e2], ?_⟩
    intro k
    have tri := abs_sub_le
      ((mixAll rate N ps (Function.update h a (mixThread rate N (h a) m).1)
        (mixThread rate N (h a) m).2).2.out.getD k 0)
      ((mixThread rate N (h a) m).2.out.getD k 0) (m.out.getD k 0)
    have b1 := i3 k
    have b2 := e3 k
    linarith

/-- In exact arithmetic the output never clips: when every bound source has a
non-negative gain and every buffer it holds, in flight or queued, has one or two
channels and a peak field that bounds the absolute value of its samples, every
one of the `2 * N` samples that `audioCallback` computes has absolute value at
most 1. The callback of the source rounds every result to `float` or `double`;
for it the bound is that of `audioCallbackF`, treated further down. -/
theorem audioCallback_output_never_clips (threads : Ptr → AudioThread) (out : List ℚ)
    (N status : Nat) (u : Ptr) (hlen : out.length = 2 * N)
    (hsrc : ∀ p ∈ (threads u).boundThreads, (threads p).boundedSource) :
    (audioCallback threads out N status u).out.length = 2 * N ∧
    ∀ x ∈ (audioCallback threads out N status u).out, |x| ≤ 1 := by
  have hz : memsetZero out (N * 2) = List.replicate (2 * N) 0 := by
    rw [Nat.mul_comm N 2]; exact memsetZero_full out (2 * N) hlen
  by_cases ht : (threads u).terminated = true
  · have e : (audioCallback threads out N status u).out = List.replicate (2 * N) 0 := by
      simp [audioCallback, AudioThread.isTerminated, ht, hz]
    rw [e]
    refine ⟨by simp, ?_⟩
    intro x hx
    rw [(List.mem_replicate.mp hx).2]
    simp
  · have ht' : (threads u).terminated = false := by simpa using ht
    have hout := audioCallback_out_of_running threads out N status u ht'
    rw [mixAll_noteUnderflow] at hout
    obtain ⟨e1, e2, e3⟩ := mixAll_bounded (threads u).sampleRate N (threads u).boundThreads
      threads ⟨memsetZero out (N * 2), 0, []⟩ hsrc
    have hm0 : (memsetZero out (N * 2)).length = 2 * N := by simp [hz]
    have hzero : ∀ k, (memsetZero out (N * 2)).getD k 0 = 0 := by
      intro k; rw [hz]; exact replicate_zero_getD (2 * N) k
    simp only [sub_zero] at e3
    simp only at e1 e2
    have hsample : ∀ k, |(mixAll (threads u).sampleRate N (threads u).boundThreads threads
        ⟨memsetZero out (N * 2), 0, []⟩).2.out.getD k 0| ≤
        (mixAll (threads u).sampleRate N (threads u).boundThreads threads
        ⟨memsetZero out (N * 2), 0, []⟩).2.peak := by
      intro k
      have := e3 k
      rw [hzero k, sub_zero] at this
      exact this
    rw [hout]
    by_cases hgt : (mixAll (threads u).sampleRate N (threads u).boundThreads threads
        ⟨memsetZero out (N * 2), 0, []⟩).2.peak > 1
    · have hn : (normalize N (mixAll (threads u).sampleRate N (threads u).boundThreads threads
          ⟨memsetZero out (N * 2), 0, []⟩).2).out = scaleLoop
            (1 / (mixAll (threads u).sampleRate N (threads u).boundThreads threads
              ⟨memsetZero out (N * 2), 0, []⟩).2.peak)
            (mixAll (threads u).sampleRate N (threads u).boundThreads threads
              ⟨memsetZero out (N * 2), 0, []⟩).2.out (N * 2) := by
        simp [normalize, hgt]
      rw [hn]
      refine ⟨by rw [scaleLoop_length, e2, hm0], ?_⟩
      intro x hx
      obtain ⟨k, hk, rfl⟩ := exists_getD_of_mem _ x hx
      rw [scaleLoop_length, e2, hm0] at hk
      rw [scaleLoop_getD, if_pos (by omega : k < N * 2)]
      have hpos : (0 : ℚ) < (mixAll (threads u).sampleRate N (threads u).boundThreads threads
          ⟨memsetZero out (N * 2), 0, []⟩).2.peak := lt_trans zero_lt_one hgt
      rw [mul_one_div, abs_div, abs_of_pos hpos, div_le_one hpos]
      exact hsample k
    · have hn : normalize N (mixAll (threads u).sampleRate N (threads u).boundThreads threads
          ⟨memsetZero out (N * 2), 0, []⟩).2 = (mixAll (threads u).sampleRate N
          (threads u).boundThreads threads ⟨memsetZero out (N * 2), 0, []⟩).2 := by
        simp [normalize, hgt]
      rw [hn]
      refine ⟨by rw [e2, hm0], ?_⟩
      intro x hx
      obtain ⟨k, -, rfl⟩ := exists_getD_of_mem _ x hx
      exact le_trans (hsample k) (not_lt.mp hgt)

/-- Witness of `audioCallback_output_never_clips`: two sources with peak 4/5
and gain 1; the estimate is 8/5 and the output `8/5 * (1 / (8/5)) = 1`. -/
theorem audioCallback_output_never_clips_witness :
    (audioCallback exLoudHeap [0, 0] 1 0 0).out = [1, 1] ∧
    (audioCallback exLoudHeap [0, 0] 1 0 0).out.length = 2 * 1 ∧
    ∀ x ∈ (audioCallback exLoudHeap [0, 0] 1 0 0).out, |x| ≤ 1 :=
  ⟨by decide!, audioCallback_output_never_clips exLoudHeap [0, 0] 1 0 0 (by decide)
    (by decide!)⟩

/-! ### Buffers popped in the middle of a period -/

/-- C9, the code at the failing input: owner `0` runs at 48000 Hz; its bound
source `1` has a one-sample in-flight buffer of that rate and a 44100 Hz buffer
queued. In a callback of 2 frames the second frame is read from the 44100 Hz
buffer, popped mid-period without a rate check, and added to the output. -/
theorem audioCallback_mixes_stale_rate_buffer :
    (exStaleHeap 0).sampleRate = 48000 ∧ exStaleBuf.sampleRate = 44100 ∧
    Access.read exStaleBuf 0 ∈ (audioCallback exStaleHeap [0, 0, 0, 0] 2 0 0).trace ∧
    (audioCallback exStaleHeap [0, 0, 0, 0] 2 0 0).out = [1/2, 1/2, 1/4, 1/4] := by
  decide!

/-! ## Theorems: the sample-rate switch -/

/-- On a unit that is not the registered owner of its device, `setSampleRate`
records the rate in the unit and nothing else, apart from the null entry that
`operator[]` may add to `deviceController`. -/
theorem setSampleRate_not_owner (faults : DacFaults) (fuel : Nat) (w : World) (s : Ptr) (r : Int)
    (h : ¬ w.isOwner s) :
    ∃ w', setSampleRate faults (fuel + 1) w s r = .ok w' ∧
      w'.threads = Function.update w.threads s { w.threads s with sampleRate := r } ∧
      (∀ k c, w'.deviceController k = some (some c) ↔ w.deviceController k = some (some c)) ∧
      w'.deviceSampleRate = w.deviceSampleRate ∧ w'.openStreamFails = w.openStreamFails := by
  unfold World.isOwner at h
  refine ⟨(w.controllerAt (w.threads s).outputDevice).1.modify s
    (fun t => { t with sampleRate := r }), ?_, ?_, ?_, ?_, ?_⟩
  · have hne : ¬ ((w.controllerAt (w.threads s).outputDevice).2 = some s) := by
      cases hc : w.deviceController (w.threads s).outputDevice with
      | none => simp [World.controllerAt, hc]
      | some c =>
        simp only [World.controllerAt, hc]
        exact fun e => h (by rw [hc, e])
    simp only [setSampleRate, hne, if_false]
  all_goals
    cases hc : w.deviceController (w.threads s).outputDevice with
    | none =>
      first
      | (simp [World.modify, World.controllerAt, hc]; done)
      | (intro k c
         simp only [World.modify, World.controllerAt, hc]
         by_cases hk : k = (w.threads s).outputDevice
         · subst hk; simp [hc]
         · simp [Function.update_noteq hk])
    | some c => simp [World.modify, World.controllerAt, hc]

/-- The loop of `setSampleRate` over bound sources none of which owns a device:
it returns, every one of them ends with the new rate, every unit is otherwise
unchanged, and the registry keeps its owners and rates. -/
theorem setSampleRate_bound_sources (faults : DacFaults) (fuel : Nat) (r : Int) (ps : List Ptr) :
    ∀ (w : World), (∀ s ∈ ps, ¬ w.isOwner s) →
      ∃ w', ps.foldlM (fun acc srcmix => setSampleRate faults (fuel + 1) acc srcmix r) w
          = .ok w' ∧
        (∀ s ∈ ps, (w'.threads s).sampleRate = r) ∧
        (∀ p, w'.threads p = w.threads p ∨
          w'.threads p = { w.threads p with sampleRate := r }) ∧
        (∀ p, p ∉ ps → w'.threads p = w.threads p) ∧
        (∀ k c, w'.deviceController k = some (some c) ↔ w.deviceController k = some (some c)) ∧
        w'.deviceSampleRate = w.deviceSampleRate ∧ w'.openStreamFails = w.openStreamFails := by
  induction ps with
  | nil =>
    intro w _
    exact ⟨w, rfl, by simp, fun p => Or.inl rfl, fun p _ => rfl, fun k c => Iff.rfl, rfl, rfl⟩
  | cons a ps ih =>
    intro w h
    obtain ⟨w1, e1, t1, c1, d1, o1⟩ :=
      setSampleRate_not_owner faults fuel w a r (h a (List.mem_cons_self a ps))
    have hthr : ∀ p, w1.threads p = w.threads p ∨
        w1.threads p = { w.threads p with sampleRate := r } := by
      intro p
      rw [t1]
      by_cases hp : p = a
      · subst hp; exact Or.inr (by simp)
      · exact Or.inl (Function.update_noteq hp _ _)
    have hdev : ∀ p, (w1.threads p).outputDevice = (w.threads p).outputDevice := by
      intro p
      rcases hthr p with e | e <;> rw [e]
    have h1 : ∀ s ∈ ps, ¬ w1.isOwner s := by
      intro s hs hown
      apply h s (List.mem_cons_of_mem a hs)
      unfold World.isOwner at hown ⊢
      rw [hdev s] at hown
      exact (c1 _ _).mp hown
    obtain ⟨w', f, p1, p2, p2', p3, p4, p5⟩ := ih w1 h1
    refine ⟨w', ?_, ?_, ?_, ?_, ?_, by rw [p4, d1], by rw [p5, o1]⟩
    · rw [List.foldlM_cons, e1]
      exact f
    · intro s hs
      rcases List.mem_cons.mp hs with rfl | hs'
      · rcases p2 s with e | e
        · rw [e, t1]; simp
        · rw [e]
      · exact p1 s hs'
    · intro p
      rcases p2 p with e | e <;> rcases hthr p with e' | e'
      · exact Or.inl (by rw [e, e'])
      · exact Or.inr (by rw [e, e'])
      · exact Or.inr (by rw [e, e'])
      · exact Or.inr (by rw [e, e'])
    · intro p hp
      have hpa : p ≠ a := fun e => hp (by rw [e]; exact List.mem_cons_self _ _)
      rw [p2' p (fun hin => hp (List.mem_cons_of_mem _ hin)), t1, Function.update_noteq hpa]
    · intro k c
      rw [p3 k c, c1 k c]

/-- C10 as stated fails when `dac.openStream` raises. In `exRefusedWorld` unit `0`
is the registered owner of device `3` at 44100 Hz, its bound sources `1` and `2`
own no device, and opening device `3` raises an `RtAudioError`. The call
`setSampleRate(48000)` on unit `0` is left by that error at line 318, before
line 322 is reached: the registry's rate for device `3` and the rates of the
bound sources are 48000, the rate recorded in unit `0` is still 44100. -/
theorem setSampleRate_owner_keeps_old_rate_when_openStream_raises :
    exRefusedWorld.isOwner 0 ∧
    (exRefusedWorld.threads 0).boundThreads = [1, 2] ∧
    ¬ exRefusedWorld.isOwner 1 ∧ ¬ exRefusedWorld.isOwner 2 ∧
    ∃ w', setSampleRate noFaults 2 exRefusedWorld 0 48000 = .error (.rtAudioError, w') ∧
      w'.deviceSampleRate 3 = some 48000 ∧
      (w'.threads 1).getSampleRate = 48000 ∧ (w'.threads 2).getSampleRate = 48000 ∧
      (w'.threads 0).getSampleRate = 44100 :=
  ⟨by decide, by decide, by decide, by decide, ⟨_, rfl, by decide, by decide, by decide,
    by decide⟩⟩

/-- C10 amended, the sample-rate switch: `u` is the registered owner of its device
`d` and none of its bound sources owns a device (two units of fuel suffice).
When none of `dac.stopStream`, `dac.closeStream`, `dac.openStream` (on the
device of `parameters`) and `dac.startStream` raises, `u.setSampleRate(r)`
returns, and afterwards the rate recorded in `u`, the rate recorded in every
bound source of `u`, and the registry's rate for `d` are all `r`. When one of
them raises, the error leaves the call with the registry's rate for `d` already
`r` and the rate recorded in `u` unchanged; every bound source has its old rate
when the call that raises is `stopStream` or `closeStream`, and the rate `r`
when it is `openStream` or `startStream`. The bound-source list of `u` stays as
it is throughout. -/
theorem setSampleRate_propagates (faults : DacFaults) (w : World) (u : Ptr) (r : Int)
    (fuel : Nat) (hown : w.isOwner u)
    (hsrc : ∀ s ∈ (w.threads u).boundThreads, ¬ w.isOwner s) :
    ((faults.stopStream u = false ∧ faults.closeStream u = false ∧
        w.openStreamFails (w.threads u).parametersDeviceId = false ∧
        faults.startStream u = false) →
      ∃ w', setSampleRate faults (fuel + 2) w u r = .ok w' ∧
        (w'.threads u).getSampleRate = r ∧
        (w'.threads u).boundThreads = (w.threads u).boundThreads ∧
        (∀ s ∈ (w'.threads u).boundThreads, (w'.threads s).getSampleRate = r) ∧
        w'.deviceSampleRate (w.threads u).outputDevice = some r) ∧
    ((faults.stopStream u = true ∨ faults.closeStream u = true) →
      ∃ w', setSampleRate faults (fuel + 2) w u r = .error (.rtAudioError, w') ∧
        (w'.threads u).getSampleRate = (w.threads u).getSampleRate ∧
        (w'.threads u).boundThreads = (w.threads u).boundThreads ∧
        (∀ s ∈ (w'.threads u).boundThreads,
          (w'.threads s).getSampleRate = (w.threads s).getSampleRate) ∧
        w'.deviceSampleRate (w.threads u).outputDevice = some r) ∧
    ((faults.stopStream u = false ∧ faults.closeStream u = false ∧
        (w.openStreamFails (w.threads u).parametersDeviceId = true ∨
          faults.startStream u = true)) →
      ∃ w', setSampleRate faults (fuel + 2) w u r = .error (.rtAudioError, w') ∧
        (w'.threads u).getSampleRate = (w.threads u).getSampleRate ∧
        (w'.threads u).boundThreads = (w.threads u).boundThreads ∧
        (∀ s ∈ (w'.threads u).boundThreads, (w'.threads s).getSampleRate = r) ∧
        w'.deviceSampleRate (w.threads u).outputDevice = some r) := by
  have hown' := hown
  unfold World.isOwner at hown
  have hctl : w.controllerAt (w.threads u).outputDevice = (w, some u) := by
    simp [World.controllerAt, hown]
  have hu : u ∉ (w.threads u).boundThreads := fun hin => hsrc u hin hown'
  -- the worlds before the loop over the bound sources
  obtain ⟨w1, hw1⟩ : ∃ w1 : World, w1 =
      ({ w with deviceSampleRate :=
          Function.update w.deviceSampleRate (w.threads u).outputDevice (some r) } : World) :=
    ⟨_, rfl⟩
  obtain ⟨w1a, hw1a⟩ : ∃ w1a : World, w1a =
      w1.modify u (fun t => { t with streamRunning := false }) := ⟨_, rfl⟩
  obtain ⟨w2, hw2⟩ : ∃ w2 : World, w2 =
      w1a.modify u (fun t => { t with streamOpen := false }) := ⟨_, rfl⟩
  have hthr1a : ∀ p, p ≠ u → w1a.threads p = w.threads p := by
    intro p hp; rw [hw1a, hw1]; simp [World.modify, Function.update_noteq hp]
  have hb2 : (w2.threads u).boundThreads = (w.threads u).boundThreads := by
    rw [hw2, hw1a, hw1]; simp [World.modify]
  have hr2 : (w2.threads u).sampleRate = (w.threads u).sampleRate := by
    rw [hw2, hw1a, hw1]; simp [World.modify]
  have hpd2 : (w2.threads u).parametersDeviceId = (w.threads u).parametersDeviceId := by
    rw [hw2, hw1a, hw1]; simp [World.modify]
  have hod2 : (w2.threads u).outputDevice = (w.threads u).outputDevice := by
    rw [hw2, hw1a, hw1]; simp [World.modify]
  have hdev2 : ∀ p, (w2.threads p).outputDevice = (w.threads p).outputDevice := by
    intro p
    by_cases hp : p = u
    · subst hp; exact hod2
    · rw [hw2, hw1a, hw1]; simp [World.modify, Function.update_noteq hp]
  have hc2 : w2.deviceController = w.deviceController := by rw [hw2, hw1a, hw1]; rfl
  have hf2 : w2.openStreamFails = w.openStreamFails := by rw [hw2, hw1a, hw1]; rfl
  have hd2 : w2.deviceSampleRate (w.threads u).outputDevice = some r := by
    rw [hw2, hw1a, hw1]; simp [World.modify]
  have hsrc2 : ∀ s ∈ (w2.threads u).boundThreads, ¬ w2.isOwner s := by
    intro s hs hown2
    rw [hb2] at hs
    apply hsrc s hs
    unfold World.isOwner at hown2 ⊢
    rw [hdev2 s, hc2] at hown2
    exact hown2
  obtain ⟨w3, f, p1, p2, p2', -, p4, p5⟩ :=
    setSampleRate_bound_sources faults fuel r (w2.threads u).boundThreads w2 hsrc2
  have h3u : w3.threads u = w2.threads u := p2' u (by rw [hb2]; exact hu)
  have hpd3 : w3.openStreamFails (w3.threads u).parametersDeviceId
      = w.openStreamFails (w.threads u).parametersDeviceId := by
    rw [p5, hf2, h3u, hpd2]
  have hd3 : w3.deviceSampleRate (w.threads u).outputDevice = some r := by rw [p4]; exact hd2
  have hsrc3 : ∀ s ∈ (w.threads u).boundThreads, (w3.threads s).sampleRate = r := by
    intro s hs
    exact p1 s (by rw [hb2]; exact hs)
  refine ⟨?_, ?_, ?_⟩
  · rintro ⟨hstop, hclose, hopen, hstart⟩
    refine ⟨(((({ w3 with demodulators := w3.demodulators.map (fun d =>
        if d.outputDevice = (w3.threads u).outputDevice then { d with audioSampleRate := r }
        else d) } : World).modify u (fun t =>
          { t with streamOpen := true, streamRate := r })).modify u
        (fun t => { t with streamRunning := true })).modify u
        (fun t => { t with sampleRate := r })), ?_, ?_, ?_, ?_, ?_⟩
    · rw [setSampleRate]
      simp only [hctl, if_true, hstop, hclose, ← hw1, ← hw1a, ← hw2, f, hopen, hstart,
        Bool.false_eq_true, if_false]
      have e : w3.openStreamFails (w3.threads u).parametersDeviceId = false := by
        rw [hpd3]; exact hopen
      simp only [e, Bool.false_eq_true, if_false]
    · simp [World.modify, AudioThread.getSampleRate]
    · simp [World.modify, h3u, hb2]
    · intro s hs
      have hs0 : s ∈ (w.threads u).boundThreads := by
        simpa [World.modify, h3u, hb2] using hs
      have hsu : s ≠ u := fun e => hu (e ▸ hs0)
      simpa [World.modify, AudioThread.getSampleRate, Function.update_noteq hsu]
        using hsrc3 s hs0
    · simpa [World.modify] using hd3
  · intro hfault
    by_cases hstop : faults.stopStream u = true
    · refine ⟨w1, ?_, ?_, ?_, ?_, ?_⟩
      · rw [setSampleRate]
        simp only [hctl, if_true, hstop, ← hw1]
      · rw [hw1]
      · rw [hw1]
      · intro s _; rw [hw1]
      · rw [hw1]; simp
    · have hstop' : faults.stopStream u = false := by simpa using hstop
      have hclose : faults.closeStream u = true := by
        rcases hfault with h | h
        · exact absurd h hstop
        · exact h
      refine ⟨w1a, ?_, ?_, ?_, ?_, ?_⟩
      · rw [setSampleRate]
        simp only [hctl, if_true, hstop', hclose, ← hw1, ← hw1a, Bool.false_eq_true, if_false]
      · rw [hw1a, hw1]; simp [World.modify, AudioThread.getSampleRate]
      · rw [hw1a, hw1]; simp [World.modify]
      · intro s hs
        have hs0 : s ∈ (w.threads u).boundThreads := by
          rw [hw1a, hw1] at hs
          simpa [World.modify] using hs
        have hsu : s ≠ u := fun e => hu (e ▸ hs0)
        rw [hthr1a s hsu]
      · rw [hw1a, hw1]; simp [World.modify]
  · rintro ⟨hstop, hclose, hfault⟩
    by_cases hopen : w.openStreamFails (w.threads u).parametersDeviceId = true
    · refine ⟨({ w3 with demodulators := w3.demodulators.map (fun d =>
          if d.outputDevice = (w3.threads u).outputDevice then { d with audioSampleRate := r }
          else d) } : World), ?_, ?_, ?_, ?_, ?_⟩
      · rw [setSampleRate]
        simp only [hctl, if_true, hstop, hclose, ← hw1, ← hw1a, ← hw2, f,
          Bool.false_eq_true, if_false]
        have e : w3.openStreamFails (w3.threads u).parametersDeviceId = true := by
          rw [hpd3]; exact hopen
        simp only [e, if_true]
      · show (w3.threads u).getSampleRate = _
        rw [h3u]; exact hr2
      · show (w3.threads u).boundThreads = _
        rw [h3u]; exact hb2
      · intro s hs
        have hs0 : s ∈ (w.threads u).boundThreads := by
          have : s ∈ (w3.threads u).boundThreads := hs
          rw [h3u, hb2] at this
          exact this
        exact hsrc3 s hs0
      · exact hd3
    · have hopen' : w.openStreamFails (w.threads u).parametersDeviceId = false := by
        simpa using hopen
      have hstart : faults.startStream u = true := by
        rcases hfault with h | h
        · exact absurd h hopen
        · exact h
      refine ⟨(({ w3 with demodulators := w3.demodulators.map (fun d =>
          if d.outputDevice = (w3.threads u).outputDevice then { d with audioSampleRate := r }
          else d) } : World).modify u (fun t =>
            { t with streamOpen := true, streamRate := r })), ?_, ?_, ?_, ?_, ?_⟩
      · rw [setSampleRate]
        simp only [hctl, if_true, hstop, hclose, ← hw1, ← hw1a, ← hw2, f, hstart,
          Bool.false_eq_true, if_false]
        have e : w3.openStreamFails (w3.threads u).parametersDeviceId = false := by
          rw [hpd3]; exact hopen'
        simp only [e, Bool.false_eq_true, if_false]
      · simp only [World.modify, AudioThread.getSampleRate, Function.update_same]
        rw [h3u]; exact hr2
      · simp only [World.modify, Function.update_same]
        rw [h3u]; exact hb2
      · intro s hs
        have hs0 : s ∈ (w.threads u).boundThreads := by
          simp only [World.modify, Function.update_same] at hs
          rw [h3u, hb2] at hs
          exact hs
        have hsu : s ≠ u := fun e => hu (e ▸ hs0)
        simpa [World.modify, AudioThread.getSampleRate, Function.update_noteq hsu]
          using hsrc3 s hs0
      · simpa [World.modify] using hd3

/-- Witness of `setSampleRate_propagates`: unit `0` of `exWorld` switches
device `3` from 44100 Hz to 48000 Hz with no call raising; in `exRefusedWorld`
the same switch is left by the error of `dac.openStream`. -/
theorem setSampleRate_propagates_witness :
    (∃ w', setSampleRate noFaults (0 + 2) exWorld 0 48000 = .ok w' ∧
      (w'.threads 0).getSampleRate = 48000 ∧
      (w'.threads 0).boundThreads = (exWorld.threads 0).boundThreads ∧
      (∀ s ∈ (w'.threads 0).boundThreads, (w'.threads s).getSampleRate = 48000) ∧
      w'.deviceSampleRate (exWorld.threads 0).outputDevice = some 48000) ∧
    (∃ w', setSampleRate noFaults (0 + 2) exRefusedWorld 0 48000 = .error (.rtAudioError, w') ∧
      (w'.threads 0).getSampleRate = (exRefusedWorld.threads 0).getSampleRate ∧
      (w'.threads 0).boundThreads = (exRefusedWorld.threads 0).boundThreads ∧
      (∀ s ∈ (w'.threads 0).boundThreads, (w'.threads s).getSampleRate = 48000) ∧
      w'.deviceSampleRate (exRefusedWorld.threads 0).outputDevice = some 48000) :=
  ⟨(setSampleRate_propagates noFaults exWorld 0 48000 0 (by decide) (by decide)).1
      ⟨rfl, rfl, rfl, rfl⟩,
   (setSampleRate_propagates noFaults exRefusedWorld 0 48000 0 (by decide) (by decide)).2.2
      ⟨rfl, rfl, Or.inl rfl⟩⟩

/-! ## Theorems: attaching to a device -/

theorem mem_bindThread (t : AudioThread) (s : Ptr) : s ∈ (t.bindThread s).boundThreads := by
  unfold AudioThread.bindThread
  split
  · assumption
  · simp

theorem World.modify_threads (w : World) (p q : Ptr) (f : AudioThread → AudioThread) :
    (w.modify p f).threads q = if q = p then f (w.threads p) else w.threads q := by
  by_cases h : q = p
  · subst h; simp [World.modify]
  · simp [World.modify, Function.update_noteq h, h]

/-- When the entry of the unit's present output device is not a null pointer,
`detach` returns: the unit is erased from the list of the registered owner of
that device, and nothing else changes. -/
theorem detach_ok (w : World) (u : Ptr)
    (hnull : w.deviceController (w.threads u).outputDevice ≠ some none) :
    ∃ w', detach w u = .ok w' ∧
      w'.deviceController = w.deviceController ∧ w'.deviceSampleRate = w.deviceSampleRate ∧
      w'.deviceThread = w.deviceThread ∧ w'.openStreamFails = w.openStreamFails ∧
      w'.fresh = w.fresh ∧
      (∀ o, w.deviceController (w.threads u).outputDevice = some (some o) →
        w'.threads o = (w.threads o).removeThread u) ∧
      (∀ p, w.deviceController (w.threads u).outputDevice ≠ some (some p) →
        w'.threads p = w.threads p) := by
  cases hc : w.deviceController (w.threads u).outputDevice with
  | none =>
    refine ⟨w, by simp [detach, hc], rfl, rfl, rfl, rfl, rfl, ?_, fun p _ => rfl⟩
    intro o ho; simp at ho
  | some c =>
    cases c with
    | none => exact absurd hc hnull
    | some o =>
      refine ⟨w.modify o (fun t => t.removeThread u), by simp [detach, hc], rfl, rfl, rfl, rfl,
        rfl, ?_, ?_⟩
      · intro o' ho'
        have : o' = o := by simpa using ho'.symm
        subst this
        simp [World.modify]
      · intro p hp
        have hne : p ≠ o := fun e => hp (by rw [e])
        simp [World.modify, Function.update_noteq hne]

/-- C11 amended: when `setupDevice` fails, because no sample rate is recorded
for the device or because the unit is the registered owner of the device and
opening the stream raises, and the entry of the unit's present output device is
not a null pointer, the call returns with the unit's output device and active
flag and the three registry maps as they were; the unit's sample rate is as it
was in the first case and the registry's rate for the device in the second; and
the unit has been erased from the bound-source list of the registered owner of
its present output device, every other list being as it was. -/
theorem setupDevice_failed_attach (w : World) (u : Ptr) (d : Int)
    (hnull : w.deviceController (w.threads u).outputDevice ≠ some none)
    (hfail : w.deviceSampleRate d = none ∨
      ((∃ r, w.deviceSampleRate d = some r) ∧ w.deviceController d = some (some u) ∧
        w.openStreamFails d = true)) :
    ∃ w', setupDevice w u d = .ok w' ∧
      (w'.threads u).outputDevice = (w.threads u).outputDevice ∧
      (w'.threads u).active = (w.threads u).active ∧
      w'.deviceController = w.deviceController ∧ w'.deviceSampleRate = w.deviceSampleRate ∧
      w'.deviceThread = w.deviceThread ∧
      (w.deviceSampleRate d = none → (w'.threads u).sampleRate = (w.threads u).sampleRate) ∧
      (∀ r, w.deviceSampleRate d = some r → (w'.threads u).sampleRate = r) ∧
      (∀ o, w.deviceController (w.threads u).outputDevice = some (some o) →
        (w'.threads o).boundThreads = (w.threads o).boundThreads.erase u) ∧
      (∀ p, w.deviceController (w.threads u).outputDevice ≠ some (some p) →
        (w'.threads p).boundThreads = (w.threads p).boundThreads) := by
  obtain ⟨w1, hw1⟩ : ∃ w1 : World,
      w1 = w.modify u (fun t => { t with parametersDeviceId := d }) := ⟨_, rfl⟩
  have hdev1 : (w1.threads u).outputDevice = (w.threads u).outputDevice := by
    rw [hw1]; simp [World.modify]
  have hc1 : w1.deviceController = w.deviceController := by rw [hw1]; rfl
  have hs1 : w1.deviceSampleRate = w.deviceSampleRate := by rw [hw1]; rfl
  have ht1 : ∀ p, (w1.threads p).boundThreads = (w.threads p).boundThreads ∧
      (w1.threads p).outputDevice = (w.threads p).outputDevice ∧
      (w1.threads p).active = (w.threads p).active ∧
      (w1.threads p).sampleRate = (w.threads p).sampleRate := by
    intro p
    rw [hw1]
    by_cases hp : p = u
    · subst hp; simp [World.modify]
    · simp [World.modify, Function.update_noteq hp]
  obtain ⟨w2, e2, c2, s2, d2, o2, -, r2, k2⟩ := detach_ok w1 u (by rw [hdev1, hc1]; exact hnull)
  rw [hdev1, hc1] at r2 k2
  have hfield : ∀ p, w2.threads p = w1.threads p ∨
      w2.threads p = (w1.threads p).removeThread u := by
    intro p
    by_cases hp : w.deviceController (w.threads u).outputDevice = some (some p)
    · exact Or.inr (r2 p hp)
    · exact Or.inl (k2 p hp)
  have hkeep : (w2.threads u).outputDevice = (w.threads u).outputDevice ∧
      (w2.threads u).active = (w.threads u).active ∧
      (w2.threads u).sampleRate = (w.threads u).sampleRate := by
    rcases hfield u with e | e <;> rw [e] <;>
      exact ⟨(ht1 u).2.1, (ht1 u).2.2.1, (ht1 u).2.2.2⟩
  have hlists : (∀ o, w.deviceController (w.threads u).outputDevice = some (some o) →
        (w2.threads o).boundThreads = (w.threads o).boundThreads.erase u) ∧
      (∀ p, w.deviceController (w.threads u).outputDevice ≠ some (some p) →
        (w2.threads p).boundThreads = (w.threads p).boundThreads) := by
    refine ⟨fun o ho => ?_, fun p hp => ?_⟩
    · rw [r2 o ho]; simp [AudioThread.removeThread, (ht1 o).1]
    · rw [k2 p hp]; exact (ht1 p).1
  rcases hfail with hnone | ⟨⟨r, hr⟩, hown, hopen⟩
  · refine ⟨w2, ?_, hkeep.1, hkeep.2.1, by rw [c2, hc1], by rw [s2, hs1], by rw [d2, hw1]; rfl,
      fun _ => hkeep.2.2, ?_, hlists.1, hlists.2⟩
    · simp only [setupDevice, ← hw1, e2]
      rw [s2, hs1, hnone]
    · intro r hr; rw [hnone] at hr; simp at hr
  · have hd : w2.deviceThread = w.deviceThread := by rw [d2, hw1]; rfl
    refine ⟨w2.modify u (fun t => { t with sampleRate := r }), ?_, ?_, ?_, by rw [← hc1, ← c2]; rfl,
      by rw [← hs1, ← s2]; rfl, by rw [← hd]; rfl, ?_, ?_, ?_, ?_⟩
    · have ha : attach (w2.modify u (fun t => { t with sampleRate := r })) u d r = .ok none := by
        have hc : (w2.modify u (fun t => { t with sampleRate := r })).deviceController d
            = some (some u) := by
          show w2.deviceController d = some (some u)
          rw [c2, hc1, hown]
        have ho : (w2.modify u (fun t => { t with sampleRate := r })).openStreamFails d = true := by
          show w2.openStreamFails d = true
          rw [o2, hw1]; exact hopen
        simp [attach, hc, ho]
      simp only [setupDevice, ← hw1, e2]
      rw [s2, hs1, hr]
      simp only [ha]
    · simpa [World.modify] using hkeep.1
    · simpa [World.modify] using hkeep.2.1
    · intro hn; rw [hr] at hn; simp at hn
    · intro r' hr'
      rw [hr] at hr'
      have : r = r' := by simpa using hr'
      subst this
      simp [World.modify]
    · intro o ho
      by_cases hou : o = u
      · subst hou; simpa [World.modify] using hlists.1 o ho
      · simpa [World.modify, Function.update_noteq hou] using hlists.1 o ho
    · intro p hp
      by_cases hpu : p = u
      · subst hpu; simpa [World.modify] using hlists.2 p hp
      · simpa [World.modify, Function.update_noteq hpu] using hlists.2 p hp

/-- Witness of `setupDevice_failed_attach`: in `exAttachWorld` unit `1` asks for
device `7`, which has no recorded rate, and unit `2` asks for its own device
`4`, whose stream fails to open. -/
theorem setupDevice_failed_attach_witness :
    (∃ w', setupDevice exAttachWorld 1 7 = .ok w' ∧
      (w'.threads 1).outputDevice = (exAttachWorld.threads 1).outputDevice ∧
      (w'.threads 1).active = (exAttachWorld.threads 1).active ∧
      w'.deviceController = exAttachWorld.deviceController ∧
      w'.deviceSampleRate = exAttachWorld.deviceSampleRate ∧
      w'.deviceThread = exAttachWorld.deviceThread ∧
      (exAttachWorld.deviceSampleRate 7 = none →
        (w'.threads 1).sampleRate = (exAttachWorld.threads 1).sampleRate) ∧
      (∀ r, exAttachWorld.deviceSampleRate 7 = some r → (w'.threads 1).sampleRate = r) ∧
      (∀ o, exAttachWorld.deviceController (exAttachWorld.threads 1).outputDevice = some (some o) →
        (w'.threads o).boundThreads = (exAttachWorld.threads o).boundThreads.erase 1) ∧
      (∀ p, exAttachWorld.deviceController (exAttachWorld.threads 1).outputDevice ≠ some (some p) →
        (w'.threads p).boundThreads = (exAttachWorld.threads p).boundThreads)) ∧
    (∃ w', setupDevice exAttachWorld 2 4 = .ok w' ∧
      (w'.threads 2).outputDevice = (exAttachWorld.threads 2).outputDevice ∧
      (w'.threads 2).active = (exAttachWorld.threads 2).active ∧
      w'.deviceController = exAttachWorld.deviceController ∧
      w'.deviceSampleRate = exAttachWorld.deviceSampleRate ∧
      w'.deviceThread = exAttachWorld.deviceThread ∧
      (exAttachWorld.deviceSampleRate 4 = none →
        (w'.threads 2).sampleRate = (exAttachWorld.threads 2).sampleRate) ∧
      (∀ r, exAttachWorld.deviceSampleRate 4 = some r → (w'.threads 2).sampleRate = r) ∧
      (∀ o, exAttachWorld.deviceController (exAttachWorld.threads 2).outputDevice = some (some o) →
        (w'.threads o).boundThreads = (exAttachWorld.threads o).boundThreads.erase 2) ∧
      (∀ p, exAttachWorld.deviceController (exAttachWorld.threads 2).outputDevice ≠ some (some p) →
        (w'.threads p).boundThreads = (exAttachWorld.threads p).boundThreads)) :=
  ⟨setupDevice_failed_attach exAttachWorld 1 7 (by decide) (Or.inl (by decide)),
   setupDevice_failed_attach exAttachWorld 2 4 (by decide)
    (Or.inr ⟨⟨48000, by decide⟩, by decide, by decide⟩)⟩

/-- C11 as stated fails. In `exAttachWorld` unit `1` is bound to unit `0`, the
owner of its output device `3`, and asks for device `7`, for which no rate is
recorded: the call fails, and unit `1` is no longer in the list of unit `0`.
Unit `2`, with sample rate 22050, asks for its own device `4` (48000 Hz), whose
stream fails to open: the call fails, and the sample rate of unit `2` is 48000. -/
theorem setupDevice_failed_attach_not_atomic :
    exAttachWorld.deviceSampleRate 7 = none ∧
    exAttachWorld.deviceController (exAttachWorld.threads 1).outputDevice = some (some 0) ∧
    1 ∈ (exAttachWorld.threads 0).boundThreads ∧
    (∃ w', setupDevice exAttachWorld 1 7 = .ok w' ∧ 1 ∉ (w'.threads 0).boundThreads) ∧
    exAttachWorld.deviceController 4 = some (some 2) ∧ exAttachWorld.openStreamFails 4 = true ∧
    (exAttachWorld.threads 2).sampleRate = 22050 ∧
    (∃ w', setupDevice exAttachWorld 2 4 = .ok w' ∧ (w'.threads 2).sampleRate = 48000 ∧
      (w'.threads 2).active = false) :=
  ⟨by decide, by decide, by decide, ⟨_, rfl, by decide⟩, by decide, by decide, by decide,
    ⟨_, rfl, by decide, by decide⟩⟩

/-- The world `setupDevice` leaves when the unit `u`, bound to `o1`, attaches to
the device `d` that the other unit `o2` owns, before line 380 looks at `d`. -/
theorem setupDevice_rebinds_eq (w : World) (u o1 o2 : Ptr) (d r : Int)
    (ho1 : w.deviceController (w.threads u).outputDevice = some (some o1))
    (ho2 : w.deviceController d = some (some o2)) (hne : o2 ≠ u)
    (hr : w.deviceSampleRate d = some r) :
    setupDevice w u d =
      if d ≠ -1 then
        .ok ((((((w.modify u (fun t => { t with parametersDeviceId := d })).modify o1
          (fun t => t.removeThread u)).modify u (fun t => { t with sampleRate := r })).modify o2
          (fun t => t.bindThread u)).modify u (fun t => { t with active := true })).modify u
          (fun t => { t with outputDevice := d }))
      else
        .ok (((((w.modify u (fun t => { t with parametersDeviceId := d })).modify o1
          (fun t => t.removeThread u)).modify u (fun t => { t with sampleRate := r })).modify o2
          (fun t => t.bindThread u)).modify u (fun t => { t with active := true })) := by
  have hdet : detach (w.modify u (fun t => { t with parametersDeviceId := d })) u =
      .ok ((w.modify u (fun t => { t with parametersDeviceId := d })).modify o1
        (fun t => t.removeThread u)) := by
    have h1 : (w.modify u (fun t => { t with parametersDeviceId := d })).deviceController
        ((w.modify u (fun t => { t with parametersDeviceId := d })).threads u).outputDevice
        = some (some o1) := by
      simpa [World.modify] using ho1
    simp only [detach, h1]
  have hatt : ∀ w3 : World, w3.deviceController d = some (some o2) →
      attach w3 u d r = .ok (some (w3.modify o2 (fun t => t.bindThread u))) := by
    intro w3 h3
    simp [attach, h3, hne]
  have hs : ((w.modify u (fun t => { t with parametersDeviceId := d })).modify o1
      (fun t => t.removeThread u)).deviceSampleRate d = some r := hr
  have ha := hatt (((w.modify u (fun t => { t with parametersDeviceId := d })).modify o1
    (fun t => t.removeThread u)).modify u (fun t => { t with sampleRate := r })) ho2
  simp only [setupDevice, hdet, hs, ha]

/-- C12 as stated fails for the key `-1`. In `exUnsetWorld` unit `1` is bound to
unit `0`, the owner of its output device `3`; the key `-1` has the registered
owner `2` and the rate 48000. After unit `1` calls `setupDevice(-1)` it is bound
to unit `2` and no longer to unit `0`, has the rate 48000, and unit `2` still
owns the key `-1`; but the output device of unit `1` is still `3`: line 380
stores the device only when it is not `-1`. -/
theorem setupDevice_rebinds_keeps_device_on_minus_one :
    exUnsetWorld.deviceController (exUnsetWorld.threads 1).outputDevice = some (some 0) ∧
    1 ∈ (exUnsetWorld.threads 0).boundThreads ∧
    exUnsetWorld.deviceController (-1) = some (some 2) ∧
    exUnsetWorld.deviceSampleRate (-1) = some 48000 ∧
    ∃ w', setupDevice exUnsetWorld 1 (-1) = .ok w' ∧
      1 ∈ (w'.threads 2).boundThreads ∧ 1 ∉ (w'.threads 0).boundThreads ∧
      (w'.threads 1).sampleRate = 48000 ∧ w'.deviceSampleRate (-1) = some 48000 ∧
      w'.deviceController (-1) = some (some 2) ∧
      (w'.threads 1).outputDevice = 3 ∧ (w'.threads 1).outputDevice ≠ -1 :=
  ⟨by decide, by decide, by decide, by decide, ⟨_, rfl, by decide, by decide, by decide,
    by decide, by decide, by decide, by decide⟩⟩

/-- C12 amended: the unit `u` is bound to `o1`, the registered owner of its
present output device, whose list holds no unit twice; the key `d` has the
registered owner `o2`, a unit other than `u`, and the recorded rate `r`. Then
`u.setupDevice(d)` returns, and afterwards `u` is in the list of `o2`, `u` is
not in the list of `o1` when `o1` differs from `o2`, the sample rate of `u` is
`r`, which is still the registry's rate for `d`, and the registered owner of `d`
is still `o2`. The output device of `u` is `d` when `d` is not `-1`; when `d` is
`-1` it is what it was before the call. -/
theorem setupDevice_rebinds (w : World) (u o1 o2 : Ptr) (d r : Int)
    (ho1 : w.deviceController (w.threads u).outputDevice = some (some o1))
    (hmem : u ∈ (w.threads o1).boundThreads)
    (hnd : (w.threads o1).boundThreads.Nodup)
    (ho2 : w.deviceController d = some (some o2)) (hne : o2 ≠ u)
    (hr : w.deviceSampleRate d = some r) :
    ∃ w', setupDevice w u d = .ok w' ∧
      u ∈ (w'.threads o2).boundThreads ∧
      (o1 ≠ o2 → u ∉ (w'.threads o1).boundThreads) ∧
      (w'.threads u).sampleRate = r ∧ w'.deviceSampleRate d = some r ∧
      w'.deviceController d = some (some o2) ∧
      (d ≠ -1 → (w'.threads u).outputDevice = d) ∧
      (d = -1 → (w'.threads u).outputDevice = (w.threads u).outputDevice) := by
  have _ := hmem
  have heq := setupDevice_rebinds_eq w u o1 o2 d r ho1 ho2 hne hr
  have hnotmem : u ∉ ((w.threads o1).boundThreads.erase u) := by
    intro h
    exact ((List.Nodup.mem_erase_iff hnd).mp h).1 rfl
  have hu2 : ¬ u = o2 := fun e => hne e.symm
  by_cases hd : d = -1
  · rw [if_neg (by simpa using hd)] at heq
    refine ⟨_, heq, ?_, ?_, ?_, hr, ho2, fun h => absurd hd h, fun _ => ?_⟩
    · simp only [World.modify_threads, if_neg hne, if_true]
      exact mem_bindThread _ u
    · intro h12
      have h21 : ¬ o2 = o1 := fun e => h12 e.symm
      by_cases h1u : o1 = u
      · subst h1u
        simpa [World.modify_threads, AudioThread.removeThread, h12, h21] using hnotmem
      · have hu1 : ¬ u = o1 := fun e => h1u e.symm
        simpa [World.modify_threads, AudioThread.removeThread, h12, h21, h1u, hu1] using hnotmem
    · simp [World.modify_threads, hu2]
    · by_cases h1u : o1 = u
      · subst h1u
        simp [World.modify_threads, hu2, AudioThread.removeThread]
      · have hu1 : ¬ u = o1 := fun e => h1u e.symm
        simp [World.modify_threads, hu2, hu1]
  · rw [if_pos hd] at heq
    refine ⟨_, heq, ?_, ?_, ?_, hr, ho2, fun _ => ?_, fun h => absurd h hd⟩
    · simp only [World.modify_threads, if_neg hne, if_true]
      exact mem_bindThread _ u
    · intro h12
      have h21 : ¬ o2 = o1 := fun e => h12 e.symm
      by_cases h1u : o1 = u
      · subst h1u
        simpa [World.modify_threads, AudioThread.removeThread, h12, h21] using hnotmem
      · have hu1 : ¬ u = o1 := fun e => h1u e.symm
        simpa [World.modify_threads, AudioThread.removeThread, h12, h21, h1u, hu1] using hnotmem
    · simp [World.modify_threads, hu2]
    · simp [World.modify_threads]

/-- Witness of `setupDevice_rebinds`: in `exAttachWorld` unit `1`, bound to the
owner `0` of device `3`, asks for device `4`, which unit `2` owns. -/
theorem setupDevice_rebinds_witness :
    ∃ w', setupDevice exAttachWorld 1 4 = .ok w' ∧
      1 ∈ (w'.threads 2).boundThreads ∧
      ((0 : Ptr) ≠ 2 → 1 ∉ (w'.threads 0).boundThreads) ∧
      (w'.threads 1).sampleRate = 48000 ∧ w'.deviceSampleRate 4 = some 48000 ∧
      w'.deviceController 4 = some (some 2) ∧
      ((4 : Int) ≠ -1 → (w'.threads 1).outputDevice = 4) ∧
      ((4 : Int) = -1 → (w'.threads 1).outputDevice = (exAttachWorld.threads 1).outputDevice) :=
  setupDevice_rebinds exAttachWorld 1 0 2 4 48000 (by decide) (by decide) (by decide)
    (by decide) (by decide) (by decide)

/-- The method `setInitOutputDevice` touches the output device and the sample
rate of its object and the rate map, nothing else. -/
theorem setInitOutputDevice_spec (w : World) (c : Ptr) (d r : Int) :
    (setInitOutputDevice w c d r).deviceController = w.deviceController ∧
    (setInitOutputDevice w c d r).deviceThread = w.deviceThread ∧
    (setInitOutputDevice w c d r).fresh = w.fresh ∧
    ((setInitOutputDevice w c d r).threads c).boundThreads = (w.threads c).boundThreads ∧
    ((setInitOutputDevice w c d r).threads c).outputDevice = d ∧
    ∀ p, p ≠ c → (setInitOutputDevice w c d r).threads p = w.threads p := by
  simp only [setInitOutputDevice, World.sampleRateAt]
  split
  · split
    · split
      · refine ⟨rfl, rfl, rfl, by simp [World.modify], by simp [World.modify], ?_⟩
        intro p hp; simp [World.modify, Function.update_noteq hp]
      · refine ⟨rfl, rfl, rfl, by simp [World.modify], by simp [World.modify], ?_⟩
        intro p hp; simp [World.modify, Function.update_noteq hp]
    · refine ⟨rfl, rfl, rfl, by simp [World.modify], by simp [World.modify], ?_⟩
      intro p hp; simp [World.modify, Function.update_noteq hp]
  · refine ⟨rfl, rfl, rfl, by simp [World.modify], by simp [World.modify], ?_⟩
    intro p hp; simp [World.modify, Function.update_noteq hp]

/-- The first branch of `attach`: on a device without a controller entry a unit
is created at the next free address, registered as the controller, given the
caller as its only bound source, and entered in `deviceThread`. -/
theorem attach_new_controller (w : World) (u : Ptr) (d r : Int)
    (hnone : w.deviceController d = none) :
    ∃ w', attach w u d r = .ok (some w') ∧
      w'.deviceController d = some (some w.fresh) ∧
      (w'.threads w.fresh).boundThreads = [u] ∧
      (w'.threads w.fresh).outputDevice = d ∧
      w'.deviceThread d = some w.fresh ∧
      ∀ p, p ≠ w.fresh → w'.threads p = w.threads p := by
  obtain ⟨w1, hw1⟩ : ∃ w1 : World, w1 =
      { w with threads := Function.update w.threads w.fresh AudioThread.new,
               deviceController := Function.update w.deviceController d (some (some w.fresh)),
               fresh := w.fresh + 1 } := ⟨_, rfl⟩
  obtain ⟨s1, -, -, s4, s5, s6⟩ := setInitOutputDevice_spec w1 w.fresh d r
  refine ⟨{ (setInitOutputDevice w1 w.fresh d r).modify w.fresh (fun t => t.bindThread u) with
      deviceThread := Function.update ((setInitOutputDevice w1 w.fresh d r).modify w.fresh
        (fun t => t.bindThread u)).deviceThread d (some w.fresh) }, ?_, ?_, ?_, ?_, ?_, ?_⟩
  · simp only [attach, hnone, ← hw1]
  · show (setInitOutputDevice w1 w.fresh d r).deviceController d = some (some w.fresh)
    rw [s1, hw1]; simp
  · show (((setInitOutputDevice w1 w.fresh d r).modify w.fresh
      (fun t => t.bindThread u)).threads w.fresh).boundThreads = [u]
    have hnil : ((setInitOutputDevice w1 w.fresh d r).threads w.fresh).boundThreads = [] := by
      rw [s4, hw1]; simp [AudioThread.new]
    simp [World.modify_threads, AudioThread.bindThread, hnil]
  · show (((setInitOutputDevice w1 w.fresh d r).modify w.fresh
      (fun t => t.bindThread u)).threads w.fresh).outputDevice = d
    rw [World.modify_threads, if_pos rfl]
    unfold AudioThread.bindThread
    split <;> simpa using s5
  · simp
  · intro p hp
    show ((setInitOutputDevice w1 w.fresh d r).modify w.fresh
      (fun t => t.bindThread u)).threads p = w.threads p
    rw [World.modify_threads, if_neg hp, s6 p hp, hw1]
    simp [Function.update_noteq hp]

/-- C13 as stated fails. In `exAttachWorld` device `5` has a recorded rate and no
registered owner; after unit `1` calls `setupDevice(5)` the registered owner of
device `5` is the unit created at address `3`, not unit `1`, which has become
its bound source. -/
theorem setupDevice_first_attach_owner_is_new_unit :
    exAttachWorld.deviceSampleRate 5 = some 96000 ∧ exAttachWorld.deviceController 5 = none ∧
    ∃ w', setupDevice exAttachWorld 1 5 = .ok w' ∧
      w'.deviceController 5 = some (some 3) ∧ w'.deviceController 5 ≠ some (some 1) ∧
      (w'.threads 3).boundThreads = [1] :=
  ⟨by decide, by decide, ⟨_, rfl, by decide, by decide, by decide⟩⟩

/-- C13 amended: the device `d` has the recorded rate `r` and no controller
entry, the unit `u` is an object in use, and the entry of its present output
device is not a null pointer. Then `u.setupDevice(d)` returns, and afterwards
the registered owner of `d` is the unit the call created, which is not `u`; that
unit has `u` as its only bound source, `d` as its output device, and its
control thread is entered for `d`; `u` is active and records the rate `r`. -/
theorem setupDevice_first_attach (w : World) (u : Ptr) (d r : Int)
    (hnull : w.deviceController (w.threads u).outputDevice ≠ some none)
    (hr : w.deviceSampleRate d = some r) (hnone : w.deviceController d = none)
    (hlive : u < w.fresh) :
    ∃ w', setupDevice w u d = .ok w' ∧
      w'.deviceController d = some (some w.fresh) ∧ w.fresh ≠ u ∧
      (w'.threads w.fresh).boundThreads = [u] ∧
      (w'.threads w.fresh).outputDevice = d ∧
      w'.deviceThread d = some w.fresh ∧
      (w'.threads u).active = true ∧ (w'.threads u).sampleRate = r := by
  have hfu : w.fresh ≠ u := Nat.ne_of_gt hlive
  have huf : u ≠ w.fresh := fun e => hfu e.symm
  obtain ⟨w2, e2, c2, s2, -, -, f2, -, -⟩ :=
    detach_ok (w.modify u (fun t => { t with parametersDeviceId := d })) u
      (by simpa [World.modify] using hnull)
  have hs2 : w2.deviceSampleRate d = some r := by rw [s2]; exact hr
  have hc3 : (w2.modify u (fun t => { t with sampleRate := r })).deviceController d = none := by
    show w2.deviceController d = none
    rw [c2]; exact hnone
  have hf3 : (w2.modify u (fun t => { t with sampleRate := r })).fresh = w.fresh := by
    show w2.fresh = w.fresh
    rw [f2]; rfl
  obtain ⟨w7, e7, a1, a2, a3, a4, a5⟩ :=
    attach_new_controller (w2.modify u (fun t => { t with sampleRate := r })) u d r hc3
  rw [hf3] at a1 a2 a3 a4 a5
  have hu7 : (w7.threads u).sampleRate = r := by
    rw [a5 u huf]; simp [World.modify_threads]
  by_cases hd : d = -1
  · refine ⟨w7.modify u (fun t => { t with active := true }), ?_, a1, hfu, ?_, ?_, a4, ?_, ?_⟩
    · subst hd
      simp only [setupDevice, e2, hs2, e7]
      simp
    · rw [World.modify_threads, if_neg hfu]; exact a2
    · rw [World.modify_threads, if_neg hfu]; exact a3
    · simp [World.modify_threads]
    · simpa [World.modify_threads] using hu7
  · refine ⟨(w7.modify u (fun t => { t with active := true })).modify u
      (fun t => { t with outputDevice := d }), ?_, a1, hfu, ?_, ?_, a4, ?_, ?_⟩
    · simp only [setupDevice, e2, hs2, e7, hd, ne_eq, not_false_eq_true, if_true]
    · simp only [World.modify_threads, if_neg hfu]; exact a2
    · simp only [World.modify_threads, if_neg hfu]; exact a3
    · simp [World.modify_threads]
    · simpa [World.modify_threads] using hu7

/-- Witness of `setupDevice_first_attach`: in `exAttachWorld` unit `1` asks for
device `5`, which has the rate 96000 and no owner. -/
theorem setupDevice_first_attach_witness :
    ∃ w', setupDevice exAttachWorld 1 5 = .ok w' ∧
      w'.deviceController 5 = some (some exAttachWorld.fresh) ∧ exAttachWorld.fresh ≠ 1 ∧
      (w'.threads exAttachWorld.fresh).boundThreads = [1] ∧
      (w'.threads exAttachWorld.fresh).outputDevice = 5 ∧
      w'.deviceThread 5 = some exAttachWorld.fresh ∧
      (w'.threads 1).active = true ∧ (w'.threads 1).sampleRate = 96000 :=
  setupDevice_first_attach exAttachWorld 1 5 96000 (by decide) (by decide) (by decide)
    (by decide)

/-! ## Theorems: sequences of bind and unbind calls -/

theorem bindThread_nodup (t : AudioThread) (s : Ptr) (h : t.boundThreads.Nodup) :
    (t.bindThread s).boundThreads.Nodup := by
  unfold AudioThread.bindThread
  split
  · exact h
  · rename_i hs
    simp only
    rw [List.nodup_append]
    refine ⟨h, List.nodup_singleton s, ?_⟩
    intro a ha hb
    rw [List.mem_singleton] at hb
    exact hs (hb ▸ ha)

theorem removeThread_nodup (t : AudioThread) (s : Ptr) (h : t.boundThreads.Nodup) :
    (t.removeThread s).boundThreads.Nodup :=
  List.Nodup.erase s h

theorem calls_nodup (cs : List BindCall) :
    ∀ t : AudioThread, t.boundThreads.Nodup → (t.calls cs).boundThreads.Nodup := by
  induction cs with
  | nil => intro t h; exact h
  | cons c cs ih =>
    intro t h
    show ((t.call c).calls cs).boundThreads.Nodup
    apply ih
    cases c with
    | bindThread o => exact bindThread_nodup t o h
    | removeThread o => exact removeThread_nodup t o h

/-- C17: starting from a unit whose bound-source list is empty, after every
finite sequence of `bindThread` and `removeThread` calls every source occurs at
most once in `boundThreads`, and `removeThread(s)` then leaves no occurrence of
`s`. -/
theorem boundThreads_never_duplicated (t : AudioThread) (cs : List BindCall)
    (h : t.boundThreads = []) :
    (∀ s, (t.calls cs).boundThreads.count s ≤ 1) ∧
    (∀ s, s ∉ ((t.calls cs).removeThread s).boundThreads) := by
  have hnd : (t.calls cs).boundThreads.Nodup :=
    calls_nodup cs t (by rw [h]; exact List.nodup_nil)
  refine ⟨fun s => List.nodup_iff_count_le_one.mp hnd s, ?_⟩
  intro s hs
  exact ((List.Nodup.mem_erase_iff hnd).mp hs).1 rfl

/-- Witness of `boundThreads_never_duplicated`: a fresh unit on which source `1`
is bound twice, source `2` bound, and source `1` unbound and bound again. -/
theorem boundThreads_never_duplicated_witness :
    (∀ s, ((AudioThread.new.calls [.bindThread 1, .bindThread 1, .bindThread 2,
        .removeThread 1, .bindThread 1]).boundThreads.count s ≤ 1)) ∧
    (∀ s, s ∉ ((AudioThread.new.calls [.bindThread 1, .bindThread 1, .bindThread 2,
        .removeThread 1, .bindThread 1]).removeThread s).boundThreads) :=
  boundThreads_never_duplicated AudioThread.new
    [.bindThread 1, .bindThread 1, .bindThread 2, .removeThread 1, .bindThread 1] (by decide)

/-! ## Theorems: the indices the callback uses -/

/-- C19, the code at the failing input: owner `0` has the bound source `1` with
a three-channel buffer of one frame in flight. In a callback of 1 frame the
output buffer has `2 * 1` samples, and the multi-channel loop, which runs to
`channels * nBufferFrames = 3`, writes output index 2. -/
theorem audioCallback_writes_past_stereo_buffer :
    exWideBuf.channels = 3 ∧
    Access.write 2 ∈ (audioCallback exWideHeap [0, 0] 1 0 0).trace ∧ ¬ (2 < 2 * 1) := by
  decide!

/-- When the head of a sample loop hands on a buffer that is not empty, the
cursor it hands on lies inside that buffer. -/
theorem refill_cursor (gain : ℚ) (cur : AudioThreadInput) (ptr : Nat) (q : List AudioThreadInput)
    (mp : ℚ) (c : AudioThreadInput) (p : Nat) (rest : List AudioThreadInput) (mp' : ℚ)
    (h : refill gain cur ptr q mp = some (c, p, rest, mp')) (hne : c.data.length ≠ 0) :
    p < c.data.length := by
  unfold refill at h
  by_cases hlt : cur.data.length ≤ ptr
  · cases q with
    | nil => simp [hlt, tryPop] at h
    | cons b rest' =>
      simp only [hlt, tryPop, if_true, Option.some.injEq, Prod.mk.injEq] at h
      obtain ⟨rfl, rfl, -, -⟩ := h
      exact Nat.pos_of_ne_zero hne
  · simp only [hlt, if_false, Option.some.injEq, Prod.mk.injEq] at h
    obtain ⟨rfl, rfl, -, -⟩ := h
    exact Nat.not_le.mp hlt

theorem monoLoop_reads (gain : ℚ) (n : Nat) :
    ∀ (i : Nat) (cur : AudioThreadInput) (ptr : Nat) (q : List AudioThreadInput) (mp : ℚ)
      (out : List ℚ) (tr : List Access),
      (∀ b k, Access.read b k ∈ tr → k < b.data.length) →
      ∀ b k, Access.read b k ∈ (monoLoop gain n i cur ptr q mp out tr).trace →
        k < b.data.length := by
  induction n with
  | zero => intro i cur ptr q mp out tr h; exact h
  | succ n ih =>
    intro i cur ptr q mp out tr h
    cases hrf : refill gain cur ptr q mp with
    | none => simpa only [monoLoop, hrf] using h
    | some x =>
      obtain ⟨c, p, rest, mp'⟩ := x
      by_cases hlen : c.data.length ≠ 0
      · simp only [monoLoop, hrf, hlen, if_true, ne_eq, not_false_eq_true]
        apply ih
        intro b k hb
        rw [List.mem_append] at hb
        rcases hb with hb | hb
        · exact h b k hb
        · simp only [List.mem_cons, Access.read.injEq, List.mem_singleton, reduceCtorEq,
            or_false, List.not_mem_nil] at hb
          obtain ⟨rfl, rfl⟩ := hb
          exact refill_cursor gain cur ptr q mp _ _ rest mp' hrf hlen
      · have hlen0 : c.data.length = 0 := by simpa using hlen
        simp only [monoLoop, hrf, hlen0, ne_eq, not_true_eq_false, if_false]
        exact ih _ _ _ _ _ _ _ h

theorem multiLoop_reads (gain : ℚ) (n : Nat) :
    ∀ (i : Nat) (cur : AudioThreadInput) (ptr : Nat) (q : List AudioThreadInput) (mp : ℚ)
      (out : List ℚ) (tr : List Access),
      (∀ b k, Access.read b k ∈ tr → k < b.data.length) →
      ∀ b k, Access.read b k ∈ (multiLoop gain n i cur ptr q mp out tr).trace →
        k < b.data.length := by
  induction n with
  | zero => intro i cur ptr q mp out tr h; exact h
  | succ n ih =>
    intro i cur ptr q mp out tr h
    cases hrf : refill gain cur ptr q mp with
    | none => simpa only [multiLoop, hrf] using h
    | some x =>
      obtain ⟨c, p, rest, mp'⟩ := x
      by_cases hlen : c.data.length ≠ 0
      · simp only [multiLoop, hrf, hlen, if_true, ne_eq, not_false_eq_true]
        apply ih
        intro b k hb
        rw [List.mem_append] at hb
        rcases hb with hb | hb
        · exact h b k hb
        · simp only [List.mem_cons, Access.read.injEq, List.mem_singleton, reduceCtorEq,
            or_false, List.not_mem_nil] at hb
          obtain ⟨rfl, rfl⟩ := hb
          exact refill_cursor gain cur ptr q mp _ _ rest mp' hrf hlen
      · have hlen0 : c.data.length = 0 := by simpa using hlen
        simp only [multiLoop, hrf, hlen0, ne_eq, not_true_eq_false, if_false]
        exact ih _ _ _ _ _ _ _ h

/-- A source that does not enter its sample loop leaves the accumulators as they
are; its gain stays and it holds no buffer it did not hold before. -/
theorem mixThread_of_mixStart_none (rate : Int) (N : Nat) (t : AudioThread) (m : Mix)
    (h : mixStart rate t = none) :
    (mixThread rate N t m).2 = m ∧ (mixThread rate N t m).1.gain = t.gain ∧
    ∀ b ∈ (mixThread rate N t m).1.buffers, b ∈ t.buffers := by
  by_cases hpo : t.passedOver = true
  · rw [mixThread_passedOver rate N t m hpo]
    exact ⟨rfl, rfl, fun b hb => hb⟩
  · have hpo' : t.passedOver = false := by simpa using hpo
    cases hq : t.inputQueue with
    | none => simp [AudioThread.passedOver, hq] at hpo'
    | some q =>
      unfold mixStart at h
      unfold mixThread
      simp only [hpo', hq, Option.getD_some, Bool.false_eq_true, if_false] at h ⊢
      cases hc : t.currentInput with
      | none =>
        simp only [hc]
        refine ⟨trivial, trivial, ?_⟩
        intro b hb
        rw [mem_buffers] at hb ⊢
        simp only [Option.getD_some, hq] at hb ⊢
        rcases hb with hb | hb
        · exact Or.inr ((tryPop_mem q).1 b hb)
        · exact Or.inr ((tryPop_mem q).2 b hb)
      | some cur0 =>
        simp only [hc] at h ⊢
        split at h
        · rename_i q1 ptr1 heq
          obtain ⟨-, s2⟩ := syncRate_mem rate cur0 q _ _ _ _ heq
          simp only [heq]
          refine ⟨trivial, trivial, ?_⟩
          intro b hb
          rw [mem_buffers] at hb ⊢
          simp only [Option.getD_some, hq] at hb ⊢
          rcases hb with hb | hb
          · simp at hb
          · exact Or.inr (s2 b hb)
        · rename_i cur q1 ptr1 heq
          obtain ⟨s1, s2⟩ := syncRate_mem rate cur0 q _ _ _ _ heq
          have hcurmem : cur ∈ t.buffers := by
            rw [mem_buffers, hc, hq]
            rcases s1 cur rfl with e | e
            · exact Or.inl (by rw [e])
            · exact Or.inr e
          have hq1mem : ∀ b ∈ q1, b ∈ t.buffers := by
            intro b hb
            rw [mem_buffers, hq]
            exact Or.inr (s2 b hb)
          split at h
          · rename_i hz
            simp only [hz, if_true]
            split
            · refine ⟨rfl, rfl, ?_⟩
              intro b hb
              rw [mem_buffers] at hb
              simp only [Option.getD_some] at hb
              rcases hb with hb | hb
              · exact hq1mem b ((tryPop_mem q1).1 b hb)
              · exact hq1mem b ((tryPop_mem q1).2 b hb)
            · refine ⟨rfl, rfl, ?_⟩
              intro b hb
              rw [mem_buffers] at hb
              simp only [Option.getD_some, Option.some.injEq] at hb
              rcases hb with hb | hb
              · exact hb ▸ hcurmem
              · exact hq1mem b hb
          · simp at h

/-- A source that enters its sample loop: the loop runs from the state
`mixStart` names, which comes from the buffers the source held; the source is
left with what the loop leaves, and the loop's `mixPeak` is added to `peak`. -/
theorem mixThread_of_mixStart_some (rate : Int) (N : Nat) (t : AudioThread) (m : Mix)
    (cur : AudioThreadInput) (q1 : List AudioThreadInput) (ptr1 : Nat)
    (h : mixStart rate t = some (cur, q1, ptr1)) :
    mixThread rate N t m =
      ({ t with currentInput := (sampleLoop N t.gain cur ptr1 q1 m).currentInput,
                inputQueue := some (sampleLoop N t.gain cur ptr1 q1 m).queue,
                audioQueuePtr := (sampleLoop N t.gain cur ptr1 q1 m).audioQueuePtr },
       { out := (sampleLoop N t.gain cur ptr1 q1 m).out,
         peak := m.peak + (sampleLoop N t.gain cur ptr1 q1 m).mixPeak,
         trace := (sampleLoop N t.gain cur ptr1 q1 m).trace }) ∧
    cur ∈ t.buffers ∧ (∀ b ∈ q1, b ∈ t.buffers) ∧ cur.data.length ≠ 0 ∧ cur.channels ≠ 0 := by
  by_cases hpo : t.passedOver = true
  · simp [mixStart, hpo] at h
  · have hpo' : t.passedOver = false := by simpa using hpo
    cases hq : t.inputQueue with
    | none => simp [AudioThread.passedOver, hq] at hpo'
    | some q =>
      unfold mixStart at h
      unfold mixThread sampleLoop
      simp only [hpo', hq, Option.getD_some, Bool.false_eq_true, if_false] at h ⊢
      cases hc : t.currentInput with
      | none => simp [hc] at h
      | some cur0 =>
        simp only [hc] at h ⊢
        split at h
        · simp at h
        · rename_i cur' q1' ptr1' heq
          obtain ⟨s1, s2⟩ := syncRate_mem rate cur0 q _ _ _ _ heq
          split at h
          · simp at h
          · rename_i hz
            simp only [Option.some.injEq, Prod.mk.injEq] at h
            obtain ⟨rfl, rfl, rfl⟩ := h
            simp only [heq, hz, if_false]
            refine ⟨trivial, ?_, ?_, fun h0 => hz (Or.inr h0), fun h0 => hz (Or.inl h0)⟩
            · rw [mem_buffers, hc, hq]
              rcases s1 cur' rfl with e | e
              · exact Or.inl (by rw [e])
              · exact Or.inr e
            · intro b hb
              rw [mem_buffers, hq]
              exact Or.inr (s2 b hb)

theorem sampleLoop_reads (N : Nat) (gain : ℚ) (cur : AudioThreadInput) (ptr : Nat)
    (q : List AudioThreadInput) (m : Mix)
    (h : ∀ b k, Access.read b k ∈ m.trace → k < b.data.length) :
    ∀ b k, Access.read b k ∈ (sampleLoop N gain cur ptr q m).trace → k < b.data.length := by
  unfold sampleLoop
  split
  · exact monoLoop_reads _ _ _ _ _ _ _ _ _ h
  · exact multiLoop_reads _ _ _ _ _ _ _ _ _ h

theorem mixThread_reads (rate : Int) (N : Nat) (t : AudioThread) (m : Mix)
    (h : ∀ b k, Access.read b k ∈ m.trace → k < b.data.length) :
    ∀ b k, Access.read b k ∈ (mixThread rate N t m).2.trace → k < b.data.length := by
  cases hms : mixStart rate t with
  | none =>
    rw [(mixThread_of_mixStart_none rate N t m hms).1]
    exact h
  | some x =>
    obtain ⟨cur, q1, ptr1⟩ := x
    rw [(mixThread_of_mixStart_some rate N t m cur q1 ptr1 hms).1]
    exact sampleLoop_reads N t.gain cur ptr1 q1 m h

theorem mixAll_reads (rate : Int) (N : Nat) (ps : List Ptr) :
    ∀ (h : Ptr → AudioThread) (m : Mix),
      (∀ b k, Access.read b k ∈ m.trace → k < b.data.length) →
      ∀ b k, Access.read b k ∈ (mixAll rate N ps h m).2.trace → k < b.data.length := by
  induction ps with
  | nil => intro h m hm; exact hm
  | cons a ps ih =>
    intro h m hm
    simp only [mixAll]
    exact ih _ _ (mixThread_reads rate N (h a) m hm)

/-- C18: in every callback invocation, whatever the cursors and the queues hold,
each read of sample data logged by the mixing loops is at an index below the
data size of the buffer that is read. -/
theorem audioCallback_reads_in_bounds (threads : Ptr → AudioThread) (out : List ℚ)
    (N status : Nat) (u : Ptr) (b : AudioThreadInput) (k : Nat) :
    Access.read b k ∈ (audioCallback threads out N status u).trace → k < b.data.length := by
  intro hmem
  unfold audioCallback at hmem
  simp only at hmem
  split at hmem
  · simp at hmem
  · split at hmem
    · simp at hmem
    · have hall := mixAll_reads (threads u).getSampleRate N (threads u).boundThreads
        (noteUnderflow threads status u) ⟨memsetZero out (N * 2), 0, []⟩
        (by intro b k hb; simp at hb)
      unfold normalize at hmem
      split at hmem
      · simp only [List.mem_append, List.mem_map, reduceCtorEq, and_false, exists_false,
          or_false] at hmem
        exact hall b k hmem
      · exact hall b k hmem


/-- Witness of `audioCallback_reads_in_bounds`: in the heap `exGapHeap` the
source plays its one-sample buffer, pops an empty buffer, and then pops `exBuf`,
whose sample 0 is read in frame 2 of a period of 3 frames. -/
theorem audioCallback_reads_in_bounds_witness :
    Access.read exBuf 0 ∈ (audioCallback exGapHeap [0, 0, 0, 0, 0, 0] 3 0 0).trace ∧
    0 < exBuf.data.length :=
  ⟨by decide!, audioCallback_reads_in_bounds exGapHeap [0, 0, 0, 0, 0, 0] 3 0 0 exBuf 0
    (by decide!)⟩

/-! ## Theorems: the buffers a sample loop pops -/

theorem raise_eq_max (a b : ℚ) : (if a < b then b else a) = max a b := by
  by_cases h : a < b
  · rw [if_pos h, max_eq_right (le_of_lt h)]
  · rw [if_neg h, max_eq_left (not_lt.mp h)]

theorem refill_cases (gain : ℚ) (cur : AudioThreadInput) (ptr : Nat) (q : List AudioThreadInput)
    (mp : ℚ) :
    (refill gain cur ptr q mp = none ∧ cur.data.length ≤ ptr ∧ q = []) ∨
    (refill gain cur ptr q mp = some (cur, ptr, q, mp) ∧ ptr < cur.data.length) ∨
    (∃ b rest, q = b :: rest ∧ cur.data.length ≤ ptr ∧
      refill gain cur ptr q mp = some (b, 0, rest, max mp (b.peak * gain))) := by
  unfold refill
  by_cases hlt : cur.data.length ≤ ptr
  · cases q with
    | nil => exact Or.inl ⟨by simp [hlt, tryPop], hlt, rfl⟩
    | cons b rest =>
      refine Or.inr (Or.inr ⟨b, rest, rfl, hlt, ?_⟩)
      simp only [hlt, tryPop, if_true, raise_eq_max]
  · exact Or.inr (Or.inl ⟨by simp only [hlt, if_false], Nat.not_le.mp hlt⟩)

theorem monoLoop_popped (gain : ℚ) (n : Nat) :
    ∀ (i : Nat) (cur : AudioThreadInput) (ptr : Nat) (q : List AudioThreadInput) (mp : ℚ)
      (out : List ℚ) (tr : List Access),
      ∃ popped, q = popped ++ (monoLoop gain n i cur ptr q mp out tr).queue ∧
        (monoLoop gain n i cur ptr q mp out tr).mixPeak =
          popped.foldl (fun a b => max a (b.peak * gain)) mp ∧
        ∀ b, (monoLoop gain n i cur ptr q mp out tr).currentInput = some b →
          b = cur ∨ b ∈ popped := by
  induction n with
  | zero =>
    intro i cur ptr q mp out tr
    exact ⟨[], rfl, rfl, fun b hb => Or.inl (by simpa [monoLoop] using hb.symm)⟩
  | succ n ih =>
    intro i cur ptr q mp out tr
    rcases refill_cases gain cur ptr q mp with ⟨hrf, -, -⟩ | ⟨hrf, -⟩ | ⟨b, rest, hq, -, hrf⟩
    · refine ⟨[], ?_, ?_, ?_⟩
      · simp only [monoLoop, hrf, List.nil_append]
      · simp only [monoLoop, hrf, List.foldl_nil]
      · intro b hb
        simp [monoLoop, hrf] at hb
    · by_cases hlen : cur.data.length ≠ 0
      · simp only [monoLoop, hrf, hlen, if_true, ne_eq, not_false_eq_true]
        exact ih _ _ _ _ _ _ _
      · have hlen0 : cur.data.length = 0 := by simpa using hlen
        simp only [monoLoop, hrf, hlen0, ne_eq, not_true_eq_false, if_false]
        exact ih _ _ _ _ _ _ _
    · have key : ∀ (o : List ℚ) (t : List Access),
          ∃ popped, q = popped ++ (monoLoop gain n (i + 1) b (0 + 1) rest
              (max mp (b.peak * gain)) o t).queue ∧
            (monoLoop gain n (i + 1) b (0 + 1) rest (max mp (b.peak * gain)) o t).mixPeak =
              popped.foldl (fun a b => max a (b.peak * gain)) mp ∧
            ∀ b', (monoLoop gain n (i + 1) b (0 + 1) rest
              (max mp (b.peak * gain)) o t).currentInput = some b' →
              b' = cur ∨ b' ∈ popped := by
        intro o t
        obtain ⟨popped, h1, h2, h3⟩ := ih (i + 1) b (0 + 1) rest (max mp (b.peak * gain)) o t
        refine ⟨b :: popped, ?_, ?_, ?_⟩
        · rw [hq, List.cons_append, ← h1]
        · rw [h2, List.foldl_cons]
        · intro b' hb'
          rcases h3 b' hb' with e | e
          · exact Or.inr (by rw [e]; exact List.mem_cons_self _ _)
          · exact Or.inr (List.mem_cons_of_mem _ e)
      by_cases hlen : b.data.length ≠ 0
      · simp only [monoLoop, hrf, hlen, if_true, ne_eq, not_false_eq_true]
        exact key _ _
      · have hlen0 : b.data.length = 0 := by simpa using hlen
        simp only [monoLoop, hrf, hlen0, ne_eq, not_true_eq_false, if_false]
        exact key _ _

theorem multiLoop_popped (gain : ℚ) (n : Nat) :
    ∀ (i : Nat) (cur : AudioThreadInput) (ptr : Nat) (q : List AudioThreadInput) (mp : ℚ)
      (out : List ℚ) (tr : List Access),
      ∃ popped, q = popped ++ (multiLoop gain n i cur ptr q mp out tr).queue ∧
        (multiLoop gain n i cur ptr q mp out tr).mixPeak =
          popped.foldl (fun a b => max a (b.peak * gain)) mp ∧
        ∀ b, (multiLoop gain n i cur ptr q mp out tr).currentInput = some b →
          b = cur ∨ b ∈ popped := by
  induction n with
  | zero =>
    intro i cur ptr q mp out tr
    exact ⟨[], rfl, rfl, fun b hb => Or.inl (by simpa [multiLoop] using hb.symm)⟩
  | succ n ih =>
    intro i cur ptr q mp out tr
    rcases refill_cases gain cur ptr q mp with ⟨hrf, -, -⟩ | ⟨hrf, -⟩ | ⟨b, rest, hq, -, hrf⟩
    · refine ⟨[], ?_, ?_, ?_⟩
      · simp only [multiLoop, hrf, List.nil_append]
      · simp only [multiLoop, hrf, List.foldl_nil]
      · intro b hb
        simp [multiLoop, hrf] at hb
    · by_cases hlen : cur.data.length ≠ 0
      · simp only [multiLoop, hrf, hlen, if_true, ne_eq, not_false_eq_true]
        exact ih _ _ _ _ _ _ _
      · have hlen0 : cur.data.length = 0 := by simpa using hlen
        simp only [multiLoop, hrf, hlen0, ne_eq, not_true_eq_false, if_false]
        exact ih _ _ _ _ _ _ _
    · have key : ∀ (o : List ℚ) (t : List Access),
          ∃ popped, q = popped ++ (multiLoop gain n (i + 1) b (0 + 1) rest
              (max mp (b.peak * gain)) o t).queue ∧
            (multiLoop gain n (i + 1) b (0 + 1) rest (max mp (b.peak * gain)) o t).mixPeak =
              popped.foldl (fun a b => max a (b.peak * gain)) mp ∧
            ∀ b', (multiLoop gain n (i + 1) b (0 + 1) rest
              (max mp (b.peak * gain)) o t).currentInput = some b' →
              b' = cur ∨ b' ∈ popped := by
        intro o t
        obtain ⟨popped, h1, h2, h3⟩ := ih (i + 1) b (0 + 1) rest (max mp (b.peak * gain)) o t
        refine ⟨b :: popped, ?_, ?_, ?_⟩
        · rw [hq, List.cons_append, ← h1]
        · rw [h2, List.foldl_cons]
        · intro b' hb'
          rcases h3 b' hb' with e | e
          · exact Or.inr (by rw [e]; exact List.mem_cons_self _ _)
          · exact Or.inr (List.mem_cons_of_mem _ e)
      by_cases hlen : b.data.length ≠ 0
      · simp only [multiLoop, hrf, hlen, if_true, ne_eq, not_false_eq_true]
        exact key _ _
      · have hlen0 : b.data.length = 0 := by simpa using hlen
        simp only [multiLoop, hrf, hlen0, ne_eq, not_true_eq_false, if_false]
        exact key _ _

theorem sampleLoop_popped (N : Nat) (gain : ℚ) (cur : AudioThreadInput) (ptr : Nat)
    (q : List AudioThreadInput) (m : Mix) :
    ∃ popped, q = popped ++ (sampleLoop N gain cur ptr q m).queue ∧
      (sampleLoop N gain cur ptr q m).mixPeak = peakOver gain cur popped ∧
      ∀ b, (sampleLoop N gain cur ptr q m).currentInput = some b → b = cur ∨ b ∈ popped := by
  unfold sampleLoop peakOver
  split
  · exact monoLoop_popped _ _ _ _ _ _ _ _ _
  · exact multiLoop_popped _ _ _ _ _ _ _ _ _


/-! ## Theorems: the mono upmix -/

theorem addAt_pair_symmetric (out : List ℚ) (i M : Nat) (v : ℚ) (hlen : out.length = 2 * M)
    (h : stereoSymmetric out) :
    stereoSymmetric (addAt (addAt out (i * 2) v) (i * 2 + 1) v) := by
  intro j
  rw [addAt_getD, addAt_getD, addAt_getD, addAt_getD, addAt_length, hlen, h j]
  by_cases hj : j = i
  · subst hj
    by_cases hM : j < M
    · rw [if_neg (by omega), if_pos (by omega), if_pos (by omega), if_neg (by omega)]
    · rw [if_neg (by omega), if_neg (by omega), if_neg (by omega), if_neg (by omega)]
  · rw [if_neg (by omega), if_neg (by omega), if_neg (by omega), if_neg (by omega)]

theorem monoLoop_symmetric (gain : ℚ) (M : Nat) (n : Nat) :
    ∀ (i : Nat) (cur : AudioThreadInput) (ptr : Nat) (q : List AudioThreadInput) (mp : ℚ)
      (out : List ℚ) (tr : List Access),
      out.length = 2 * M → stereoSymmetric out →
      (monoLoop gain n i cur ptr q mp out tr).out.length = 2 * M ∧
      stereoSymmetric (monoLoop gain n i cur ptr q mp out tr).out := by
  induction n with
  | zero => intro i cur ptr q mp out tr hlen h; exact ⟨hlen, h⟩
  | succ n ih =>
    intro i cur ptr q mp out tr hlen h
    cases hrf : refill gain cur ptr q mp with
    | none => simpa only [monoLoop, hrf] using ⟨hlen, h⟩
    | some x =>
      obtain ⟨c, p, rest, mp'⟩ := x
      by_cases hl : c.data.length ≠ 0
      · simp only [monoLoop, hrf, hl, if_true, ne_eq, not_false_eq_true]
        apply ih
        · rw [addAt_length, addAt_length, hlen]
        · exact addAt_pair_symmetric out i M _ hlen h
      · have hl0 : c.data.length = 0 := by simpa using hl
        simp only [monoLoop, hrf, hl0, ne_eq, not_true_eq_false, if_false]
        exact ih _ _ _ _ _ _ _ hlen h

theorem mixThread_buffers_subset (rate : Int) (N : Nat) (t : AudioThread) (m : Mix) :
    ∀ b ∈ (mixThread rate N t m).1.buffers, b ∈ t.buffers := by
  cases hms : mixStart rate t with
  | none => exact (mixThread_of_mixStart_none rate N t m hms).2.2
  | some x =>
    obtain ⟨cur, q1, ptr1⟩ := x
    obtain ⟨he, hcur, hq1, -, -⟩ := mixThread_of_mixStart_some rate N t m cur q1 ptr1 hms
    obtain ⟨popped, hp1, -, hp3⟩ := sampleLoop_popped N t.gain cur ptr1 q1 m
    intro b hb
    rw [he, mem_buffers] at hb
    rcases hb with hb | hb
    · rcases hp3 b hb with e | e
      · rw [e]; exact hcur
      · exact hq1 b (by rw [hp1]; exact List.mem_append_left _ e)
    · simp only [Option.getD_some] at hb
      exact hq1 b (by rw [hp1]; exact List.mem_append_right _ hb)

theorem mixThread_symmetric (rate : Int) (N M : Nat) (t : AudioThread) (m : Mix)
    (ht : t.passedOver = false → t.monoSource)
    (hlen : m.out.length = 2 * M) (h : stereoSymmetric m.out) :
    (mixThread rate N t m).2.out.length = 2 * M ∧
    stereoSymmetric (mixThread rate N t m).2.out ∧
    ((mixThread rate N t m).1.passedOver = false → (mixThread rate N t m).1.monoSource) := by
  have hsub := mixThread_buffers_subset rate N t m
  have hkeep : (mixThread rate N t m).1.passedOver = false →
      (mixThread rate N t m).1.monoSource := by
    intro hpo b hb
    by_cases hpo0 : t.passedOver = true
    · rw [mixThread_passedOver rate N t m hpo0] at hpo
      rw [hpo0] at hpo
      exact absurd hpo (by decide)
    · exact ht (by simpa using hpo0) b (hsub b hb)
  cases hms : mixStart rate t with
  | none =>
    rw [(mixThread_of_mixStart_none rate N t m hms).1]
    exact ⟨hlen, h, hkeep⟩
  | some x =>
    obtain ⟨cur, q1, ptr1⟩ := x
    obtain ⟨he, hcur, -, -, -⟩ := mixThread_of_mixStart_some rate N t m cur q1 ptr1 hms
    have hpo : t.passedOver = false := by
      by_cases hpo0 : t.passedOver = true
      · simp [mixStart, hpo0] at hms
      · simpa using hpo0
    have hch : cur.channels = 1 := ht hpo cur hcur
    have hloop := monoLoop_symmetric t.gain M N 0 cur ptr1 q1 (cur.peak * t.gain) m.out m.trace
      hlen h
    refine ⟨?_, ?_, hkeep⟩
    · rw [he]
      simp only [sampleLoop, hch, if_true]
      exact hloop.1
    · rw [he]
      simp only [sampleLoop, hch, if_true]
      exact hloop.2

theorem mixAll_symmetric (rate : Int) (N M : Nat) (ps : List Ptr) :
    ∀ (h : Ptr → AudioThread) (m : Mix),
      (∀ p ∈ ps, (h p).passedOver = false → (h p).monoSource) →
      m.out.length = 2 * M → stereoSymmetric m.out →
      (mixAll rate N ps h m).2.out.length = 2 * M ∧
      stereoSymmetric (mixAll rate N ps h m).2.out := by
  induction ps with
  | nil => intro h m _ hlen hs; exact ⟨hlen, hs⟩
  | cons a ps ih =>
    intro h m hm hlen hs
    obtain ⟨h1, h2, h3⟩ := mixThread_symmetric rate N M (h a) m
      (hm a (List.mem_cons_self _ _)) hlen hs
    simp only [mixAll]
    apply ih _ _ _ h1 h2
    intro p hp
    by_cases hpa : p = a
    · subst hpa
      rw [Function.update_same]
      exact h3
    · rw [Function.update_noteq hpa]
      exact hm p (List.mem_cons_of_mem _ hp)

theorem normalize_symmetric (N : Nat) (m : Mix) (h : stereoSymmetric m.out) :
    stereoSymmetric (normalize N m).out := by
  unfold normalize
  split
  · intro i
    simp only
    rw [scaleLoop_getD, scaleLoop_getD, h i]
    by_cases hi : i < N
    · rw [if_pos (by omega), if_pos (by omega)]
    · rw [if_neg (by omega), if_neg (by omega)]
  · exact h

theorem normalize_length (N : Nat) (m : Mix) : (normalize N m).out.length = m.out.length := by
  unfold normalize
  split
  · exact scaleLoop_length _ _ _
  · rfl

theorem monoSource_of_mixFields (t t' : AudioThread) (h : t.mixFields = t'.mixFields)
    (hm : t'.passedOver = false → t'.monoSource) : t.passedOver = false → t.monoSource := by
  intro hpo b hb
  have hpo' := passedOver_of_mixFields t t' h
  simp only [AudioThread.mixFields, Prod.mk.injEq] at h
  obtain ⟨-, h2, -, h4, -, -⟩ := h
  apply hm (by rw [← hpo']; exact hpo) b
  rw [mem_buffers] at hb ⊢
  rw [← h2, ← h4]
  exact hb

theorem monoLoop_step_of_lt (gain : ℚ) (cur : AudioThreadInput) (q : List AudioThreadInput)
    (mp : ℚ) (n i ptr : Nat) (out : List ℚ) (tr : List Access) (hlt : ptr < cur.data.length) :
    monoLoop gain (n + 1) i cur ptr q mp out tr =
      monoLoop gain n (i + 1) cur (ptr + 1) q mp
        (addAt (addAt out (i * 2) (cur.data.getD ptr 0 * gain)) (i * 2 + 1)
          (cur.data.getD ptr 0 * gain))
        (tr ++ [Access.read cur ptr, Access.write (i * 2), Access.write (i * 2 + 1)]) := by
  have hne : cur.data.length ≠ 0 := by omega
  simp [monoLoop, refill_of_lt gain cur ptr q mp hlt, hne]

/-- The single-channel loop run for `n1 + n2` frames, the first `n1` of which
the in-flight buffer can serve, is the loop run for `n1` frames followed by the
loop run for `n2` frames. -/
theorem monoLoop_split (gain : ℚ) (cur : AudioThreadInput) (q : List AudioThreadInput)
    (mp : ℚ) (n2 n1 : Nat) :
    ∀ (i ptr : Nat) (out : List ℚ) (tr : List Access), ptr + n1 ≤ cur.data.length →
      monoLoop gain (n1 + n2) i cur ptr q mp out tr =
        monoLoop gain n2 (i + n1) cur (ptr + n1) q mp
          (monoLoop gain n1 i cur ptr q mp out tr).out
          (monoLoop gain n1 i cur ptr q mp out tr).trace := by
  induction n1 with
  | zero =>
    intro i ptr out tr _
    simp only [Nat.zero_add, Nat.add_zero, monoLoop]
  | succ n ih =>
    intro i ptr out tr h
    have hlt : ptr < cur.data.length := by omega
    have e : n + 1 + n2 = (n + n2) + 1 := by omega
    have e1 : i + (n + 1) = i + 1 + n := by omega
    have e2 : ptr + (n + 1) = ptr + 1 + n := by omega
    rw [e, monoLoop_step_of_lt gain cur q mp (n + n2) i ptr out tr hlt,
      monoLoop_step_of_lt gain cur q mp n i ptr out tr hlt, e1, e2]
    exact ih (i + 1) (ptr + 1) _ _ (by omega)

/-- The single-channel loop at the end of the in-flight buffer `A` with `B` at
the head of the queue: the frame at hand is served from the start of `B`. -/
theorem monoLoop_step_pop (gain : ℚ) (A B : AudioThreadInput) (rest : List AudioThreadInput)
    (mp : ℚ) (n i ptr : Nat) (out : List ℚ) (tr : List Access)
    (hend : A.data.length ≤ ptr) (hB : B.data.length ≠ 0) :
    monoLoop gain (n + 1) i A ptr (B :: rest) mp out tr =
      monoLoop gain n (i + 1) B (0 + 1) rest (max mp (B.peak * gain))
        (addAt (addAt out (i * 2) (B.data.getD 0 0 * gain)) (i * 2 + 1)
          (B.data.getD 0 0 * gain))
        (tr ++ [Access.read B 0, Access.write (i * 2), Access.write (i * 2 + 1)]) := by
  have hrf : refill gain A ptr (B :: rest) mp = some (B, 0, rest, max mp (B.peak * gain)) := by
    simp only [refill, hend, tryPop, if_true, raise_eq_max]
  simp only [monoLoop, hrf, hB, if_true, ne_eq, not_false_eq_true]

/-- The single-channel loop over a period that the in-flight buffer `A` serves
for its first `k` frames and the head `B` of the queue for the `n2 + 1` frames
that follow. -/
theorem monoLoop_two_buffers (gain : ℚ) (A B : AudioThreadInput)
    (rest : List AudioThreadInput) (mp : ℚ) (c k n2 : Nat) (out : List ℚ) (tr : List Access)
    (hk : k = A.data.length - c) (hB : n2 + 1 ≤ B.data.length) :
    (monoLoop gain (k + (n2 + 1)) 0 A c (B :: rest) mp out tr).currentInput = some B ∧
    (monoLoop gain (k + (n2 + 1)) 0 A c (B :: rest) mp out tr).audioQueuePtr = n2 + 1 ∧
    (monoLoop gain (k + (n2 + 1)) 0 A c (B :: rest) mp out tr).queue = rest ∧
    (monoLoop gain (k + (n2 + 1)) 0 A c (B :: rest) mp out tr).mixPeak
      = max mp (B.peak * gain) ∧
    (monoLoop gain (k + (n2 + 1)) 0 A c (B :: rest) mp out tr).out.length = out.length ∧
    ∀ j, j < out.length → j < (k + (n2 + 1)) * 2 →
      (monoLoop gain (k + (n2 + 1)) 0 A c (B :: rest) mp out tr).out.getD j 0 =
        out.getD j 0 +
          (if j / 2 < k then A.data.getD (c + j / 2) 0 * gain
           else B.data.getD (j / 2 - k) 0 * gain) := by
  have hBne : B.data.length ≠ 0 := by omega
  have hend : A.data.length ≤ c + k := by omega
  -- the frames served by `A`
  have hpre : monoLoop gain (k + (n2 + 1)) 0 A c (B :: rest) mp out tr =
        monoLoop gain (n2 + 1) k A (c + k) (B :: rest) mp
          (monoLoop gain k 0 A c (B :: rest) mp out tr).out
          (monoLoop gain k 0 A c (B :: rest) mp out tr).trace ∧
      (monoLoop gain k 0 A c (B :: rest) mp out tr).out.length = out.length ∧
      ∀ j, j < out.length →
        (monoLoop gain k 0 A c (B :: rest) mp out tr).out.getD j 0 =
          out.getD j 0 + (if j < k * 2 then A.data.getD (c + j / 2) 0 * gain else 0) := by
    by_cases hk0 : k = 0
    · subst hk0
      refine ⟨by rw [Nat.zero_add]; rfl, rfl, ?_⟩
      intro j _
      simp [monoLoop]
    · have hck : c + k ≤ A.data.length := by omega
      obtain ⟨-, -, -, -, h5, h6⟩ := monoLoop_one_buffer gain A (B :: rest) mp k 0 c out tr hck
      refine ⟨?_, h5, ?_⟩
      · have := monoLoop_split gain A (B :: rest) mp (n2 + 1) k 0 c out tr hck
        rw [Nat.zero_add] at this
        exact this
      · intro j hj
        rw [h6 j hj]
        by_cases hjk : j < k * 2
        · rw [if_pos (by omega), if_pos hjk, Nat.sub_zero]
        · rw [if_neg (by omega), if_neg hjk]
  obtain ⟨hp1, hp2, hp3⟩ := hpre
  rw [hp1, monoLoop_step_pop gain A B rest mp n2 k (c + k) _ _ hend hBne]
  obtain ⟨h1, h2, h3, h4, h5, h6⟩ := monoLoop_one_buffer gain B rest (max mp (B.peak * gain)) n2
    (k + 1) (0 + 1)
    (addAt (addAt (monoLoop gain k 0 A c (B :: rest) mp out tr).out (k * 2)
      (B.data.getD 0 0 * gain)) (k * 2 + 1) (B.data.getD 0 0 * gain))
    ((monoLoop gain k 0 A c (B :: rest) mp out tr).trace ++
      [Access.read B 0, Access.write (k * 2), Access.write (k * 2 + 1)]) (by omega)
  refine ⟨h1, by rw [h2]; omega, h3, h4, by rw [h5, addAt_length, addAt_length, hp2], ?_⟩
  intro j hj hjN
  rw [h6 j (by rw [addAt_length, addAt_length, hp2]; exact hj), addAt_getD, addAt_getD,
    addAt_length, hp2, hp3 j hj]
  by_cases hjk : j < k * 2
  · rw [if_pos hjk, if_pos (by omega : j / 2 < k),
      if_neg (by omega : ¬ (j = k * 2 + 1 ∧ k * 2 + 1 < out.length)),
      if_neg (by omega : ¬ (j = k * 2 ∧ k * 2 < out.length)),
      if_neg (by omega : ¬ ((k + 1) * 2 ≤ j ∧ j < (k + 1 + n2) * 2))]
    ring
  · rw [if_neg hjk, if_neg (by omega : ¬ (j / 2 < k))]
    by_cases hj0 : j = k * 2
    · have e : j / 2 - k = 0 := by omega
      rw [if_neg (by omega : ¬ (j = k * 2 + 1 ∧ k * 2 + 1 < out.length)),
        if_pos (by omega : j = k * 2 ∧ k * 2 < out.length),
        if_neg (by omega : ¬ ((k + 1) * 2 ≤ j ∧ j < (k + 1 + n2) * 2)), e]
      ring
    · by_cases hj1 : j = k * 2 + 1
      · have e : j / 2 - k = 0 := by omega
        rw [if_pos (by omega : j = k * 2 + 1 ∧ k * 2 + 1 < out.length),
          if_neg (by omega : ¬ (j = k * 2 ∧ k * 2 < out.length)),
          if_neg (by omega : ¬ ((k + 1) * 2 ≤ j ∧ j < (k + 1 + n2) * 2)), e]
        ring
      · have e : 0 + 1 + (j / 2 - (k + 1)) = j / 2 - k := by omega
        rw [if_neg (by omega : ¬ (j = k * 2 + 1 ∧ k * 2 + 1 < out.length)),
          if_neg (by omega : ¬ (j = k * 2 ∧ k * 2 < out.length)),
          if_pos (by omega : (k + 1) * 2 ≤ j ∧ j < (k + 1 + n2) * 2), e]
        ring


/-- C15 as stated fails when the buffer in flight holds no sample. In
`exEmptyFirstHeap` the source has gain 1, the empty one-channel buffer
`exEmptyBuf` in flight (so `k = 0` samples are left), and `exBuf`, with two
samples, at the head of its queue. A callback of 2 frames does not play `exBuf`:
lines 141-154 pop it and go on to the next source. The output is silent, where
the claim gives frame 0 the value `1/2`, and the cursor is 0, not 2. -/
theorem audioCallback_empty_in_flight_buffer_skips_period :
    (exEmptyFirstHeap 1).currentInput = some exEmptyBuf ∧
    exEmptyBuf.channels = 1 ∧ exEmptyBuf.sampleRate = (exEmptyFirstHeap 0).getSampleRate ∧
    exEmptyBuf.data.length - (exEmptyFirstHeap 1).audioQueuePtr = 0 ∧
    (exEmptyFirstHeap 1).inputQueue = some [exBuf] ∧ 2 - 0 ≤ exBuf.data.length ∧
    (exEmptyFirstHeap 1).gain * exBuf.data.getD 0 0 = 1 / 2 ∧
    (audioCallback exEmptyFirstHeap [0, 0, 0, 0] 2 0 0).out = [0, 0, 0, 0] ∧
    ((audioCallback exEmptyFirstHeap [0, 0, 0, 0] 2 0 0).threads 1).currentInput = some exBuf ∧
    ((audioCallback exEmptyFirstHeap [0, 0, 0, 0] 2 0 0).threads 1).audioQueuePtr = 0 := by
  refine ⟨rfl, rfl, rfl, rfl, rfl, by decide, by decide!, by decide!, rfl, rfl⟩

/-- C15 amended: the owner is running and has the single bound source `s`, active
and not terminated, with gain `g`; its buffer in flight `A` has the owner's
rate, one channel and at least one sample, and `k = |A| - c < N` samples left
from the cursor `c`; `A.peak * g ≤ 1`. If the head of the queue is a buffer `B`
with at least `N - k` samples and `B.peak * g ≤ 1`, a callback of `N` frames
gives both channels of frame `i` the value `g * A[c + i]` for `i < k` and
`g * B[i - k]` for `k ≤ i < N`, and leaves `B` in flight with the cursor
`N - k` and the rest of the queue queued. If the queue is empty instead, all
`2 * N` samples of the output are 0, those of frames `k .. N - 1` among them. -/
theorem audioCallback_seamless_continuation (threads : Ptr → AudioThread) (out : List ℚ)
    (N status : Nat) (u s : Ptr) (A : AudioThreadInput) (c : Nat)
    (hlen : out.length = 2 * N)
    (hu : (threads u).isTerminated = false) (hb : (threads u).boundThreads = [s])
    (hact : (threads s).isActive = true) (hnt : (threads s).isTerminated = false)
    (hcur : (threads s).currentInput = some A) (hptr : (threads s).audioQueuePtr = c)
    (hr : A.sampleRate = (threads u).getSampleRate) (hch : A.channels = 1)
    (hA : A.data ≠ []) (hk : A.data.length - c < N)
    (hpA : A.peak * (threads s).gain ≤ 1) :
    (∀ (B : AudioThreadInput) (rest : List AudioThreadInput),
      (threads s).inputQueue = some (B :: rest) →
      N - (A.data.length - c) ≤ B.data.length → B.peak * (threads s).gain ≤ 1 →
      (∀ i, i < N →
        (audioCallback threads out N status u).out[2 * i]? =
          some (if i < A.data.length - c then (threads s).gain * A.data.getD (c + i) 0
                else (threads s).gain * B.data.getD (i - (A.data.length - c)) 0) ∧
        (audioCallback threads out N status u).out[2 * i + 1]? =
          some (if i < A.data.length - c then (threads s).gain * A.data.getD (c + i) 0
                else (threads s).gain * B.data.getD (i - (A.data.length - c)) 0)) ∧
      ((audioCallback threads out N status u).threads s).currentInput = some B ∧
      ((audioCallback threads out N status u).threads s).audioQueuePtr
        = N - (A.data.length - c) ∧
      ((audioCallback threads out N status u).threads s).inputQueue = some rest) ∧
    ((threads s).inputQueue = some [] →
      (audioCallback threads out N status u).out = List.replicate (2 * N) 0) := by
  have hz : memsetZero out (N * 2) = List.replicate (2 * N) 0 := by
    rw [Nat.mul_comm N 2]; exact memsetZero_full out (2 * N) hlen
  have hout := audioCallback_out_of_running threads out N status u hu
  have hthr := audioCallback_threads_of_running threads out N status u hu
  simp only [AudioThread.isActive, AudioThread.isTerminated, AudioThread.getSampleRate]
    at hact hnt hr
  obtain ⟨cc, hc⟩ := noteUnderflow_eq threads status u s
  have hAl : A.data.length ≠ 0 := fun h0 => hA (List.length_eq_zero.mp h0)
  constructor
  · intro B rest hq hB hpB
    have hms : mixStart (threads u).sampleRate (noteUnderflow threads status u s) =
        some (A, B :: rest, c) := by
      rw [hc]
      simp [mixStart, AudioThread.passedOver, hcur, hq, hact, hnt, hr, hch, hAl, hptr]
    obtain ⟨he, -⟩ := mixThread_of_mixStart_some (threads u).sampleRate N
      (noteUnderflow threads status u s) ⟨memsetZero out (N * 2), 0, []⟩ A (B :: rest) c hms
    have hgain : (noteUnderflow threads status u s).gain = (threads s).gain := by rw [hc]
    have hL : sampleLoop N (noteUnderflow threads status u s).gain A c (B :: rest)
        ⟨memsetZero out (N * 2), 0, []⟩ =
        monoLoop (threads s).gain N 0 A c (B :: rest) (A.peak * (threads s).gain)
          (memsetZero out (N * 2)) [] := by
      simp only [sampleLoop, hch, if_true, hgain]
    rw [hL] at he
    obtain ⟨n2, hn2⟩ : ∃ n2, N = (A.data.length - c) + (n2 + 1) :=
      ⟨N - (A.data.length - c) - 1, by omega⟩
    obtain ⟨f1, f2, f3, f4, f5, f6⟩ := monoLoop_two_buffers (threads s).gain A B rest
      (A.peak * (threads s).gain) c (A.data.length - c) n2 (memsetZero out (N * 2)) [] rfl
      (by omega)
    rw [← hn2] at f1 f2 f3 f4 f5 f6
    have hnorm : normalize N (mixThread (threads u).sampleRate N
        (noteUnderflow threads status u s) ⟨memsetZero out (N * 2), 0, []⟩).2 =
        (mixThread (threads u).sampleRate N
        (noteUnderflow threads status u s) ⟨memsetZero out (N * 2), 0, []⟩).2 := by
      rw [he]
      unfold normalize
      rw [if_neg]
      show ¬ (0 + _ > 1)
      rw [f4, zero_add]
      exact not_lt.mpr (max_le hpA hpB)
    rw [hb] at hout hthr
    simp only [mixAll] at hout hthr
    rw [hnorm, he] at hout
    have hzero : ∀ j, (memsetZero out (N * 2)).getD j 0 = 0 := by
      intro j; rw [hz]; exact replicate_zero_getD (2 * N) j
    have hval : ∀ i j, i < N → j < 2 * N → j / 2 = i →
        (audioCallback threads out N status u).out[j]? =
          some (if i < A.data.length - c then (threads s).gain * A.data.getD (c + i) 0
                else (threads s).gain * B.data.getD (i - (A.data.length - c)) 0) := by
      intro i j hi hj hji
      rw [hout]
      show (monoLoop (threads s).gain N 0 A c (B :: rest) (A.peak * (threads s).gain)
        (memsetZero out (N * 2)) []).out[j]? = _
      rw [getElem?_of_getD _ j (by rw [f5, memsetZero_length, hlen]; exact hj),
        f6 j (by rw [memsetZero_length, hlen]; exact hj) (by omega), hzero j, zero_add, hji]
      congr 1
      by_cases hik : i < A.data.length - c
      · rw [if_pos hik, if_pos hik, mul_comm]
      · rw [if_neg hik, if_neg hik, mul_comm]
    refine ⟨fun i hi => ⟨hval i (2 * i) hi (by omega) (by omega),
      hval i (2 * i + 1) hi (by omega) (by omega)⟩, ?_, ?_, ?_⟩
    · rw [hthr, Function.update_same, he]
      exact f1
    · rw [hthr, Function.update_same, he]
      show (monoLoop (threads s).gain N 0 A c (B :: rest) (A.peak * (threads s).gain)
        (memsetZero out (N * 2)) []).audioQueuePtr = _
      rw [f2]; omega
    · rw [hthr, Function.update_same, he]
      show some (monoLoop (threads s).gain N 0 A c (B :: rest) (A.peak * (threads s).gain)
        (memsetZero out (N * 2)) []).queue = _
      rw [f3]
  · intro hq
    have h10 : ¬ ((1 : ℚ) < 0) := by norm_num
    rw [hout, hb]
    simp [mixAll, mixThread, AudioThread.passedOver, hc, hq, normalize, h10, hz]

/-- Witness of `audioCallback_seamless_continuation`: the heap `exSeamHeap`, where
frame 0 of a period of 2 frames is the last sample of the buffer in flight and
frame 1 the first sample of the next queued buffer, and the heap
`exDrainedHeap`, where the queue is empty. -/
theorem audioCallback_seamless_continuation_witness :
    ((∀ i, i < 2 →
        (audioCallback exSeamHeap [0, 0, 0, 0] 2 0 0).out[2 * i]? =
          some (if i < exBuf.data.length - 1 then (exSeamHeap 1).gain * exBuf.data.getD (1 + i) 0
                else (exSeamHeap 1).gain * exBuf.data.getD (i - (exBuf.data.length - 1)) 0) ∧
        (audioCallback exSeamHeap [0, 0, 0, 0] 2 0 0).out[2 * i + 1]? =
          some (if i < exBuf.data.length - 1 then (exSeamHeap 1).gain * exBuf.data.getD (1 + i) 0
                else (exSeamHeap 1).gain * exBuf.data.getD (i - (exBuf.data.length - 1)) 0)) ∧
      ((audioCallback exSeamHeap [0, 0, 0, 0] 2 0 0).threads 1).currentInput = some exBuf ∧
      ((audioCallback exSeamHeap [0, 0, 0, 0] 2 0 0).threads 1).audioQueuePtr
        = 2 - (exBuf.data.length - 1) ∧
      ((audioCallback exSeamHeap [0, 0, 0, 0] 2 0 0).threads 1).inputQueue
        = some [exShortBuf]) ∧
    (audioCallback exDrainedHeap [0, 0, 0, 0] 2 0 0).out = List.replicate (2 * 2) 0 :=
  ⟨(audioCallback_seamless_continuation exSeamHeap [0, 0, 0, 0] 2 0 0 1 exBuf 1 (by decide)
      (by decide) (by decide) (by decide) (by decide) rfl rfl (by decide) (by decide)
      (by decide) (by decide) (by decide!)).1 exBuf [exShortBuf] rfl (by decide) (by decide!),
   (audioCallback_seamless_continuation exDrainedHeap [0, 0, 0, 0] 2 0 0 1 exBuf 1 (by decide)
      (by decide) (by decide) (by decide) (by decide) rfl rfl (by decide) (by decide)
      (by decide) (by decide) (by decide!)).2 rfl⟩


/-! ## Theorems: the peak estimate -/

theorem mixStart_congr (rate : Int) (t t' : AudioThread) (h : t.mixFields = t'.mixFields) :
    mixStart rate t = mixStart rate t' := by
  have hpo := passedOver_of_mixFields t t' h
  simp only [AudioThread.mixFields, Prod.mk.injEq] at h
  obtain ⟨-, h2, -, h4, h5, -⟩ := h
  simp only [mixStart, hpo, h2, h4, h5]

theorem poppedBuffers_append (popped rest : List AudioThreadInput) :
    poppedBuffers (popped ++ rest) rest = popped := by
  unfold poppedBuffers
  rw [List.length_append, Nat.add_sub_cancel]
  exact List.take_left' rfl

theorem mixThread_peak (rate : Int) (N : Nat) (t : AudioThread) (m : Mix) :
    (mixThread rate N t m).2.peak = m.peak + sourceEstimate rate t (mixThread rate N t m).1 := by
  cases hms : mixStart rate t with
  | none =>
    rw [(mixThread_of_mixStart_none rate N t m hms).1]
    simp only [sourceEstimate, hms, add_zero]
  | some x =>
    obtain ⟨cur, q1, ptr1⟩ := x
    obtain ⟨he, -⟩ := mixThread_of_mixStart_some rate N t m cur q1 ptr1 hms
    obtain ⟨popped, hp1, hp2, -⟩ := sampleLoop_popped N t.gain cur ptr1 q1 m
    have hq : (mixThread rate N t m).1.inputQueue.getD []
        = (sampleLoop N t.gain cur ptr1 q1 m).queue := by rw [he]; rfl
    have hpk : (mixThread rate N t m).2.peak
        = m.peak + (sampleLoop N t.gain cur ptr1 q1 m).mixPeak := by rw [he]
    rw [hpk]
    simp only [sourceEstimate, hms]
    rw [hq, hp2]
    congr 2
    have e := poppedBuffers_append popped (sampleLoop N t.gain cur ptr1 q1 m).queue
    rw [← hp1] at e
    exact e.symm

theorem mixAll_heap_of_not_mem (rate : Int) (N : Nat) (p : Ptr) (ps : List Ptr) :
    ∀ (h : Ptr → AudioThread) (m : Mix), p ∉ ps → (mixAll rate N ps h m).1 p = h p := by
  induction ps with
  | nil => intro h m _; rfl
  | cons a ps ih =>
    intro h m hp
    simp only [mixAll]
    rw [ih _ _ (fun hin => hp (List.mem_cons_of_mem _ hin)),
      Function.update_noteq (fun e => hp (by rw [e]; exact List.mem_cons_self _ _))]

theorem mixAll_peak (rate : Int) (N : Nat) (ps : List Ptr) :
    ∀ (h : Ptr → AudioThread) (m : Mix), ps.Nodup →
      (mixAll rate N ps h m).2.peak =
        m.peak + (ps.map (fun p => sourceEstimate rate (h p) ((mixAll rate N ps h m).1 p))).sum := by
  induction ps with
  | nil => intro h m _; simp [mixAll]
  | cons a ps ih =>
    intro h m hnd
    obtain ⟨ha, hnd'⟩ := List.nodup_cons.mp hnd
    simp only [mixAll, List.map_cons, List.sum_cons]
    rw [ih _ _ hnd', mixThread_peak, mixAll_heap_of_not_mem rate N a ps _ _ ha,
      Function.update_same, add_assoc]
    congr 3
    apply List.map_congr_left
    intro p hp
    have hpa : p ≠ a := fun e => ha (e ▸ hp)
    rw [Function.update_noteq hpa]

/-- C16 as stated fails for a buffer that was played to its end in the period
before. In `exSpentHeap` the source has gain 1 and `exSpentBuf` (peak 3) in
flight with the cursor at its end, and `exShortBuf` (peak 1/2) queued. In a
callback of one frame the only sample read comes from `exShortBuf`, so the claim
gives the estimate `1/2`; the callback's estimate is 3, since line 156 starts
`mixPeak` from the buffer in flight, and the sample `1/2` is scaled to `1/6`. -/
theorem audioCallback_peak_counts_spent_buffer :
    (exSpentHeap 1).currentInput = some exSpentBuf ∧
    (exSpentHeap 1).audioQueuePtr = exSpentBuf.data.length ∧
    (audioCallback exSpentHeap [0, 0] 1 0 0).trace =
      [Access.read exShortBuf 0, Access.write 0, Access.write 1,
       Access.write 0, Access.write 1] ∧
    exShortBuf.peak * (exSpentHeap 1).gain = 1 / 2 ∧
    callbackPeak exSpentHeap [0, 0] 1 0 0 = 3 ∧
    (audioCallback exSpentHeap [0, 0] 1 0 0).out = [1 / 6, 1 / 6] := by
  refine ⟨rfl, rfl, by decide!, by decide!, by decide!, by decide!⟩

/-- C16 amended: for a running owner whose bound sources are pairwise distinct,
the peak estimate that decides the normalising step is the sum, over the bound
sources, of the term `sourceEstimate`: 0 for a source that does not enter its
sample loop in this period, and otherwise the largest `peak * gain` over the
buffer in flight when the loop is entered, whether it still has a sample to give
or not, and the buffers popped from the queue during the loop. -/
theorem audioCallback_peak_estimate (threads : Ptr → AudioThread) (out : List ℚ)
    (N status : Nat) (u : Ptr) (hu : (threads u).isTerminated = false)
    (hnd : (threads u).boundThreads.Nodup) :
    callbackPeak threads out N status u =
      ((threads u).boundThreads.map (fun p =>
        sourceEstimate (threads u).getSampleRate (threads p)
          ((audioCallback threads out N status u).threads p))).sum := by
  have hthr := audioCallback_threads_of_running threads out N status u hu
  unfold callbackPeak
  rw [mixAll_peak _ _ _ _ _ hnd, hthr, zero_add]
  simp only [AudioThread.getSampleRate]
  congr 1
  apply List.map_congr_left
  intro p _
  simp only [sourceEstimate, mixStart_congr _ _ _ (noteUnderflow_mixFields threads status u p)]
  obtain ⟨c, hc⟩ := noteUnderflow_eq threads status u p
  rw [hc]

/-- Witness of `audioCallback_peak_estimate`: the heap `exSeamHeap`, whose single
source pops a buffer in the middle of a period of 2 frames. -/
theorem audioCallback_peak_estimate_witness :
    callbackPeak exSeamHeap [0, 0, 0, 0] 2 0 0 =
      ((exSeamHeap 0).boundThreads.map (fun p =>
        sourceEstimate (exSeamHeap 0).getSampleRate (exSeamHeap p)
          ((audioCallback exSeamHeap [0, 0, 0, 0] 2 0 0).threads p))).sum :=
  audioCallback_peak_estimate exSeamHeap [0, 0, 0, 0] 2 0 0 (by decide) (by decide)


/-! ## Theorems: the callback in binary floating point -/

/-- C3 as stated fails in the arithmetic of the code. In `exTieHeap` both sources
have gain 1 and one sample each, `12650867 / 2 ^ 24` and `12766832 / 2 ^ 24`,
equal to the peak field of its buffer. The `double` estimate is their exact sum
`25417699 / 2 ^ 24`; the `float` sum in the output buffer is the tie rounded to
even, `25417700 / 2 ^ 24`; and the product with
`invPeak = (float)(1.0 / peak)` rounds to `1 + 2 ^ -23`, above 1. -/
theorem audioCallbackF_output_exceeds_one :
    (∀ p ∈ (exTieHeap 0).boundThreads, (exTieHeap p).boundedSource) ∧
    callbackPeakF exTieHeap [0, 0] 1 0 0 = 25417699 / 2 ^ 24 ∧
    (audioCallbackF exTieHeap [0, 0] 1 0 0).out = [1 + 1 / 2 ^ 23, 1 + 1 / 2 ^ 23] ∧
    ¬ (|(1 : ℚ) + 1 / 2 ^ 23| ≤ 1) := by
  refine ⟨by decide!, by decide!, by decide!, by decide!⟩


/-! ### The rounding error -/

theorem log2Fuel_spec (fuel : ℕ) : ∀ n, 1 ≤ n → n ≤ fuel →
    2 ^ log2Fuel fuel n ≤ n ∧ n < 2 ^ (log2Fuel fuel n + 1) := by
  induction fuel with
  | zero => intro n h1 h2; omega
  | succ fuel ih =>
    intro n h1 h2
    by_cases hn : n < 2
    · have : n = 1 := by omega
      subst this
      simp [log2Fuel]
    · have h := ih (n / 2) (by omega) (by omega)
      simp only [log2Fuel, hn, if_false]
      obtain ⟨ha, hb⟩ := h
      constructor
      · rw [pow_succ]; omega
      · rw [pow_succ]; omega

theorem roundHalfEven_error (x : ℚ) : |(roundHalfEven x : ℚ) - x| ≤ 1 / 2 := by
  have h1 : (⌊x⌋ : ℚ) ≤ x := Int.floor_le x
  have h2 : x < ⌊x⌋ + 1 := Int.lt_floor_add_one x
  unfold roundHalfEven
  split
  · rw [abs_le]; constructor <;> linarith
  · split
    · push_cast; rw [abs_le]; constructor <;> linarith
    · have e : x - ⌊x⌋ = 1 / 2 := le_antisymm (not_lt.mp ‹_›) (not_lt.mp ‹_›)
      split
      · rw [abs_le]; constructor <;> linarith
      · push_cast; rw [abs_le]; constructor <;> linarith

theorem roundHalfEven_nonneg (x : ℚ) (h : 0 ≤ x) : 0 ≤ roundHalfEven x := by
  have h0 : (0 : ℤ) ≤ ⌊x⌋ := Int.floor_nonneg.mpr h
  unfold roundHalfEven
  split
  · exact h0
  · split
    · omega
    · split
      · exact h0
      · omega

/-- The exponent `binade x` is not too large: `2 ^ binade x ≤ |x|`. -/
theorem binade_le (x : ℚ) (hx : x ≠ 0) : (2 : ℚ) ^ binade x ≤ |x| := by
  unfold binade
  split
  · assumption
  · have hnum : 1 ≤ x.num.natAbs := by
      have : x.num ≠ 0 := Rat.num_ne_zero.mpr hx
      omega
    have hden : 1 ≤ x.den := x.den_pos
    obtain ⟨hn1, -⟩ := log2Fuel_spec x.num.natAbs x.num.natAbs hnum (le_refl _)
    obtain ⟨-, hd2⟩ := log2Fuel_spec x.den x.den hden (le_refl _)
    have habs : |x| = (x.num.natAbs : ℚ) / (x.den : ℚ) := by
      conv_lhs => rw [← Rat.num_div_den x]
      rw [abs_div, Nat.abs_cast]
      congr 1
      rw [Nat.cast_natAbs, Int.cast_abs]
    rw [habs]
    have hn1' : ((2 : ℚ) ^ (log2Fuel x.num.natAbs x.num.natAbs)) ≤ (x.num.natAbs : ℚ) := by
      exact_mod_cast hn1
    have hd2' : (x.den : ℚ) ≤ (2 : ℚ) ^ (log2Fuel x.den x.den + 1) := by
      exact_mod_cast le_of_lt hd2
    have hdpos : (0 : ℚ) < x.den := by exact_mod_cast x.den_pos
    rw [le_div_iff₀ hdpos]
    have e : (2 : ℚ) ^ ((log2Fuel x.num.natAbs x.num.natAbs : ℤ) - (log2Fuel x.den x.den : ℤ) - 1)
        = (2 : ℚ) ^ (log2Fuel x.num.natAbs x.num.natAbs) / (2 : ℚ) ^ (log2Fuel x.den x.den + 1) := by
      rw [sub_sub, zpow_sub₀ (by norm_num : (2 : ℚ) ≠ 0)]
      norm_cast
    rw [e, div_mul_eq_mul_div, div_le_iff₀ (by positivity)]
    exact mul_le_mul hn1' hd2' (le_of_lt hdpos) (by positivity)

/-- The exponent `binade x` is not too small: `|x| < 2 ^ (binade x + 1)`. -/
theorem binade_lt (x : ℚ) (hx : x ≠ 0) : |x| < (2 : ℚ) ^ (binade x + 1) := by
  have hnum : 1 ≤ x.num.natAbs := by
    have : x.num ≠ 0 := Rat.num_ne_zero.mpr hx
    omega
  have hden : 1 ≤ x.den := x.den_pos
  obtain ⟨-, hn2⟩ := log2Fuel_spec x.num.natAbs x.num.natAbs hnum (le_refl _)
  obtain ⟨hd1, -⟩ := log2Fuel_spec x.den x.den hden (le_refl _)
  unfold binade
  split
  · have habs : |x| = (x.num.natAbs : ℚ) / (x.den : ℚ) := by
      conv_lhs => rw [← Rat.num_div_den x]
      rw [abs_div, Nat.abs_cast]
      congr 1
      rw [Nat.cast_natAbs, Int.cast_abs]
    rw [habs]
    have hn2' : (x.num.natAbs : ℚ) < (2 : ℚ) ^ (log2Fuel x.num.natAbs x.num.natAbs + 1) := by
      exact_mod_cast hn2
    have hd1' : (2 : ℚ) ^ (log2Fuel x.den x.den) ≤ (x.den : ℚ) := by
      exact_mod_cast hd1
    have hdpos : (0 : ℚ) < x.den := by exact_mod_cast x.den_pos
    rw [div_lt_iff₀ hdpos]
    have e : (2 : ℚ) ^ ((log2Fuel x.num.natAbs x.num.natAbs : ℤ) - (log2Fuel x.den x.den : ℤ) + 1)
        = (2 : ℚ) ^ (log2Fuel x.num.natAbs x.num.natAbs + 1) / (2 : ℚ) ^ (log2Fuel x.den x.den) := by
      rw [sub_add_eq_add_sub, zpow_sub₀ (by norm_num : (2 : ℚ) ≠ 0)]
      norm_cast
    rw [e, div_mul_eq_mul_div, lt_div_iff₀ (by positivity)]
    calc (x.num.natAbs : ℚ) * 2 ^ log2Fuel x.den x.den
        ≤ (x.num.natAbs : ℚ) * x.den :=
          mul_le_mul_of_nonneg_left hd1' (Nat.cast_nonneg _)
      _ < 2 ^ (log2Fuel x.num.natAbs x.num.natAbs + 1) * x.den :=
          mul_lt_mul_of_pos_right hn2' hdpos
  · rename_i h
    rw [sub_add_cancel]
    exact not_le.mp h

/-- The rounding functions on values whose `float` and `double` are well known:
`0.1f` is `13421773 / 2 ^ 27` and `0.1` is `3602879701896397 / 2 ^ 55`; a third
rounds to `11184811 / 2 ^ 25`; a tie goes to the even neighbour; the least
positive `float` is `2 ^ -149` and half of it rounds to 0. -/
theorem toFloat_toDouble_examples :
    toFloat (1 / 10) = 13421773 / 2 ^ 27 ∧ toDouble (1 / 10) = 3602879701896397 / 2 ^ 55 ∧
    toFloat (1 / 3) = 11184811 / 2 ^ 25 ∧
    toFloat (25417699 / 2 ^ 24) = 25417700 / 2 ^ 24 ∧
    toFloat (1 / 2 ^ 149) = 1 / 2 ^ 149 ∧ toFloat (1 / 2 ^ 150) = 0 ∧
    toFloat (-(3 / 2 ^ 150)) = -(2 / 2 ^ 149) := by
  refine ⟨by decide!, by decide!, by decide!, by decide!, by decide!, by decide!, by decide!⟩

/-- The error of rounding to `p` significant bits with least exponent `emin`:
half a unit in the last place, which is at most `|x| / 2 ^ p` for a number in
the normal range and `2 ^ (emin - p)` below it. -/
theorem roundBinary_error (p : ℕ) (emin : ℤ) (x : ℚ) :
    |roundBinary p emin x - x| ≤ |x| / 2 ^ p + 2 ^ (emin - p) := by
  unfold roundBinary
  split
  · rename_i h0
    subst h0
    simp only [sub_zero, abs_zero, zero_div, zero_add]
    positivity
  · rename_i hx
    have hq : (0 : ℚ) < 2 ^ (max (binade x) emin - (p - 1)) := by positivity
    have hr := roundHalfEven_error (x / 2 ^ (max (binade x) emin - (p - 1)))
    have e : (roundHalfEven (x / 2 ^ (max (binade x) emin - (p - 1))) : ℚ) *
        2 ^ (max (binade x) emin - (p - 1)) - x =
        ((roundHalfEven (x / 2 ^ (max (binade x) emin - (p - 1))) : ℚ) -
          x / 2 ^ (max (binade x) emin - (p - 1))) * 2 ^ (max (binade x) emin - (p - 1)) := by
      field_simp
    rw [e, abs_mul, abs_of_pos hq]
    have h1 : |(roundHalfEven (x / 2 ^ (max (binade x) emin - (p - 1))) : ℚ) -
        x / 2 ^ (max (binade x) emin - (p - 1))| * 2 ^ (max (binade x) emin - (p - 1))
        ≤ 1 / 2 * 2 ^ (max (binade x) emin - (p - 1)) :=
      mul_le_mul_of_nonneg_right hr (le_of_lt hq)
    refine le_trans h1 ?_
    have e2 : (1 : ℚ) / 2 * 2 ^ (max (binade x) emin - (p - 1)) = 2 ^ (max (binade x) emin - p) := by
      have : max (binade x) emin - ((p : ℤ) - 1) = (max (binade x) emin - p) + 1 := by ring
      rw [this, zpow_add_one₀ (by norm_num : (2 : ℚ) ≠ 0)]
      ring
    rw [e2]
    rcases le_total (binade x) emin with h | h
    · rw [max_eq_right h]
      have : (0 : ℚ) ≤ |x| / 2 ^ p := by positivity
      linarith
    · rw [max_eq_left h]
      have hb := binade_le x hx
      have e3 : (2 : ℚ) ^ (binade x - p) = 2 ^ binade x / 2 ^ p := by
        rw [zpow_sub₀ (by norm_num : (2 : ℚ) ≠ 0)]
        norm_cast
      rw [e3]
      have : (2 : ℚ) ^ binade x / 2 ^ p ≤ |x| / 2 ^ p :=
        div_le_div_of_nonneg_right hb (by positivity)
      have : (0 : ℚ) ≤ 2 ^ (emin - p) := by positivity
      linarith

theorem roundBinary_nonneg (p : ℕ) (emin : ℤ) (x : ℚ) (h : 0 ≤ x) :
    0 ≤ roundBinary p emin x := by
  unfold roundBinary
  split
  · exact le_refl _
  · apply mul_nonneg
    · have : 0 ≤ roundHalfEven (x / 2 ^ (max (binade x) emin - (p - 1))) :=
        roundHalfEven_nonneg _ (div_nonneg h (by positivity))
      exact_mod_cast this
    · positivity

/-- The sizes of the four rounding constants, as far as the proofs below use
them. -/
theorem rounding_constants :
    0 < ulpF ∧ ulpF ≤ 1 / 2 ^ 24 ∧ 0 < tinyF ∧ tinyF ≤ 1 / 2 ^ 150 ∧
    0 < ulpD ∧ ulpD ≤ ulpF / 2 ^ 20 ∧ 0 < tinyD ∧ tinyD ≤ tinyF / 2 ^ 20 := by
  unfold ulpF tinyF ulpD tinyD
  norm_num

theorem toFloat_error (x : ℚ) : |toFloat x - x| ≤ ulpF * |x| + tinyF := by
  have h := roundBinary_error 24 (-126) x
  have e : (2 : ℚ) ^ ((-126 : ℤ) - ((24 : ℕ) : ℤ)) = 1 / 2 ^ 150 := by
    norm_num [zpow_neg]
  rw [e] at h
  unfold toFloat ulpF tinyF
  linarith

theorem toDouble_error (x : ℚ) : |toDouble x - x| ≤ ulpD * |x| + tinyD := by
  have h := roundBinary_error 53 (-1022) x
  have e : (2 : ℚ) ^ ((-1022 : ℤ) - ((53 : ℕ) : ℤ)) = 1 / 2 ^ 1075 := by
    norm_num [zpow_neg]
  rw [e] at h
  unfold toDouble ulpD tinyD
  linarith

theorem toFloat_nonneg (x : ℚ) (h : 0 ≤ x) : 0 ≤ toFloat x := roundBinary_nonneg 24 (-126) x h

theorem toDouble_nonneg (x : ℚ) (h : 0 ≤ x) : 0 ≤ toDouble x := roundBinary_nonneg 53 (-1022) x h

theorem toFloat_abs_le (x : ℚ) : |toFloat x| ≤ (1 + ulpF) * |x| + tinyF := by
  have h := toFloat_error x
  have h2 : |toFloat x| ≤ |toFloat x - x| + |x| := by
    have := abs_add (toFloat x - x) x
    simpa using this
  linarith

theorem toFloat_ge (x : ℚ) (hx : 0 ≤ x) : (1 - ulpF) * x - tinyF ≤ toFloat x := by
  have h := toFloat_error x
  rw [abs_of_nonneg hx] at h
  have := (abs_le.mp h).1
  linarith

theorem toDouble_ge (x : ℚ) (hx : 0 ≤ x) : (1 - ulpD) * x - tinyD ≤ toDouble x := by
  have h := toDouble_error x
  rw [abs_of_nonneg hx] at h
  have := (abs_le.mp h).1
  linarith

theorem toFloat_le (x : ℚ) (hx : 0 ≤ x) : toFloat x ≤ (1 + ulpF) * x + tinyF := by
  have h := toFloat_error x
  rw [abs_of_nonneg hx] at h
  have := (abs_le.mp h).2
  linarith

theorem toDouble_le (x : ℚ) (hx : 0 ≤ x) : toDouble x ≤ (1 + ulpD) * x + tinyD := by
  have h := toDouble_error x
  rw [abs_of_nonneg hx] at h
  have := (abs_le.mp h).2
  linarith

/-- A `float` product `s * g` of a sample within the peak `p` is within
`(1 + 4 ulp) * float(p * g) + 3 tiny`. -/
theorem sampleF_le (s p g : ℚ) (hs : |s| ≤ p) (hg : 0 ≤ g) :
    |toFloat (s * g)| ≤ (1 + 4 * ulpF) * toFloat (p * g) + 3 * tinyF := by
  obtain ⟨hu0, hu1, ht0, -, -, -, -, -⟩ := rounding_constants
  have hp : 0 ≤ p := le_trans (abs_nonneg s) hs
  have hy : 0 ≤ p * g := mul_nonneg hp hg
  have hx : |s * g| ≤ p * g := by
    rw [abs_mul, abs_of_nonneg hg]
    exact mul_le_mul_of_nonneg_right hs hg
  have h1 := toFloat_abs_le (s * g)
  have h2 := toFloat_ge (p * g) hy
  have hu14 : ulpF ≤ 1 / 4 := le_trans hu1 (by norm_num)
  have a1 : (1 + ulpF) * |s * g| ≤ (1 + ulpF) * (p * g) :=
    mul_le_mul_of_nonneg_left hx (by linarith)
  have a2 : (1 + 4 * ulpF) * ((1 - ulpF) * (p * g) - tinyF) ≤ (1 + 4 * ulpF) * toFloat (p * g) :=
    mul_le_mul_of_nonneg_left h2 (by linarith)
  have a3 : 0 ≤ (2 * ulpF - 4 * ulpF * ulpF) * (p * g) := by
    apply mul_nonneg _ hy
    nlinarith
  have a4 : 0 ≤ (1 - 4 * ulpF) * tinyF := mul_nonneg (by linarith) (le_of_lt ht0)
  nlinarith

/-- A power of `1 + x` for a small `x`: `(1 + x) ^ m ≤ 1 + m x + (m x) ^ 2` as
long as `m x ≤ 1`. -/
theorem one_add_pow_le_quad (x : ℚ) (hx : 0 ≤ x) :
    ∀ m : ℕ, (m : ℚ) * x ≤ 1 → (1 + x) ^ m ≤ 1 + m * x + (m * x) ^ 2 := by
  intro m
  induction m with
  | zero => intro _; simp
  | succ m ih =>
    intro hm
    push_cast at hm ⊢
    have hm0 : (0 : ℚ) ≤ m := Nat.cast_nonneg m
    have hmx : (m : ℚ) * x ≤ 1 := by nlinarith
    have h := ih hmx
    have hpos : (0 : ℚ) ≤ 1 + x := by linarith
    have h1 : (1 + x) ^ (m + 1) ≤ (1 + m * x + (m * x) ^ 2) * (1 + x) := by
      rw [pow_succ]
      exact mul_le_mul_of_nonneg_right h hpos
    have h2 : (0 : ℚ) ≤ x * x * (m + 1 - m * (m * x)) := by
      apply mul_nonneg (mul_nonneg hx hx)
      nlinarith
    nlinarith

theorem one_add_pow_le (x : ℚ) (hx : 0 ≤ x) (m : ℕ) (hm : (m : ℚ) * x ≤ 1) :
    (1 + x) ^ m ≤ 1 + 2 * (m * x) := by
  have h := one_add_pow_le_quad x hx m hm
  have h0 : (0 : ℚ) ≤ m * x := mul_nonneg (Nat.cast_nonneg m) hx
  nlinarith

/-! ### The output buffer primitives in floating point -/

theorem addAtF_length (out : List ℚ) (i : Nat) (v : ℚ) :
    (addAtF out i v).length = out.length := by
  induction out generalizing i with
  | nil => simp [addAtF]
  | cons x xs ih => cases i <;> simp [addAtF, ih]

theorem addAtF_getD (out : List ℚ) (i k : Nat) (v : ℚ) :
    (addAtF out i v).getD k 0 =
      if k = i ∧ i < out.length then toFloat (out.getD k 0 + v) else out.getD k 0 := by
  induction out generalizing i k with
  | nil => simp [addAtF]
  | cons x xs ih =>
    cases i with
    | zero => cases k <;> simp [addAtF]
    | succ i =>
      cases k with
      | zero => simp [addAtF]
      | succ k =>
        simp only [addAtF, List.getD_cons_succ, List.length_cons, Nat.add_lt_add_iff_right,
          Nat.add_right_cancel_iff]
        exact ih i k

theorem scaleLoopF_length (c : ℚ) (out : List ℚ) (n : Nat) :
    (scaleLoopF c out n).length = out.length := by
  induction out generalizing n with
  | nil => cases n <;> simp [scaleLoopF]
  | cons x xs ih => cases n <;> simp [scaleLoopF, ih]

theorem scaleLoopF_getD (c : ℚ) (out : List ℚ) (n k : Nat) (hk : k < out.length) :
    (scaleLoopF c out n).getD k 0 =
      if k < n then toFloat (out.getD k 0 * c) else out.getD k 0 := by
  induction out generalizing n k with
  | nil => simp at hk
  | cons x xs ih =>
    cases n with
    | zero => simp [scaleLoopF]
    | succ n =>
      cases k with
      | zero => simp [scaleLoopF]
      | succ k =>
        simp only [scaleLoopF, List.getD_cons_succ, Nat.add_lt_add_iff_right]
        exact ih n k (by simpa using hk)


/-! ### The sample loops in floating point -/

theorem writeBound_mono (o M M' : ℚ) (h : M ≤ M') : writeBound o M ≤ writeBound o M' := by
  obtain ⟨hu0, -, -, -, -, -, -, -⟩ := rounding_constants
  unfold writeBound
  have h1 : (1 + 4 * ulpF) * M ≤ (1 + 4 * ulpF) * M' :=
    mul_le_mul_of_nonneg_left h (by linarith)
  have h2 : (1 + ulpF) * (|o| + ((1 + 4 * ulpF) * M + 3 * tinyF)) ≤
      (1 + ulpF) * (|o| + ((1 + 4 * ulpF) * M' + 3 * tinyF)) :=
    mul_le_mul_of_nonneg_left (by linarith) (by linarith)
  linarith

theorem writeBound_keep (o M : ℚ) (hM : 0 ≤ M) : |o| ≤ writeBound o M := by
  obtain ⟨hu0, -, ht0, -, -, -, -, -⟩ := rounding_constants
  unfold writeBound
  have h0 : 0 ≤ |o| := abs_nonneg o
  have h1 : 0 ≤ (1 + 4 * ulpF) * M := mul_nonneg (by linarith) hM
  have h2 : 0 ≤ ulpF * (|o| + ((1 + 4 * ulpF) * M + 3 * tinyF)) :=
    mul_nonneg (le_of_lt hu0) (by linarith)
  nlinarith

theorem writeBound_write (o v M : ℚ) (hv : |v| ≤ (1 + 4 * ulpF) * M + 3 * tinyF) :
    |toFloat (o + v)| ≤ writeBound o M := by
  obtain ⟨hu0, -, -, -, -, -, -, -⟩ := rounding_constants
  unfold writeBound
  have h1 := toFloat_abs_le (o + v)
  have h2 : |o + v| ≤ |o| + |v| := abs_add o v
  have h3 : (1 + ulpF) * |o + v| ≤ (1 + ulpF) * (|o| + ((1 + 4 * ulpF) * M + 3 * tinyF)) :=
    mul_le_mul_of_nonneg_left (by linarith) (by linarith)
  linarith

/-- What the head of a sample loop hands on in floating point, when it does not
break: as `refill_some`, with the `float` product `peak * gain`. -/
theorem refillF_some (gain : ℚ) (cur : AudioThreadInput) (ptr : Nat) (q : List AudioThreadInput)
    (mp : ℚ) (c : AudioThreadInput) (p : Nat) (rest : List AudioThreadInput) (mp' : ℚ)
    (h : refillF gain cur ptr q mp = some (c, p, rest, mp'))
    (hmp : toFloat (cur.peak * gain) ≤ mp) :
    mp ≤ mp' ∧ toFloat (c.peak * gain) ≤ mp' ∧ (c = cur ∨ c ∈ q) ∧ (∀ b ∈ rest, b ∈ q) ∧
    (c.data.length ≠ 0 → p < c.data.length) := by
  unfold refillF at h
  by_cases hlt : cur.data.length ≤ ptr
  · cases q with
    | nil => simp [hlt, tryPop] at h
    | cons b rest' =>
      simp only [hlt, tryPop, if_true, Option.some.injEq, Prod.mk.injEq] at h
      obtain ⟨rfl, rfl, rfl, rfl⟩ := h
      refine ⟨?_, ?_, Or.inr (List.mem_cons_self _ _), fun b hb => List.mem_cons_of_mem _ hb,
        fun h0 => Nat.pos_of_ne_zero h0⟩
      · split
        · exact le_of_lt (by assumption)
        · exact le_refl _
      · split
        · exact le_refl _
        · exact not_lt.mp (by assumption)
  · simp only [hlt, if_false, Option.some.injEq, Prod.mk.injEq] at h
    obtain ⟨rfl, rfl, rfl, rfl⟩ := h
    exact ⟨le_refl _, hmp, Or.inl rfl, fun b hb => hb, fun _ => Nat.not_le.mp hlt⟩

theorem sampleF_le_peak (b : AudioThreadInput) (gain : ℚ) (p : Nat)
    (hb : b.peakBoundsSamples) (hg : 0 ≤ gain) (hp : p < b.data.length) :
    |toFloat (b.data.getD p 0 * gain)| ≤
      (1 + 4 * ulpF) * toFloat (b.peak * gain) + 3 * tinyF := by
  have hx : b.data.getD p 0 ∈ b.data := by
    rw [List.getD_eq_getElem _ _ hp]
    exact List.getElem_mem hp
  exact sampleF_le _ _ _ (hb _ hx) hg

/-- The single-channel loop in floating point: each output sample ends within
`writeBound` of what it held, for the final `mixPeak`; the frames before `i`
are left alone. -/
theorem monoLoopF_bounded (gain : ℚ) (hg : 0 ≤ gain) (n : Nat) :
    ∀ (i : Nat) (cur : AudioThreadInput) (ptr : Nat) (q : List AudioThreadInput) (mp : ℚ)
      (out : List ℚ) (tr : List Access) (r : LoopOut),
      monoLoopF gain n i cur ptr q mp out tr = r →
      cur.peakBoundsSamples → (∀ b ∈ q, b.peakBoundsSamples) →
      toFloat (cur.peak * gain) ≤ mp → 0 ≤ mp →
      mp ≤ r.mixPeak ∧ r.out.length = out.length ∧
      (∀ k, |r.out.getD k 0| ≤ writeBound (out.getD k 0) r.mixPeak) ∧
      (∀ k, k < i * 2 → r.out.getD k 0 = out.getD k 0) ∧
      (∀ b, r.currentInput = some b → b = cur ∨ b ∈ q) ∧ (∀ b ∈ r.queue, b ∈ q) := by
  induction n with
  | zero =>
    intro i cur ptr q mp out tr r hr hcur _ _ hmp0
    subst hr
    refine ⟨le_refl _, rfl, ?_, fun _ _ => rfl, ?_, fun b hb => hb⟩
    · intro k
      exact writeBound_keep _ _ hmp0
    · intro b hb
      simp only [monoLoopF, Option.some.injEq] at hb
      exact Or.inl hb.symm
  | succ n ih =>
    intro i cur ptr q mp out tr r hr hcur hq hmp hmp0
    cases hrf : refillF gain cur ptr q mp with
    | none =>
      simp only [monoLoopF, hrf] at hr
      subst hr
      refine ⟨le_refl _, rfl, ?_, fun _ _ => rfl, ?_, fun b hb => hb⟩
      · intro k
        exact writeBound_keep _ _ hmp0
      · intro b hb; simp at hb
    | some x =>
      obtain ⟨c, p, rest, mp'⟩ := x
      obtain ⟨f1, f2, f3, f4, f5⟩ := refillF_some gain cur ptr q mp c p rest mp' hrf hmp
      have hc : c.peakBoundsSamples := by
        rcases f3 with rfl | hin
        · exact hcur
        · exact hq c hin
      have hrest : ∀ b ∈ rest, b.peakBoundsSamples := fun b hb => hq b (f4 b hb)
      have hmp0' : 0 ≤ mp' := le_trans hmp0 f1
      by_cases hlen : c.data.length ≠ 0
      · simp only [monoLoopF, hrf, hlen, if_true, ne_eq, not_false_eq_true] at hr
        obtain ⟨g1, g2, g3, g4, g5, g6⟩ := ih (i + 1) c (p + 1) rest mp' _ _ r hr hc hrest f2 hmp0'
        have hu0 : 0 < ulpF := rounding_constants.1
        have hv : |toFloat (c.data.getD p 0 * gain)| ≤
            (1 + 4 * ulpF) * r.mixPeak + 3 * tinyF := by
          have h1 := sampleF_le_peak c gain p hc hg (f5 hlen)
          have h2 : (1 + 4 * ulpF) * toFloat (c.peak * gain) ≤ (1 + 4 * ulpF) * r.mixPeak :=
            mul_le_mul_of_nonneg_left (le_trans f2 g1) (by linarith)
          linarith
        have hM0 : 0 ≤ r.mixPeak := le_trans hmp0' g1
        refine ⟨le_trans f1 g1, by rw [g2, addAtF_length, addAtF_length], ?_, ?_, ?_, ?_⟩
        · intro k
          by_cases hk : k < (i + 1) * 2
          · rw [g4 k hk, addAtF_getD, addAtF_getD, addAtF_length]
            by_cases hk1 : k = i * 2 + 1 ∧ i * 2 + 1 < out.length
            · rw [if_pos hk1, if_neg (by omega)]
              exact writeBound_write _ _ _ hv
            · rw [if_neg hk1]
              by_cases hk0 : k = i * 2 ∧ i * 2 < out.length
              · rw [if_pos hk0]
                exact writeBound_write _ _ _ hv
              · rw [if_neg hk0]
                exact writeBound_keep _ _ hM0
          · have e1 : (addAtF (addAtF out (i * 2) (toFloat (c.data.getD p 0 * gain))) (i * 2 + 1)
                (toFloat (c.data.getD p 0 * gain))).getD k 0 = out.getD k 0 := by
              rw [addAtF_getD, addAtF_getD, if_neg (by omega), if_neg (by omega)]
            rw [← e1]
            exact g3 k
        · intro k hk
          rw [g4 k (by omega), addAtF_getD, addAtF_getD, if_neg (by omega), if_neg (by omega)]
        · intro b hb
          rcases g5 b hb with rfl | hin
          · exact f3
          · exact Or.inr (f4 b hin)
        · intro b hb
          exact f4 b (g6 b hb)
      · have hlen0 : c.data.length = 0 := by simpa using hlen
        simp only [monoLoopF, hrf, hlen0, ne_eq, not_true_eq_false, if_false] at hr
        obtain ⟨g1, g2, g3, g4, g5, g6⟩ := ih (i + 1) c (p + 1) rest mp' _ _ r hr hc hrest f2 hmp0'
        refine ⟨le_trans f1 g1, g2, g3, fun k hk => g4 k (by omega), ?_, ?_⟩
        · intro b hb
          rcases g5 b hb with rfl | hin
          · exact f3
          · exact Or.inr (f4 b hin)
        · intro b hb
          exact f4 b (g6 b hb)

/-- The multi-channel loop in floating point: each output sample ends within
`writeBound` of what it held, for the final `mixPeak`; the samples before `i`
are left alone. -/
theorem multiLoopF_bounded (gain : ℚ) (hg : 0 ≤ gain) (n : Nat) :
    ∀ (i : Nat) (cur : AudioThreadInput) (ptr : Nat) (q : List AudioThreadInput) (mp : ℚ)
      (out : List ℚ) (tr : List Access) (r : LoopOut),
      multiLoopF gain n i cur ptr q mp out tr = r →
      cur.peakBoundsSamples → (∀ b ∈ q, b.peakBoundsSamples) →
      toFloat (cur.peak * gain) ≤ mp → 0 ≤ mp →
      mp ≤ r.mixPeak ∧ r.out.length = out.length ∧
      (∀ k, |r.out.getD k 0| ≤ writeBound (out.getD k 0) r.mixPeak) ∧
      (∀ k, k < i → r.out.getD k 0 = out.getD k 0) ∧
      (∀ b, r.currentInput = some b → b = cur ∨ b ∈ q) ∧ (∀ b ∈ r.queue, b ∈ q) := by
  induction n with
  | zero =>
    intro i cur ptr q mp out tr r hr hcur _ _ hmp0
    subst hr
    refine ⟨le_refl _, rfl, ?_, fun _ _ => rfl, ?_, fun b hb => hb⟩
    · intro k
      exact writeBound_keep _ _ hmp0
    · intro b hb
      simp only [multiLoopF, Option.some.injEq] at hb
      exact Or.inl hb.symm
  | succ n ih =>
    intro i cur ptr q mp out tr r hr hcur hq hmp hmp0
    cases hrf : refillF gain cur ptr q mp with
    | none =>
      simp only [multiLoopF, hrf] at hr
      subst hr
      refine ⟨le_refl _, rfl, ?_, fun _ _ => rfl, ?_, fun b hb => hb⟩
      · intro k
        exact writeBound_keep _ _ hmp0
      · intro b hb; simp at hb
    | some x =>
      obtain ⟨c, p, rest, mp'⟩ := x
      obtain ⟨f1, f2, f3, f4, f5⟩ := refillF_some gain cur ptr q mp c p rest mp' hrf hmp
      have hc : c.peakBoundsSamples := by
        rcases f3 with rfl | hin
        · exact hcur
        · exact hq c hin
      have hrest : ∀ b ∈ rest, b.peakBoundsSamples := fun b hb => hq b (f4 b hb)
      have hmp0' : 0 ≤ mp' := le_trans hmp0 f1
      by_cases hlen : c.data.length ≠ 0
      · simp only [multiLoopF, hrf, hlen, if_true, ne_eq, not_false_eq_true] at hr
        obtain ⟨g1, g2, g3, g4, g5, g6⟩ := ih (i + 1) c (p + 1) rest mp' _ _ r hr hc hrest f2 hmp0'
        have hu0 : 0 < ulpF := rounding_constants.1
        have hv : |toFloat (c.data.getD p 0 * gain)| ≤
            (1 + 4 * ulpF) * r.mixPeak + 3 * tinyF := by
          have h1 := sampleF_le_peak c gain p hc hg (f5 hlen)
          have h2 : (1 + 4 * ulpF) * toFloat (c.peak * gain) ≤ (1 + 4 * ulpF) * r.mixPeak :=
            mul_le_mul_of_nonneg_left (le_trans f2 g1) (by linarith)
          linarith
        have hM0 : 0 ≤ r.mixPeak := le_trans hmp0' g1
        refine ⟨le_trans f1 g1, by rw [g2, addAtF_length], ?_, ?_, ?_, ?_⟩
        · intro k
          by_cases hk : k < i + 1
          · rw [g4 k hk, addAtF_getD]
            by_cases hk0 : k = i ∧ i < out.length
            · rw [if_pos hk0]
              exact writeBound_write _ _ _ hv
            · rw [if_neg hk0]
              exact writeBound_keep _ _ hM0
          · have e1 : (addAtF out i (toFloat (c.data.getD p 0 * gain))).getD k 0
                = out.getD k 0 := by
              rw [addAtF_getD, if_neg (by omega)]
            rw [← e1]
            exact g3 k
        · intro k hk
          rw [g4 k (by omega), addAtF_getD, if_neg (by omega)]
        · intro b hb
          rcases g5 b hb with rfl | hin
          · exact f3
          · exact Or.inr (f4 b hin)
        · intro b hb
          exact f4 b (g6 b hb)
      · have hlen0 : c.data.length = 0 := by simpa using hlen
        simp only [multiLoopF, hrf, hlen0, ne_eq, not_true_eq_false, if_false] at hr
        obtain ⟨g1, g2, g3, g4, g5, g6⟩ := ih (i + 1) c (p + 1) rest mp' _ _ r hr hc hrest f2 hmp0'
        refine ⟨le_trans f1 g1, g2, g3, fun k hk => g4 k (by omega), ?_, ?_⟩
        · intro b hb
          rcases g5 b hb with rfl | hin
          · exact f3
          · exact Or.inr (f4 b hin)
        · intro b hb
          exact f4 b (g6 b hb)


/-! ### One bound source in floating point -/

/-- A source that does not enter its sample loop is treated in floating point as
in exact arithmetic: no arithmetic is done. -/
theorem mixThreadF_of_mixStart_none (rate : Int) (N : Nat) (t : AudioThread) (m : Mix)
    (h : mixStart rate t = none) : mixThreadF rate N t m = mixThread rate N t m := by
  by_cases hpo : t.passedOver = true
  · simp [mixThreadF, mixThread, hpo]
  · have hpo' : t.passedOver = false := by simpa using hpo
    unfold mixStart at h
    unfold mixThreadF mixThread
    simp only [hpo', Bool.false_eq_true, if_false] at h ⊢
    cases hc : t.currentInput with
    | none => rfl
    | some cur0 =>
      simp only [hc] at h ⊢
      split at h
      · rename_i q1 ptr1 heq
        simp only [heq]
      · rename_i cur q1 ptr1 heq
        split at h
        · rename_i hz
          simp only [heq, hz, if_true]
        · simp at h

/-- A source that enters its sample loop, in floating point: the loop runs from
the state `mixStart` names, and `peak` becomes the `double` sum of `peak` and
the loop's `mixPeak`. -/
theorem mixThreadF_of_mixStart_some (rate : Int) (N : Nat) (t : AudioThread) (m : Mix)
    (cur : AudioThreadInput) (q1 : List AudioThreadInput) (ptr1 : Nat)
    (h : mixStart rate t = some (cur, q1, ptr1)) :
    mixThreadF rate N t m =
      ({ t with currentInput := (sampleLoopF N t.gain cur ptr1 q1 m).currentInput,
                inputQueue := some (sampleLoopF N t.gain cur ptr1 q1 m).queue,
                audioQueuePtr := (sampleLoopF N t.gain cur ptr1 q1 m).audioQueuePtr },
       { out := (sampleLoopF N t.gain cur ptr1 q1 m).out,
         peak := toDouble (m.peak + (sampleLoopF N t.gain cur ptr1 q1 m).mixPeak),
         trace := (sampleLoopF N t.gain cur ptr1 q1 m).trace }) := by
  by_cases hpo : t.passedOver = true
  · simp [mixStart, hpo] at h
  · have hpo' : t.passedOver = false := by simpa using hpo
    unfold mixStart at h
    unfold mixThreadF
    simp only [hpo', Bool.false_eq_true, if_false] at h ⊢
    cases hc : t.currentInput with
    | none => simp [hc] at h
    | some cur0 =>
      simp only [hc] at h ⊢
      split at h
      · simp at h
      · rename_i cur' q1' ptr1' heq
        split at h
        · simp at h
        · rename_i hz
          simp only [Option.some.injEq, Prod.mk.injEq] at h
          obtain ⟨rfl, rfl, rfl⟩ := h
          simp only [heq, hz, if_false]

/-- Mixing one bound source with a non-negative gain and peak-bounded buffers in
floating point: either nothing is added, or `peak` becomes the `double` sum of
`peak` and some `M ≥ 0` and every output sample ends within `writeBound` of
what it held, for that `M`. -/
theorem mixThreadF_bounded (rate : Int) (N : Nat) (t : AudioThread) (m : Mix)
    (h : t.boundedSource) :
    (mixThreadF rate N t m).2.out.length = m.out.length ∧
    (mixThreadF rate N t m).1.boundedSource ∧
    ((mixThreadF rate N t m).2 = m ∨
      ∃ M, 0 ≤ M ∧ (mixThreadF rate N t m).2.peak = toDouble (m.peak + M) ∧
        ∀ k, |(mixThreadF rate N t m).2.out.getD k 0| ≤ writeBound (m.out.getD k 0) M) := by
  cases hms : mixStart rate t with
  | none =>
    rw [mixThreadF_of_mixStart_none rate N t m hms]
    obtain ⟨e1, e2, e3⟩ := mixThread_of_mixStart_none rate N t m hms
    refine ⟨by rw [e1], boundedSource_of_buffers t _ h e2 e3, Or.inl e1⟩
  | some x =>
    obtain ⟨cur, q1, ptr1⟩ := x
    obtain ⟨-, hcurmem, hq1mem, hdata, -⟩ := mixThread_of_mixStart_some rate N t m cur q1 ptr1 hms
    rw [mixThreadF_of_mixStart_some rate N t m cur q1 ptr1 hms]
    have hcurb : cur.peakBoundsSamples := (h.2 cur hcurmem).2
    have hq1b : ∀ b ∈ q1, b.peakBoundsSamples := fun b hb => (h.2 b (hq1mem b hb)).2
    have hpk : 0 ≤ cur.peak := by
      cases hd : cur.data with
      | nil => simp [hd] at hdata
      | cons x xs =>
        exact le_trans (abs_nonneg x) (hcurb x (by rw [hd]; exact List.mem_cons_self _ _))
    have hmp0 : 0 ≤ toFloat (cur.peak * t.gain) := toFloat_nonneg _ (mul_nonneg hpk h.1)
    have key : toFloat (cur.peak * t.gain) ≤ (sampleLoopF N t.gain cur ptr1 q1 m).mixPeak ∧
        (sampleLoopF N t.gain cur ptr1 q1 m).out.length = m.out.length ∧
        (∀ k, |(sampleLoopF N t.gain cur ptr1 q1 m).out.getD k 0| ≤
          writeBound (m.out.getD k 0) (sampleLoopF N t.gain cur ptr1 q1 m).mixPeak) ∧
        (∀ b, (sampleLoopF N t.gain cur ptr1 q1 m).currentInput = some b → b = cur ∨ b ∈ q1) ∧
        (∀ b ∈ (sampleLoopF N t.gain cur ptr1 q1 m).queue, b ∈ q1) := by
      unfold sampleLoopF
      by_cases hch : cur.channels = 1
      · rw [if_pos hch]
        obtain ⟨g1, g2, g3, -, g5, g6⟩ := monoLoopF_bounded t.gain h.1 N 0 cur ptr1 q1 _
          m.out m.trace _ rfl hcurb hq1b (le_refl _) hmp0
        exact ⟨g1, g2, g3, g5, g6⟩
      · rw [if_neg hch]
        obtain ⟨g1, g2, g3, -, g5, g6⟩ := multiLoopF_bounded t.gain h.1 _ 0 cur ptr1 q1 _
          m.out m.trace _ rfl hcurb hq1b (le_refl _) hmp0
        exact ⟨g1, g2, g3, g5, g6⟩
    obtain ⟨g1, g2, g3, g5, g6⟩ := key
    refine ⟨g2, ?_, Or.inr ⟨_, le_trans hmp0 g1, rfl, g3⟩⟩
    refine boundedSource_of_buffers t _ h (by rfl) ?_
    intro b hb
    rw [mem_buffers] at hb
    simp only [Option.getD_some] at hb
    rcases hb with hb | hb
    · rcases g5 b hb with e | e
      · exact e ▸ hcurmem
      · exact hq1mem b e
    · exact hq1mem b (g6 b hb)


/-! ### The loop over the bound sources and the normalising step in floating point -/

/-- The growth factor `(1 + 2 ulp) ^ m` for at most `2 ^ 16 + 8` factors. -/
theorem growth_bounds (m : ℕ) (hm : m ≤ 2 ^ 16 + 8) :
    1 ≤ (1 + 2 * ulpF) ^ m ∧ (1 + 2 * ulpF) ^ m ≤ 1 + (m : ℚ) / 2 ^ 22 ∧
    (1 + 2 * ulpF) ^ m ≤ 2 := by
  obtain ⟨hu0, hu1, -, -, -, -, -, -⟩ := rounding_constants
  have hm' : (m : ℚ) ≤ 2 ^ 16 + 8 := by exact_mod_cast hm
  have hm0 : (0 : ℚ) ≤ m := Nat.cast_nonneg m
  have hx : (0 : ℚ) ≤ 2 * ulpF := by linarith
  have hmx : (m : ℚ) * (2 * ulpF) ≤ (m : ℚ) / 2 ^ 23 := by
    have : (m : ℚ) * (2 * ulpF) ≤ (m : ℚ) * (2 * (1 / 2 ^ 24)) :=
      mul_le_mul_of_nonneg_left (by linarith) hm0
    have e : (m : ℚ) * (2 * (1 / 2 ^ 24)) = (m : ℚ) / 2 ^ 23 := by ring
    linarith
  have hmx1 : (m : ℚ) / 2 ^ 23 ≤ 1 / 2 ^ 6 := by
    rw [div_le_iff₀ (by positivity)]
    norm_num
    linarith
  have h := one_add_pow_le (2 * ulpF) hx m (by linarith)
  have e2 : 2 * ((m : ℚ) / 2 ^ 23) = (m : ℚ) / 2 ^ 22 := by ring
  refine ⟨one_le_pow₀ (by linarith), by linarith, ?_⟩
  have : (1 : ℚ) / 2 ^ 6 ≤ 1 / 2 := by norm_num
  linarith

/-- One more bound source: if every output sample is within
`(1 + 2 ulp) ^ (j + 3) * peak + 8 j tiny` after `j` sources, it is within the
same bound for `j + 1` after a source has added to it and to `peak`. -/
theorem mix_invariant_step (j : ℕ) (hj : j + 1 ≤ 2 ^ 16) (P M o o' : ℚ) (hP : 0 ≤ P)
    (hM : 0 ≤ M) (ho : |o| ≤ (1 + 2 * ulpF) ^ (j + 3) * P + 8 * j * tinyF)
    (ho' : |o'| ≤ writeBound o M) :
    |o'| ≤ (1 + 2 * ulpF) ^ (j + 1 + 3) * toDouble (P + M) + 8 * ((j + 1 : ℕ) : ℚ) * tinyF := by
  obtain ⟨hu0, hu1, ht0, -, hd0, hd1, htd0, htd1⟩ := rounding_constants
  obtain ⟨hA1, -, hA2⟩ := growth_bounds (j + 3) (by omega)
  have hu24 : ulpF ≤ 1 / 4 := le_trans hu1 (by norm_num)
  have hA4 : 1 + 4 * ulpF ≤ (1 + 2 * ulpF) ^ (j + 3) := by
    have h2 : (1 + 2 * ulpF) ^ 2 ≤ (1 + 2 * ulpF) ^ (j + 3) :=
      pow_le_pow_right₀ (by linarith) (by omega)
    have h3 : (1 + 2 * ulpF) ^ 2 = 1 + 4 * ulpF + 4 * (ulpF * ulpF) := by ring
    have h4 : 0 ≤ ulpF * ulpF := mul_nonneg (le_of_lt hu0) (le_of_lt hu0)
    linarith
  have e : (1 + 2 * ulpF) ^ (j + 1 + 3) = (1 + 2 * ulpF) ^ (j + 3) * (1 + 2 * ulpF) := by
    rw [show j + 1 + 3 = (j + 3) + 1 by omega, pow_succ]
  rw [e]
  generalize (1 + 2 * ulpF) ^ (j + 3) = A at *
  have hPM : 0 ≤ P + M := add_nonneg hP hM
  have hd := toDouble_ge (P + M) hPM
  have hj' : (j : ℚ) ≤ 2 ^ 16 := by
    have : j ≤ 2 ^ 16 := by omega
    exact_mod_cast this
  have hj0 : (0 : ℚ) ≤ j := Nat.cast_nonneg j
  push_cast
  unfold writeBound at ho'
  -- the peak side
  have k1 : A * (1 + 2 * ulpF) * ((1 - ulpD) * (P + M) - tinyD)
      ≤ A * (1 + 2 * ulpF) * toDouble (P + M) :=
    mul_le_mul_of_nonneg_left hd (mul_nonneg (by linarith) (by linarith))
  have hcoef : 1 + ulpF ≤ (1 + 2 * ulpF) * (1 - ulpD) := by
    have h1 : ulpD * (1 + 2 * ulpF) ≤ (ulpF / 2 ^ 20) * 2 :=
      mul_le_mul hd1 (by linarith) (by linarith) (by positivity)
    have h2 : (ulpF / 2 ^ 20) * 2 ≤ ulpF := by
      have e2 : (ulpF / 2 ^ 20) * 2 = ulpF * (2 / 2 ^ 20) := by ring
      have h3 : ulpF * (2 / 2 ^ 20) ≤ ulpF * 1 :=
        mul_le_mul_of_nonneg_left (by norm_num) (le_of_lt hu0)
      linarith
    have e3 : (1 + 2 * ulpF) * (1 - ulpD) = 1 + 2 * ulpF - ulpD * (1 + 2 * ulpF) := by ring
    linarith
  have k2 : A * ((1 + ulpF) * (P + M)) ≤ A * (((1 + 2 * ulpF) * (1 - ulpD)) * (P + M)) :=
    mul_le_mul_of_nonneg_left (mul_le_mul_of_nonneg_right hcoef hPM) (by linarith)
  have k3 : A * (1 + 2 * ulpF) * tinyD ≤ 4 * (tinyF / 2 ^ 20) := by
    have h1 : A * (1 + 2 * ulpF) ≤ 2 * 2 :=
      mul_le_mul hA2 (by linarith) (by linarith) (by norm_num)
    have h2 : A * (1 + 2 * ulpF) * tinyD ≤ 2 * 2 * tinyD :=
      mul_le_mul_of_nonneg_right h1 (le_of_lt htd0)
    linarith
  -- the output side
  have k4 : (1 + ulpF) * ((1 + 4 * ulpF) * M) ≤ (1 + ulpF) * (A * M) :=
    mul_le_mul_of_nonneg_left (mul_le_mul_of_nonneg_right hA4 hM) (by linarith)
  have k5 : (1 + ulpF) * |o| ≤ (1 + ulpF) * (A * P + 8 * j * tinyF) :=
    mul_le_mul_of_nonneg_left ho (by linarith)
  have k6 : ulpF * (8 * (j : ℚ) * tinyF) ≤ tinyF / 2 ^ 5 := by
    have h1 : ulpF * (j : ℚ) ≤ (1 / 2 ^ 24) * 2 ^ 16 :=
      mul_le_mul hu1 hj' hj0 (by positivity)
    have h2 : ulpF * (8 * (j : ℚ) * tinyF) = (ulpF * j) * (8 * tinyF) := by ring
    rw [h2]
    have h3 : (ulpF * j) * (8 * tinyF) ≤ ((1 / 2 ^ 24) * 2 ^ 16) * (8 * tinyF) :=
      mul_le_mul_of_nonneg_right h1 (by linarith)
    have h4 : ((1 : ℚ) / 2 ^ 24) * 2 ^ 16 * (8 * tinyF) = tinyF / 2 ^ 5 := by ring
    linarith
  have k7 : ulpF * (3 * tinyF) ≤ tinyF := by
    have h1 : ulpF * (3 * tinyF) ≤ (1 / 4) * (3 * tinyF) :=
      mul_le_mul_of_nonneg_right hu24 (by linarith)
    linarith
  have k8 : 4 * (tinyF / 2 ^ 20) ≤ tinyF := by
    have e2 : 4 * (tinyF / 2 ^ 20) = tinyF * (4 / 2 ^ 20) := by ring
    have h3 : tinyF * (4 / 2 ^ 20) ≤ tinyF * 1 :=
      mul_le_mul_of_nonneg_left (by norm_num) (le_of_lt ht0)
    linarith
  have k9 : tinyF / 2 ^ 5 ≤ tinyF := by
    have e2 : tinyF / 2 ^ 5 = tinyF * (1 / 2 ^ 5) := by ring
    have h3 : tinyF * (1 / 2 ^ 5) ≤ tinyF * 1 :=
      mul_le_mul_of_nonneg_left (by norm_num) (le_of_lt ht0)
    linarith
  have e1 : (1 + ulpF) * (|o| + ((1 + 4 * ulpF) * M + 3 * tinyF)) + tinyF =
      (1 + ulpF) * |o| + (1 + ulpF) * ((1 + 4 * ulpF) * M) + 3 * tinyF
        + ulpF * (3 * tinyF) + tinyF := by ring
  have e2 : (1 + ulpF) * (A * P + 8 * j * tinyF) + (1 + ulpF) * (A * M) =
      A * ((1 + ulpF) * (P + M)) + 8 * j * tinyF + ulpF * (8 * (j : ℚ) * tinyF) := by ring
  have e3 : A * (((1 + 2 * ulpF) * (1 - ulpD)) * (P + M)) =
      A * (1 + 2 * ulpF) * ((1 - ulpD) * (P + M) - tinyD) + A * (1 + 2 * ulpF) * tinyD := by ring
  have e4 : (8 : ℚ) * (j + 1) * tinyF = 8 * j * tinyF + 8 * tinyF := by ring
  rw [e1] at ho'
  rw [e4]
  linarith

/-- The loop over bound sources with non-negative gains and peak-bounded
buffers, in floating point: after `j` sources every output sample is within
`(1 + 2 ulp) ^ (j + 3) * peak + 8 j tiny`. -/
theorem mixAllF_bounded (rate : Int) (N : Nat) (ps : List Ptr) :
    ∀ (h : Ptr → AudioThread) (m : Mix) (j : ℕ), (∀ p ∈ ps, (h p).boundedSource) →
      j + ps.length ≤ 2 ^ 16 → 0 ≤ m.peak →
      (∀ k, |m.out.getD k 0| ≤ (1 + 2 * ulpF) ^ (j + 3) * m.peak + 8 * (j : ℚ) * tinyF) →
      0 ≤ (mixAllF rate N ps h m).2.peak ∧
      (mixAllF rate N ps h m).2.out.length = m.out.length ∧
      ∀ k, |(mixAllF rate N ps h m).2.out.getD k 0| ≤
        (1 + 2 * ulpF) ^ (j + ps.length + 3) * (mixAllF rate N ps h m).2.peak
          + 8 * ((j + ps.length : ℕ) : ℚ) * tinyF := by
  induction ps with
  | nil =>
    intro h m j _ _ hP hinv
    exact ⟨hP, rfl, fun k => by simpa [mixAllF] using hinv k⟩
  | cons a ps ih =>
    intro h m j hsrc hj hP hinv
    simp only [List.length_cons] at hj
    obtain ⟨e2, e4, e3⟩ := mixThreadF_bounded rate N (h a) m (hsrc a (List.mem_cons_self a ps))
    have hsrc' : ∀ p ∈ ps,
        (Function.update h a (mixThreadF rate N (h a) m).1 p).boundedSource := by
      intro p hp
      by_cases hpa : p = a
      · subst hpa; simpa using e4
      · rw [Function.update_noteq hpa]
        exact hsrc p (List.mem_cons_of_mem a hp)
    have hstep : 0 ≤ (mixThreadF rate N (h a) m).2.peak ∧
        ∀ k, |(mixThreadF rate N (h a) m).2.out.getD k 0| ≤
          (1 + 2 * ulpF) ^ (j + 1 + 3) * (mixThreadF rate N (h a) m).2.peak
            + 8 * ((j + 1 : ℕ) : ℚ) * tinyF := by
      rcases e3 with e | ⟨M, hM, hpk, hw⟩
      · rw [e]
        refine ⟨hP, fun k => ?_⟩
        obtain ⟨hu0, -, ht0, -, -, -, -, -⟩ := rounding_constants
        have h1 := hinv k
        have hA : (1 + 2 * ulpF) ^ (j + 3) ≤ (1 + 2 * ulpF) ^ (j + 1 + 3) :=
          pow_le_pow_right₀ (by linarith) (by omega)
        have h2 : (1 + 2 * ulpF) ^ (j + 3) * m.peak ≤ (1 + 2 * ulpF) ^ (j + 1 + 3) * m.peak :=
          mul_le_mul_of_nonneg_right hA hP
        push_cast
        linarith
      · refine ⟨by rw [hpk]; exact toDouble_nonneg _ (add_nonneg hP hM), fun k => ?_⟩
        rw [hpk]
        exact mix_invariant_step j (by omega) m.peak M _ _ hP hM (hinv k) (hw k)
    obtain ⟨i1, i2, i3⟩ := ih (Function.update h a (mixThreadF rate N (h a) m).1)
      (mixThreadF rate N (h a) m).2 (j + 1) hsrc' (by omega) hstep.1 hstep.2
    simp only [mixAllF, List.length_cons]
    refine ⟨i1, by rw [i2, e2], ?_⟩
    intro k
    have := i3 k
    have e : j + 1 + ps.length = j + (ps.length + 1) := by omega
    rw [e] at this
    exact this


/-- The output when the estimate does not exceed 1: the bound of the loop is
within `1 + (n + 6) / 2 ^ 22`. -/
theorem final_bound_unscaled (n : ℕ) (hn : n ≤ 2 ^ 16) (P o : ℚ) (hP1 : P ≤ 1)
    (ho : |o| ≤ (1 + 2 * ulpF) ^ (0 + n + 3) * P + 8 * ((0 + n : ℕ) : ℚ) * tinyF) :
    |o| ≤ 1 + ((n : ℚ) + 6) / 2 ^ 22 := by
  obtain ⟨hu0, hu1, ht0, ht1, -, -, -, -⟩ := rounding_constants
  obtain ⟨hA1, hA3, -⟩ := growth_bounds (0 + n + 3) (by omega)
  have hn' : (n : ℚ) ≤ 2 ^ 16 := by exact_mod_cast hn
  have hn0 : (0 : ℚ) ≤ n := Nat.cast_nonneg n
  have h1 : (1 + 2 * ulpF) ^ (0 + n + 3) * P ≤ (1 + 2 * ulpF) ^ (0 + n + 3) * 1 :=
    mul_le_mul_of_nonneg_left hP1 (by linarith)
  have h2 : 8 * ((0 + n : ℕ) : ℚ) * tinyF ≤ 8 * 2 ^ 16 * (1 / 2 ^ 150) := by
    push_cast
    rw [zero_add]
    exact mul_le_mul (by linarith) ht1 (le_of_lt ht0) (by positivity)
  have h3 : (8 : ℚ) * 2 ^ 16 * (1 / 2 ^ 150) ≤ 1 / 2 ^ 22 := by norm_num
  have e : ((0 + n + 3 : ℕ) : ℚ) / 2 ^ 22 = ((n : ℚ) + 3) / 2 ^ 22 := by push_cast; ring
  rw [e] at hA3
  have e2 : ((n : ℚ) + 6) / 2 ^ 22 = ((n : ℚ) + 3) / 2 ^ 22 + 3 / 2 ^ 22 := by ring
  have h4 : (1 : ℚ) / 2 ^ 22 ≤ 3 / 2 ^ 22 := by norm_num
  rw [e2]
  linarith

/-- The output when the estimate exceeds 1 and is at most `2 ^ 100`: the `float`
product with `invPeak = (float)(1.0 / peak)` is within `1 + (n + 6) / 2 ^ 22`. -/
theorem final_bound_scaled (n : ℕ) (hn : n ≤ 2 ^ 16) (P o : ℚ) (hP1 : 1 < P)
    (hP2 : P ≤ 2 ^ 100)
    (ho : |o| ≤ (1 + 2 * ulpF) ^ (0 + n + 3) * P + 8 * ((0 + n : ℕ) : ℚ) * tinyF) :
    |toFloat (o * toFloat (toDouble (1 / P)))| ≤ 1 + ((n : ℚ) + 6) / 2 ^ 22 := by
  obtain ⟨hu0, hu1, ht0, ht1, hd0, hd1, htd0, htd1⟩ := rounding_constants
  obtain ⟨hA1, -, hA2⟩ := growth_bounds (0 + n + 3) (by omega)
  obtain ⟨-, hB3, -⟩ := growth_bounds (0 + n + 3 + 2) (by omega)
  have hu4 : ulpF ≤ 1 / 4 := le_trans hu1 (by norm_num)
  have ht4 : tinyF ≤ 1 / 4 := le_trans ht1 (by norm_num)
  have hd4 : ulpD ≤ 1 / 4 := by
    have : ulpF / 2 ^ 20 ≤ ulpF := by
      have e2 : ulpF / 2 ^ 20 = ulpF * (1 / 2 ^ 20) := by ring
      have h3 : ulpF * (1 / 2 ^ 20) ≤ ulpF * 1 :=
        mul_le_mul_of_nonneg_left (by norm_num) (le_of_lt hu0)
      linarith
    linarith
  have htdt : tinyD ≤ tinyF := by
    have : tinyF / 2 ^ 20 ≤ tinyF := by
      have e2 : tinyF / 2 ^ 20 = tinyF * (1 / 2 ^ 20) := by ring
      have h3 : tinyF * (1 / 2 ^ 20) ≤ tinyF * 1 :=
        mul_le_mul_of_nonneg_left (by norm_num) (le_of_lt ht0)
      linarith
    linarith
  have hn' : (n : ℚ) ≤ 2 ^ 16 := by exact_mod_cast hn
  have hn0 : (0 : ℚ) ≤ n := Nat.cast_nonneg n
  have hP0 : 0 < P := lt_trans zero_lt_one hP1
  have eB : (1 + 2 * ulpF) ^ (0 + n + 3 + 2)
      = (1 + 2 * ulpF) ^ (0 + n + 3) * ((1 + 2 * ulpF) * (1 + 2 * ulpF)) := by
    rw [pow_add, pow_two]
  rw [eB] at hB3
  have hC : 8 * ((0 + n : ℕ) : ℚ) * tinyF ≤ 1 / 2 ^ 131 := by
    push_cast
    rw [zero_add]
    have h1 : 8 * (n : ℚ) * tinyF ≤ 8 * 2 ^ 16 * (1 / 2 ^ 150) :=
      mul_le_mul (by linarith) ht1 (le_of_lt ht0) (by positivity)
    have h2 : (8 : ℚ) * 2 ^ 16 * (1 / 2 ^ 150) = 1 / 2 ^ 131 := by norm_num
    linarith
  have hC0 : 0 ≤ 8 * ((0 + n : ℕ) : ℚ) * tinyF :=
    mul_nonneg (mul_nonneg (by norm_num) (Nat.cast_nonneg _)) (le_of_lt ht0)
  generalize (1 + 2 * ulpF) ^ (0 + n + 3) = A at *
  generalize 8 * ((0 + n : ℕ) : ℚ) * tinyF = C at *
  -- the quotient and its rounding to `float`
  have hq0 : (0 : ℚ) ≤ 1 / P := by positivity
  have hq1 : 1 / P ≤ 1 := by
    rw [div_le_one hP0]; exact le_of_lt hP1
  have hPq : P * (1 / P) = 1 := by field_simp
  have hdl := toDouble_le (1 / P) hq0
  have hdn := toDouble_nonneg (1 / P) hq0
  have hil := toFloat_le (toDouble (1 / P)) hdn
  have hin := toFloat_nonneg (toDouble (1 / P)) hdn
  generalize toDouble (1 / P) = d at *
  generalize toFloat d = inv at *
  -- `inv` is at most 3
  have hinv3 : inv ≤ 3 := by
    have h1 : (1 + ulpD) * (1 / P) ≤ (1 + ulpD) * 1 :=
      mul_le_mul_of_nonneg_left hq1 (by linarith)
    have h2 : d ≤ 2 := by linarith
    have h3 : (1 + ulpF) * d ≤ (1 + 1 / 4) * 2 :=
      mul_le_mul (by linarith) h2 hdn (by norm_num)
    linarith
  -- `P * inv` is about 1
  have hX : P * inv ≤ 1 + 2 * ulpF + 3 / 2 ^ 50 := by
    have h1 : P * inv ≤ P * ((1 + ulpF) * d + tinyF) :=
      mul_le_mul_of_nonneg_left hil (le_of_lt hP0)
    have h2 : P * d ≤ P * ((1 + ulpD) * (1 / P) + tinyD) :=
      mul_le_mul_of_nonneg_left hdl (le_of_lt hP0)
    have e1 : P * ((1 + ulpD) * (1 / P) + tinyD) = (1 + ulpD) * (P * (1 / P)) + tinyD * P := by
      ring
    rw [e1, hPq, mul_one] at h2
    have h3 : (1 + ulpF) * (P * d) ≤ (1 + ulpF) * ((1 + ulpD) + tinyD * P) :=
      mul_le_mul_of_nonneg_left h2 (by linarith)
    have e2 : P * ((1 + ulpF) * d + tinyF) = (1 + ulpF) * (P * d) + tinyF * P := by ring
    have h4 : tinyF * P ≤ (1 / 2 ^ 150) * 2 ^ 100 :=
      mul_le_mul ht1 hP2 (le_of_lt hP0) (by positivity)
    have h5 : tinyD * P ≤ tinyF * P := mul_le_mul_of_nonneg_right htdt (le_of_lt hP0)
    have h6 : (1 + ulpF) * (tinyD * P) ≤ (1 + 1 / 4) * ((1 / 2 ^ 150) * 2 ^ 100) :=
      mul_le_mul (by linarith) (by linarith) (mul_nonneg (le_of_lt htd0) (le_of_lt hP0))
        (by norm_num)
    have h7 : (1 + ulpF) * (1 + ulpD) ≤ 1 + 2 * ulpF := by
      have h8 : ulpD * (1 + ulpF) ≤ (ulpF / 2 ^ 20) * 2 :=
        mul_le_mul hd1 (by linarith) (by linarith) (div_nonneg (le_of_lt hu0) (by norm_num))
      have h9 : (ulpF / 2 ^ 20) * 2 ≤ ulpF := by
        have e3 : (ulpF / 2 ^ 20) * 2 = ulpF * (2 / 2 ^ 20) := by ring
        have h10 : ulpF * (2 / 2 ^ 20) ≤ ulpF * 1 :=
          mul_le_mul_of_nonneg_left (by norm_num) (le_of_lt hu0)
        linarith
      have e4 : (1 + ulpF) * (1 + ulpD) = 1 + ulpF + ulpD * (1 + ulpF) := by ring
      linarith
    have e5 : (1 + ulpF) * ((1 + ulpD) + tinyD * P)
        = (1 + ulpF) * (1 + ulpD) + (1 + ulpF) * (tinyD * P) := by ring
    have h11 : (1 + 1 / 4) * (((1 : ℚ) / 2 ^ 150) * 2 ^ 100) + (1 / 2 ^ 150) * 2 ^ 100
        ≤ 3 / 2 ^ 50 := by norm_num
    linarith
  -- the product
  have hp1 : |o * inv| = |o| * inv := by rw [abs_mul, abs_of_nonneg hin]
  have hp2 : |o| * inv ≤ (A * P + C) * inv := mul_le_mul_of_nonneg_right ho hin
  have hp3 : A * (P * inv) ≤ A * (1 + 2 * ulpF + 3 / 2 ^ 50) :=
    mul_le_mul_of_nonneg_left hX (by linarith)
  have hp4 : C * inv ≤ C * 3 := mul_le_mul_of_nonneg_left hinv3 hC0
  have e6 : (A * P + C) * inv = A * (P * inv) + C * inv := by ring
  have hp5 : |o * inv| ≤ A * (1 + 2 * ulpF + 3 / 2 ^ 50) + C * 3 := by
    rw [hp1]; linarith
  have hr := toFloat_abs_le (o * inv)
  have hp6 : (1 + ulpF) * |o * inv| ≤ (1 + ulpF) * (A * (1 + 2 * ulpF + 3 / 2 ^ 50) + C * 3) :=
    mul_le_mul_of_nonneg_left hp5 (by linarith)
  -- the sizes
  have hp7 : (1 + ulpF) * (A * (1 + 2 * ulpF)) ≤ A * ((1 + 2 * ulpF) * (1 + 2 * ulpF)) := by
    have h1 : (1 + ulpF) * (1 + 2 * ulpF) ≤ (1 + 2 * ulpF) * (1 + 2 * ulpF) :=
      mul_le_mul_of_nonneg_right (by linarith) (by linarith)
    have h2 : A * ((1 + ulpF) * (1 + 2 * ulpF)) ≤ A * ((1 + 2 * ulpF) * (1 + 2 * ulpF)) :=
      mul_le_mul_of_nonneg_left h1 (by linarith)
    have e7 : (1 + ulpF) * (A * (1 + 2 * ulpF)) = A * ((1 + ulpF) * (1 + 2 * ulpF)) := by ring
    linarith
  have hp8 : (1 + ulpF) * (A * (3 / 2 ^ 50)) ≤ (1 + 1 / 4) * (2 * (3 / 2 ^ 50)) :=
    mul_le_mul (by linarith) (mul_le_mul_of_nonneg_right hA2 (by positivity))
      (mul_nonneg (by linarith) (by positivity)) (by norm_num)
  have hp9 : (1 + ulpF) * (C * 3) ≤ (1 + 1 / 4) * ((1 / 2 ^ 131) * 3) :=
    mul_le_mul (by linarith) (mul_le_mul_of_nonneg_right hC (by norm_num))
      (mul_nonneg hC0 (by norm_num)) (by norm_num)
  have e8 : (1 + ulpF) * (A * (1 + 2 * ulpF + 3 / 2 ^ 50) + C * 3) =
      (1 + ulpF) * (A * (1 + 2 * ulpF)) + (1 + ulpF) * (A * (3 / 2 ^ 50))
        + (1 + ulpF) * (C * 3) := by ring
  have hnum : (1 + 1 / 4) * (2 * ((3 : ℚ) / 2 ^ 50)) + (1 + 1 / 4) * ((1 / 2 ^ 131) * 3)
      + 1 / 2 ^ 150 ≤ 1 / 2 ^ 22 := by norm_num
  have e9 : ((0 + n + 3 + 2 : ℕ) : ℚ) / 2 ^ 22 = ((n : ℚ) + 5) / 2 ^ 22 := by push_cast; ring
  rw [e9] at hB3
  have e10 : ((n : ℚ) + 6) / 2 ^ 22 = ((n : ℚ) + 5) / 2 ^ 22 + 1 / 2 ^ 22 := by ring
  rw [e10]
  linarith


/-- The output of the floating-point callback on a unit that is not terminated:
the early return on an empty list gives what the loop and the normalising step
give. -/
theorem audioCallbackF_out_of_running (threads : Ptr → AudioThread) (out : List ℚ)
    (N status : Nat) (u : Ptr) (ht : (threads u).terminated = false) :
    (audioCallbackF threads out N status u).out =
      (normalizeF N (mixAllF (threads u).getSampleRate N (threads u).boundThreads
        (noteUnderflow threads status u) ⟨memsetZero out (N * 2), 0, []⟩).2).out := by
  by_cases hb : (threads u).boundThreads = []
  · have h10 : ¬ ((1 : ℚ) < 0) := by norm_num
    simp [audioCallbackF, AudioThread.isTerminated, ht, hb, mixAllF, normalizeF, h10]
  · simp [audioCallbackF, AudioThread.isTerminated, ht, hb]

theorem noteUnderflow_boundedSource (threads : Ptr → AudioThread) (status : Nat) (u p : Ptr)
    (h : (threads p).boundedSource) : (noteUnderflow threads status u p).boundedSource := by
  obtain ⟨c, hc⟩ := noteUnderflow_eq threads status u p
  rw [hc]
  exact boundedSource_of_buffers (threads p) _ h rfl (fun b hb => hb)

/-- C3 amended, the output nearly never clips: in the `float` and `double`
arithmetic of the callback, when every bound source has a non-negative gain and
every buffer it holds, in flight or queued, has one or two channels and a peak
field that bounds the absolute value of its samples, the owner has
`n ≤ 2 ^ 16` bound sources, and the peak estimate is at most `2 ^ 100` (so that
nothing overflows), every one of the `2 * N` samples of the output buffer after
the callback has absolute value at most `1 + (n + 6) / 2 ^ 22`. -/
theorem audioCallbackF_output_nearly_never_clips (threads : Ptr → AudioThread) (out : List ℚ)
    (N status : Nat) (u : Ptr) (hlen : out.length = 2 * N)
    (hsrc : ∀ p ∈ (threads u).boundThreads, (threads p).boundedSource)
    (hn : (threads u).boundThreads.length ≤ 2 ^ 16)
    (hpk : callbackPeakF threads out N status u ≤ 2 ^ 100) :
    (audioCallbackF threads out N status u).out.length = 2 * N ∧
    ∀ x ∈ (audioCallbackF threads out N status u).out,
      |x| ≤ 1 + (((threads u).boundThreads.length : ℚ) + 6) / 2 ^ 22 := by
  have hz : memsetZero out (N * 2) = List.replicate (2 * N) 0 := by
    rw [Nat.mul_comm N 2]; exact memsetZero_full out (2 * N) hlen
  have hpos : (0 : ℚ) ≤ (((threads u).boundThreads.length : ℚ) + 6) / 2 ^ 22 :=
    div_nonneg (add_nonneg (Nat.cast_nonneg _) (by norm_num)) (by norm_num)
  by_cases ht : (threads u).terminated = true
  · have e : (audioCallbackF threads out N status u).out = List.replicate (2 * N) 0 := by
      simp [audioCallbackF, AudioThread.isTerminated, ht, hz]
    rw [e]
    refine ⟨by simp, ?_⟩
    intro x hx
    rw [(List.mem_replicate.mp hx).2, abs_zero]
    linarith
  · have ht' : (threads u).terminated = false := by simpa using ht
    have hout := audioCallbackF_out_of_running threads out N status u ht'
    have hm0 : (memsetZero out (N * 2)).length = 2 * N := by simp [hz]
    have hzero : ∀ k, (memsetZero out (N * 2)).getD k 0 = 0 := by
      intro k; rw [hz]; exact replicate_zero_getD (2 * N) k
    obtain ⟨e1, e2, e3⟩ := mixAllF_bounded (threads u).getSampleRate N (threads u).boundThreads
      (noteUnderflow threads status u) ⟨memsetZero out (N * 2), 0, []⟩ 0
      (fun p hp => noteUnderflow_boundedSource threads status u p (hsrc p hp))
      (by omega) (le_refl _)
      (by intro k; simp only [hzero k, abs_zero, mul_zero, Nat.cast_zero, zero_mul, add_zero]
          exact le_refl _)
    unfold callbackPeakF at hpk
    rw [hout]
    by_cases hgt : (mixAllF (threads u).getSampleRate N (threads u).boundThreads
        (noteUnderflow threads status u) ⟨memsetZero out (N * 2), 0, []⟩).2.peak > 1
    · have hn' : (normalizeF N (mixAllF (threads u).getSampleRate N (threads u).boundThreads
          (noteUnderflow threads status u) ⟨memsetZero out (N * 2), 0, []⟩).2).out =
          scaleLoopF (toFloat (toDouble (1 / (mixAllF (threads u).getSampleRate N
            (threads u).boundThreads (noteUnderflow threads status u)
            ⟨memsetZero out (N * 2), 0, []⟩).2.peak)))
            (mixAllF (threads u).getSampleRate N (threads u).boundThreads
              (noteUnderflow threads status u) ⟨memsetZero out (N * 2), 0, []⟩).2.out
            (N * 2) := by
        simp [normalizeF, hgt]
      rw [hn']
      refine ⟨by rw [scaleLoopF_length, e2, hm0], ?_⟩
      intro x hx
      obtain ⟨k, hk, rfl⟩ := exists_getD_of_mem _ x hx
      rw [scaleLoopF_length, e2] at hk
      rw [scaleLoopF_getD _ _ _ _ (by rw [e2]; exact hk),
        if_pos (by rw [hm0] at hk; omega : k < N * 2)]
      exact final_bound_scaled _ hn _ _ hgt hpk (e3 k)
    · have hn' : normalizeF N (mixAllF (threads u).getSampleRate N (threads u).boundThreads
          (noteUnderflow threads status u) ⟨memsetZero out (N * 2), 0, []⟩).2 =
          (mixAllF (threads u).getSampleRate N (threads u).boundThreads
          (noteUnderflow threads status u) ⟨memsetZero out (N * 2), 0, []⟩).2 := by
        simp [normalizeF, hgt]
      rw [hn']
      refine ⟨by rw [e2, hm0], ?_⟩
      intro x hx
      obtain ⟨k, -, rfl⟩ := exists_getD_of_mem _ x hx
      exact final_bound_unscaled _ hn _ _ (not_lt.mp hgt) (e3 k)

/-- Witness of `audioCallbackF_output_nearly_never_clips`: the two sources of
`exTieHeap`, whose output `1 + 2 ^ -23` exceeds 1 and is within
`1 + (2 + 6) / 2 ^ 22`. -/
theorem audioCallbackF_output_nearly_never_clips_witness :
    (audioCallbackF exTieHeap [0, 0] 1 0 0).out.length = 2 * 1 ∧
    ∀ x ∈ (audioCallbackF exTieHeap [0, 0] 1 0 0).out,
      |x| ≤ 1 + (((exTieHeap 0).boundThreads.length : ℚ) + 6) / 2 ^ 22 :=
  audioCallbackF_output_nearly_never_clips exTieHeap [0, 0] 1 0 0 (by decide) (by decide!)
    (by decide) (by decide!)

end CubicSDR
